import Mathlib

/-!
# Action_AutoImage (cpptraj): a shallow embedding and its verified properties

The embedding follows `src/Action_AutoImage.cpp`.  C++ `double` values are
modelled as exact rationals (`ℚ`); the fractional offset `Dxyz`, which is a
quotient by a box length and need not be finite, is a `Dbl`.  C++ `int` values
are modelled as `Nat`/`Int`; the loop bounds and counters of the search, which
can leave the 32-bit range, carry that range explicitly (`toInt`, `wrapInt`).
The in-place mutation of the frame is modelled by explicit state passing.
-/

namespace Cpptraj

/-! ## Doubles that need not be finite, and 32-bit ints -/

/-- Modelled from the spec: a C++ `double` as far as the search bounds depend
on it: a finite value (an exact rational), an infinity, or NaN. -/
inductive Dbl where
  | fin (q : ℚ)
  | posInf
  | negInf
  | nan
deriving DecidableEq, Repr

/-- Modelled from the spec: the quotient `a / b` of two finite doubles.  A
zero divisor gives an infinity with the sign of `a`, and NaN for `0.0 / 0.0`. -/
def Dbl.div (a b : ℚ) : Dbl :=
  if b = 0 then
    if 0 < a then Dbl.posInf else if a < 0 then Dbl.negInf else Dbl.nan
  else Dbl.fin (a / b)

/-- The smallest value of a C++ `int`. -/
def INT_MIN : Int := -2147483648

/-- The largest value of a C++ `int`. -/
def INT_MAX : Int := 2147483647

/-- The conversion of an integral `double` to `int`: the value itself when an
`int` can hold it, and `INT_MIN` otherwise (what the conversion instruction of
x86-64 yields for a value out of range, for an infinity and for NaN; C++
leaves that case undefined). -/
def toInt (x : Int) : Int := if INT_MIN ≤ x ∧ x ≤ INT_MAX then x else INT_MIN

/-- The result of `int` arithmetic, taken to wrap around modulo `2^32`
(two's complement; C++ leaves signed overflow undefined). -/
def wrapInt (x : Int) : Int := (x - INT_MIN) % 4294967296 + INT_MIN

/-! ## Vec3 and Matrix_3x3 -/

/-- Modelled from the spec: the class `Vec3`, three Cartesian components. -/
structure Vec3 where
  x : ℚ
  y : ℚ
  z : ℚ
deriving DecidableEq, Repr

/-- Modelled from the spec: a `Vec3` whose components need not be finite. -/
structure DblVec3 where
  x : Dbl
  y : Dbl
  z : Dbl
deriving DecidableEq, Repr

/-- A `Vec3` with finite components. -/
def DblVec3.ofVec3 (v : Vec3) : DblVec3 := ⟨Dbl.fin v.x, Dbl.fin v.y, Dbl.fin v.z⟩

namespace Vec3

/-- The vector `Vec3(0.0)`. -/
def zero : Vec3 := ⟨0, 0, 0⟩

/-- Componentwise sum, `operator+`. -/
def add (a b : Vec3) : Vec3 := ⟨a.x + b.x, a.y + b.y, a.z + b.z⟩

/-- Componentwise difference, `operator-`. -/
def sub (a b : Vec3) : Vec3 := ⟨a.x - b.x, a.y - b.y, a.z - b.z⟩

/-- Sign flip of every component, `Neg()`. -/
def neg (a : Vec3) : Vec3 := ⟨-a.x, -a.y, -a.z⟩

/-- Componentwise quotient, `operator/(Vec3)`. -/
def div (a b : Vec3) : DblVec3 := ⟨Dbl.div a.x b.x, Dbl.div a.y b.y, Dbl.div a.z b.z⟩

/-- Division of every component by one scalar. -/
def sdiv (a : Vec3) (s : ℚ) : Vec3 := ⟨a.x / s, a.y / s, a.z / s⟩

/-- Multiplication of every component by one scalar. -/
def smul (s : ℚ) (a : Vec3) : Vec3 := ⟨s * a.x, s * a.y, s * a.z⟩

end Vec3

/-- Modelled from the spec: the class `Matrix_3x3`, a row-major 3x3 matrix
with entries `M_[0] .. M_[8]`. -/
structure Matrix_3x3 where
  m0 : ℚ
  m1 : ℚ
  m2 : ℚ
  m3 : ℚ
  m4 : ℚ
  m5 : ℚ
  m6 : ℚ
  m7 : ℚ
  m8 : ℚ
deriving DecidableEq, Repr

namespace Matrix_3x3

/-- Modelled from the spec: `Matrix_3x3::operator*(Vec3)`, the matrix applied
to a column vector (used as `recip * delta`). -/
def mulVec (m : Matrix_3x3) (v : Vec3) : Vec3 :=
  ⟨m.m0 * v.x + m.m1 * v.y + m.m2 * v.z,
   m.m3 * v.x + m.m4 * v.y + m.m5 * v.z,
   m.m6 * v.x + m.m7 * v.y + m.m8 * v.z⟩

/-- Modelled from the spec: `Matrix_3x3::TransposeMult(Vec3)`, the transpose
of the cell matrix applied to a vector of fractional coordinates. -/
def TransposeMult (m : Matrix_3x3) (v : Vec3) : Vec3 :=
  ⟨m.m0 * v.x + m.m3 * v.y + m.m6 * v.z,
   m.m1 * v.x + m.m4 * v.y + m.m7 * v.z,
   m.m2 * v.x + m.m5 * v.y + m.m8 * v.z⟩

end Matrix_3x3

/-- Modelled from the spec: `DIST2_NoImage`, the squared Euclidean distance
of two points without imaging. -/
def DIST2_NoImage (a b : Vec3) : ℚ :=
  (a.x - b.x) * (a.x - b.x) + (a.y - b.y) * (a.y - b.y) + (a.z - b.z) * (a.z - b.z)

/-! ## Box and Frame -/

/-- Modelled from the spec: the box of a frame.  `ucell` and `recip` are the
matrices that `Box::ToRecip` yields for this box (its trigonometry is not
part of the embedding, so its results are carried as data). -/
structure Box where
  BoxX : ℚ
  BoxY : ℚ
  BoxZ : ℚ
  ucell : Matrix_3x3
  recip : Matrix_3x3
deriving DecidableEq, Repr

namespace Box

/-- Modelled from the spec: `Box::Center()`, box xyz over 2. -/
def Center (b : Box) : Vec3 := ⟨b.BoxX / 2, b.BoxY / 2, b.BoxZ / 2⟩

/-- Modelled from the spec: `Box::Lengths()`. -/
def Lengths (b : Box) : Vec3 := ⟨b.BoxX, b.BoxY, b.BoxZ⟩

end Box

/-- Modelled from the spec: the coordinate buffer of a frame, one `Vec3` and
one mass per atom, together with the frame's box. -/
structure Frame where
  X : List Vec3
  Mass : List ℚ
  BoxCrd : Box
deriving DecidableEq, Repr

/-- Modelled from the spec: the sum of the positions of the listed atoms,
each weighted by `w`, as the centre primitives of `Frame` accumulate it. -/
def sumAtoms (X : List Vec3) (w : Nat → ℚ) : List Nat → Vec3
  | [] => Vec3.zero
  | a :: as => Vec3.add (Vec3.smul (w a) (X.getD a Vec3.zero)) (sumAtoms X w as)

/-- Modelled from the spec: the sum of the weights `w` of the listed atoms
(`sumMass` of the centre primitives of `Frame`). -/
def sumWeights (w : Nat → ℚ) : List Nat → ℚ
  | [] => 0
  | a :: as => w a + sumWeights w as

/-- Modelled from the spec: the weighted centre of the listed atoms; the zero
vector when the weights sum to zero. -/
def centerOf (X : List Vec3) (w : Nat → ℚ) (atoms : List Nat) : Vec3 :=
  if sumWeights w atoms = 0 then Vec3.zero
  else Vec3.sdiv (sumAtoms X w atoms) (sumWeights w atoms)

/-- Modelled from the spec: add `v` to the atoms with index in
`[first, last)`; `i` is the index of the head of the list. -/
def translateFrom (v : Vec3) (first last : Nat) : Nat → List Vec3 → List Vec3
  | _, [] => []
  | i, p :: ps =>
    (if first ≤ i ∧ i < last then Vec3.add p v else p) :: translateFrom v first last (i + 1) ps

namespace Frame

/-- Modelled from the spec: `Frame::VGeometricCenter(AtomMask)`, the
unweighted centroid of the selected atoms. -/
def VGeometricCenter (f : Frame) (mask : List Nat) : Vec3 :=
  centerOf f.X (fun _ => 1) mask

/-- Modelled from the spec: `Frame::VCenterOfMass(AtomMask)`, the
mass-weighted centroid of the selected atoms. -/
def VCenterOfMass (f : Frame) (mask : List Nat) : Vec3 :=
  centerOf f.X (fun a => f.Mass.getD a 0) mask

/-- Modelled from the spec: `Frame::VGeometricCenter(int,int)` over the atom
range `[firstAtom, lastAtom)`. -/
def VGeometricCenterR (f : Frame) (firstAtom lastAtom : Nat) : Vec3 :=
  f.VGeometricCenter (List.range' firstAtom (lastAtom - firstAtom))

/-- Modelled from the spec: `Frame::VCenterOfMass(int,int)` over the atom
range `[firstAtom, lastAtom)`. -/
def VCenterOfMassR (f : Frame) (firstAtom lastAtom : Nat) : Vec3 :=
  f.VCenterOfMass (List.range' firstAtom (lastAtom - firstAtom))

/-- Modelled from the spec: `Frame::Translate(Vec3)`, the whole frame moved
by one vector. -/
def Translate (f : Frame) (v : Vec3) : Frame :=
  { f with X := f.X.map (fun p => Vec3.add p v) }

/-- Modelled from the spec: `Frame::Translate(Vec3,int,int)`, the atoms of
`[firstAtom, lastAtom)` moved by one vector. -/
def TranslateR (f : Frame) (v : Vec3) (firstAtom lastAtom : Nat) : Frame :=
  { f with X := translateFrom v firstAtom lastAtom 0 f.X }

end Frame

/-! ## Topology -/

/-- Modelled from the spec: one molecule of the topology, the half-open atom
range `[BeginAtom, EndAtom)` and the solvent flag. -/
structure Molecule where
  BeginAtom : Nat
  EndAtom : Nat
  IsSolvent : Bool
deriving DecidableEq, Repr

/-- Modelled from the spec: `Molecule::NumAtoms()`. -/
def Molecule.NumAtoms (m : Molecule) : Nat := m.EndAtom - m.BeginAtom

/-- Modelled from the spec: the topology accessor.  `mols` are the molecules
in topology order, `atomMolNum` holds `MolNum()` of every atom, and
`selectAtoms` is the mask evaluator: the selected atom indices of a mask
expression in increasing order, or `none` when the mask cannot be set up. -/
structure Topology where
  mols : List Molecule
  atomMolNum : List Nat
  selectAtoms : String → Option (List Nat)

namespace Topology

/-- Number of molecules, `Nmol()`. -/
def Nmol (t : Topology) : Nat := t.mols.length

/-- Number of atoms, `Natom()`. -/
def Natom (t : Topology) : Nat := t.atomMolNum.length

/-- Molecule number of an atom, `Top()[atom].MolNum()`. -/
def MolNum (t : Topology) (atom : Nat) : Int := (t.atomMolNum.getD atom 0 : Nat)

end Topology

/-- Modelled from the spec: the box types of `Box::BoxType`. -/
inductive BoxType where
  | NOBOX
  | ORTHO
  | TRUNCOCT
  | RHOMBIC
  | NONORTHO
deriving DecidableEq, Repr

/-- Modelled from the spec: the return values of `Action::RetType` that
`Action_AutoImage` uses. -/
inductive RetType where
  | OK
  | ERR
  | SKIP
  | MODIFY_COORDS
deriving DecidableEq, Repr

/-- The `TriclinicArg` setting. -/
inductive TriclinicArg where
  | OFF
  | FORCE
  | FAMILIAR
deriving DecidableEq, Repr

/-! ## The action's state -/

/-- Data members of `Action_AutoImage`.  `anchorMask_` holds the selected
atoms of the anchor mask; the lists are flat `begin, end, begin, end, ...`
sequences as in the source (`pairList`). -/
structure Action_AutoImage where
  debug_ : Int
  origin_ : Bool
  ortho_ : Bool
  usecom_ : Bool
  truncoct_ : Bool
  useMass_ : Bool
  triclinic_ : TriclinicArg
  anchor_ : String
  fixed_ : String
  mobile_ : String
  anchorMask_ : List Nat
  fixedList_ : List Nat
  mobileList_ : List Nat
deriving DecidableEq, Repr

/-- The constructor `Action_AutoImage::Action_AutoImage()`. -/
def Action_AutoImage.new : Action_AutoImage :=
  { debug_ := 0, origin_ := false, ortho_ := false, usecom_ := true, truncoct_ := false,
    useMass_ := false, triclinic_ := TriclinicArg.OFF, anchor_ := "", fixed_ := "",
    mobile_ := "", anchorMask_ := [], fixedList_ := [], mobileList_ := [] }

/-- Modelled from the spec: the part of `ArgList` that `Init` reads: the
presence of each keyword, the strings after `anchor`, `fixed` and `mobile`
(empty when absent) and the next free mask expression (empty when none). -/
structure ArgList where
  origin : Bool
  firstatom : Bool
  familiar : Bool
  triclinic : Bool
  anchor : String
  fixed : String
  mobile : String
  maskNext : String
deriving DecidableEq, Repr

/-- The keyword handling of `Action_AutoImage::Init`. -/
def Action_AutoImage.Init (self : Action_AutoImage) (actionArgs : ArgList) (debugIn : Int) :
    RetType × Action_AutoImage :=
  let s0 := { self with debug_ := debugIn }
  let s1 := { s0 with origin_ := actionArgs.origin }
  let s2 := { s1 with usecom_ := !actionArgs.firstatom }
  let s3 := if actionArgs.familiar then { s2 with triclinic_ := TriclinicArg.FAMILIAR } else s2
  let s4 := if actionArgs.triclinic then { s3 with triclinic_ := TriclinicArg.FORCE } else s3
  let s5 := { s4 with anchor_ := actionArgs.anchor, fixed_ := actionArgs.fixed,
                      mobile_ := actionArgs.mobile }
  let s6 := if s5.anchor_ = "" then { s5 with anchor_ := actionArgs.maskNext } else s5
  (RetType.OK, s6)

/-! ## SetupAtomRanges and Setup -/

/-- The inner loop of `SetupAtomRanges`: `for (atom = firstAtom; atom < lastAtom; ++atom)`
with `n` iterations left, stopping at the first atom of the mask. -/
def rangeIsValid (inMask : Nat → Bool) : Nat → Nat → Bool
  | 0, _ => false
  | n + 1, atom => if inMask atom then true else rangeIsValid inMask n (atom + 1)

/-- The molecule loop of `SetupAtomRanges`, appending to `imageList`. -/
def atomRangesLoop (inMask : Nat → Bool) : List Molecule → List Nat → List Nat
  | [], imageList => imageList
  | mol :: rest, imageList =>
    let firstAtom := mol.BeginAtom
    let lastAtom := mol.EndAtom
    if rangeIsValid inMask (lastAtom - firstAtom) firstAtom then
      atomRangesLoop inMask rest (imageList ++ [firstAtom, lastAtom])
    else
      atomRangesLoop inMask rest imageList

/-- The function `Action_AutoImage::SetupAtomRanges`. -/
def SetupAtomRanges (currentParm : Topology) (maskexpr : String) : List Nat :=
  match currentParm.selectAtoms maskexpr with
  | none => []
  | some Mask1 =>
    if Mask1 = [] then []
    else atomRangesLoop (fun atom => decide (atom ∈ Mask1)) currentParm.mols []

/-- The loop of `Setup` over the remaining atoms of the anchor mask: the
molecule number is replaced by `1` as soon as an atom of another molecule
is met. -/
def anchorMolLoop (top : Topology) : Int → List Nat → Int
  | anchormolnum, [] => anchormolnum
  | anchormolnum, a :: rest =>
    if top.MolNum a ≠ anchormolnum then 1 else anchorMolLoop top anchormolnum rest

/-- The automatic search of `Setup` through the molecules; `molnum` is the
index of the head molecule. -/
def autoLoop (fixedauto mobileauto : Bool) (anchormolnum : Int) :
    Nat → List Molecule → List Nat × List Nat → List Nat × List Nat
  | _, [], lists => lists
  | molnum, mol :: rest, (fixedList, mobileList) =>
    let lists :=
      if (molnum : Int) ≠ anchormolnum then
        if mol.IsSolvent || mol.NumAtoms = 1 then
          if mobileauto then (fixedList, mobileList ++ [mol.BeginAtom, mol.EndAtom])
          else (fixedList, mobileList)
        else
          if fixedauto then (fixedList ++ [mol.BeginAtom, mol.EndAtom], mobileList)
          else (fixedList, mobileList)
      else (fixedList, mobileList)
    autoLoop fixedauto mobileauto anchormolnum (molnum + 1) rest lists

/-- The anchor part of `Setup`: the anchor mask and `anchormolnum`, or
`none` where `Setup` returns `Action::ERR`. -/
def setupAnchor (anchor : String) (top : Topology) : Option (List Nat × Int) :=
  if anchor ≠ "" then
    match top.selectAtoms anchor with
    | none => none
    | some [] => none
    | some (a :: rest) => some (a :: rest, anchorMolLoop top (top.MolNum a) rest)
  else
    match top.mols with
    | [] => some ([], 0)
    | mol0 :: _ => some (List.range' mol0.BeginAtom (mol0.EndAtom - mol0.BeginAtom), 0)

/-- The function `Action_AutoImage::Setup`. -/
def Action_AutoImage.Setup (self : Action_AutoImage) (top : Topology) (boxType : BoxType) :
    RetType × Action_AutoImage :=
  if top.Nmol < 1 then (RetType.SKIP, self)
  else if boxType = BoxType.NOBOX then (RetType.SKIP, self)
  else
    let ortho := decide (boxType = BoxType.ORTHO ∧ self.triclinic_ = TriclinicArg.OFF)
    let triclinic :=
      if boxType = BoxType.TRUNCOCT ∧ self.triclinic_ ≠ TriclinicArg.FORCE
          ∧ self.triclinic_ ≠ TriclinicArg.FAMILIAR then TriclinicArg.FAMILIAR
      else self.triclinic_
    match setupAnchor self.anchor_ top with
    | none =>
      (RetType.ERR, { self with ortho_ := ortho, triclinic_ := triclinic, anchorMask_ := [] })
    | some (mask, anchormolnum) =>
      let fixedauto := decide (self.fixed_ = "")
      let mobileauto := decide (self.mobile_ = "")
      let fixedList := if self.fixed_ ≠ "" then SetupAtomRanges top self.fixed_ else []
      let mobileList := if self.mobile_ ≠ "" then SetupAtomRanges top self.mobile_ else []
      let lists :=
        if fixedauto || mobileauto then
          autoLoop fixedauto mobileauto anchormolnum 0 top.mols (fixedList, mobileList)
        else (fixedList, mobileList)
      (RetType.OK,
        { self with
          ortho_ := ortho, triclinic_ := triclinic, anchorMask_ := mask,
          fixedList_ := lists.1, mobileList_ := lists.2,
          truncoct_ := decide (triclinic = TriclinicArg.FAMILIAR) })

/-- The `(begin, end)` pairs of a flat pair list. -/
def pairsOf : List Nat → List (Nat × Nat)
  | a :: b :: rest => (a, b) :: pairsOf rest
  | _ => []

/-! ## DoAction -/

/-- The static function `Round`: the returned `int` loop bound and the
direction `dir`.  The test `d < 0.0` holds for a negative finite value and for
minus infinity, and fails for NaN; `floor(d) - 1` and `ceil(d) + 1` are
converted to the `int` return type, which gives `INT_MIN` for a value that is
out of range, infinite or NaN. -/
def Round : Dbl → Int × Int
  | Dbl.fin d => if d < 0 then (toInt (Int.floor d - 1), -1) else (toInt (Int.ceil d + 1), 1)
  | Dbl.negInf => (INT_MIN, -1)
  | Dbl.posInf => (INT_MIN, 1)
  | Dbl.nan => (INT_MIN, 1)

/-- The values taken by the `int` counter of
`for (i = start; i != max; i += dir)`, followed for at most `fuel`
iterations.  The increment is `int` arithmetic; in the search it can wrap
around only when the bound is the `INT_MIN` that `Round` returns for an
offset out of range. -/
def loopIdx : Nat → Int → Int → Int → List Int
  | 0, _, _, _ => []
  | fuel + 1, i, max, dir =>
    if i = max then [] else i :: loopIdx fuel (wrapInt (i + dir)) max dir

/-- The counter values of `for (i = 0; i != max; i += dir)`. -/
def forIdx (max dir : Int) : List Int := loopIdx max.natAbs 0 max dir

/-- The running minimum of the fixed-molecule search: `mindist2`, `minTrans`
and `minImage`. -/
structure SearchState where
  mindist2 : ℚ
  minTrans : Vec3
  minImage : Vec3
deriving DecidableEq, Repr

/-- The translation `Trans` of the candidate `(ix, iy, iz)`. -/
def candTrans (ortho : Bool) (box : Box) (ix iy iz : Int) : Vec3 :=
  if ortho then ⟨box.BoxX * ix, box.BoxY * iy, box.BoxZ * iz⟩
  else box.ucell.TransposeMult ⟨ix, iy, iz⟩

/-- The body of the innermost search loop for the candidate `(ix, iy, iz)`. -/
def searchBody (ortho : Bool) (box : Box) (anchorcenter framecenter : Vec3)
    (s : SearchState) (ix iy iz : Int) : SearchState :=
  let Trans := candTrans ortho box ix iy iz
  let imagedCenter := Vec3.add framecenter Trans
  let dist2 := DIST2_NoImage anchorcenter imagedCenter
  if dist2 < s.mindist2 then
    { mindist2 := dist2, minTrans := Trans, minImage := imagedCenter }
  else s

/-- The three nested search loops, `iz` outermost and `ix` innermost. -/
def searchLoops (ortho : Bool) (box : Box) (anchorcenter framecenter : Vec3)
    (xs ys zs : List Int) (init : SearchState) : SearchState :=
  zs.foldl (fun sz iz =>
    ys.foldl (fun sy iy =>
      xs.foldl (fun sx ix => searchBody ortho box anchorcenter framecenter sx ix iy iz) sy) sz)
    init

/-- The centre `framecenter` of the atom range of a fixed molecule. -/
def molCenter (useMass : Bool) (frm : Frame) (firstAtom lastAtom : Nat) : Vec3 :=
  if useMass then frm.VCenterOfMassR firstAtom lastAtom
  else frm.VGeometricCenterR firstAtom lastAtom

/-- The search of one fixed molecule: the final `mindist2`, `minTrans` and
`minImage`. -/
def fixedSearch (self : Action_AutoImage) (frm : Frame) (anchorcenter : Vec3)
    (firstAtom lastAtom : Nat) : SearchState :=
  let framecenter := molCenter self.useMass_ frm firstAtom lastAtom
  let delta := Vec3.sub anchorcenter framecenter
  let Dxyz :=
    if self.ortho_ then Vec3.div delta frm.BoxCrd.Lengths
    else DblVec3.ofVec3 (frm.BoxCrd.recip.mulVec delta)
  let rx := Round Dxyz.x
  let ry := Round Dxyz.y
  let rz := Round Dxyz.z
  let mindist2 := frm.BoxCrd.BoxX * frm.BoxCrd.BoxY * frm.BoxCrd.BoxZ
  let mindist2 := mindist2 * mindist2
  searchLoops self.ortho_ frm.BoxCrd anchorcenter framecenter
    (forIdx rx.1 rx.2) (forIdx ry.1 ry.2) (forIdx rz.1 rz.2)
    { mindist2 := mindist2, minTrans := Vec3.zero, minImage := Vec3.zero }

/-- One pass of the loop over fixed molecules: the frame after the
translation by `minTrans` and the new `anchorcenter`. -/
def fixedStep (self : Action_AutoImage) (frm : Frame) (anchorcenter : Vec3)
    (firstAtom lastAtom : Nat) : Frame × Vec3 :=
  let r := fixedSearch self frm anchorcenter firstAtom lastAtom
  (frm.TranslateR r.minTrans firstAtom lastAtom, r.minImage)

/-- The loop over fixed molecules (`atom1 += 2` over the flat pair list). -/
def fixedLoop (self : Action_AutoImage) : List Nat → Frame → Vec3 → Frame × Vec3
  | firstAtom :: lastAtom :: rest, frm, anchorcenter =>
    let r := fixedStep self frm anchorcenter firstAtom lastAtom
    fixedLoop self rest r.1 r.2
  | _, frm, anchorcenter => (frm, anchorcenter)

/-- The centre of the anchor atoms as `DoAction` computes it. -/
def anchorCenterOf (self : Action_AutoImage) (frm : Frame) : Vec3 :=
  if self.useMass_ then frm.VCenterOfMass self.anchorMask_
  else frm.VGeometricCenter self.anchorMask_

/-- The point `anchorcenter` that `DoAction` moves the anchor to. -/
def anchorTarget (self : Action_AutoImage) (box : Box) : Vec3 :=
  if self.origin_ then Vec3.zero
  else if self.ortho_ || self.truncoct_ then box.Center
  else box.ucell.TransposeMult ⟨1/2, 1/2, 1/2⟩

/-- The translation vector that `DoAction` leaves in `fcom`. -/
def anchorShift (self : Action_AutoImage) (frm : Frame) : Vec3 :=
  let fcom := anchorCenterOf self frm
  if self.origin_ then Vec3.neg fcom
  else Vec3.sub (anchorTarget self frm.BoxCrd) fcom

/-- The anchor-translation step of `DoAction`, up to and including
`frm.ModifyFrm().Translate(fcom)`. -/
def anchorTranslate (self : Action_AutoImage) (frm : Frame) : Frame :=
  frm.Translate (anchorShift self frm)

/-- The routines of `ImageRoutines` that `DoAction` calls; they are not part
of the sources at hand and are taken as parameters.  `SetupOrtho` yields
`none` where the routine reports failure, else the bounds `(bp, bm)`. -/
structure ImageRoutines where
  SetupOrtho : Box → Bool → Option (Vec3 × Vec3)
  Ortho : Frame → Vec3 → Vec3 → Vec3 → Bool → Bool → List Nat → Frame
  SetupTruncoct : Frame → Bool → Bool → Vec3
  Nonortho : Frame → Bool → Vec3 → Vec3 → Matrix_3x3 → Matrix_3x3 → Bool → Bool → Bool →
    List Nat → Frame

/-- The mobile-imaging part of `DoAction`, run on the translated frame with
the translation vector `fcom0` still held in `fcom`; `none` where `DoAction`
returns early because `SetupOrtho` failed. -/
def mobileImage (img : ImageRoutines) (self : Action_AutoImage) (fcom0 : Vec3) (frm : Frame) :
    Option Frame :=
  let offset := Vec3.zero
  if self.ortho_ then
    match img.SetupOrtho frm.BoxCrd self.origin_ with
    | none => none
    | some (bp, bm) =>
      some (img.Ortho frm bp bm offset self.usecom_ self.useMass_ self.mobileList_)
  else
    let fcom := if self.truncoct_ then img.SetupTruncoct frm self.useMass_ self.origin_ else fcom0
    some (img.Nonortho frm self.origin_ fcom offset frm.BoxCrd.ucell frm.BoxCrd.recip
      self.truncoct_ self.usecom_ self.useMass_ self.mobileList_)

/-- The function `Action_AutoImage::DoAction`, with the final value of the
running reference point `anchorcenter` kept next to the result. -/
def doActionTrace (img : ImageRoutines) (self : Action_AutoImage) (frm : Frame) :
    RetType × Frame × Vec3 :=
  let anchorcenter := anchorTarget self frm.BoxCrd
  let fcom := anchorShift self frm
  let frm1 := anchorTranslate self frm
  match mobileImage img self fcom frm1 with
  | none => (RetType.OK, frm1, anchorcenter)
  | some frm2 =>
    let r := fixedLoop self self.fixedList_ frm2 anchorcenter
    (RetType.MODIFY_COORDS, r.1, r.2)

/-- The function `Action_AutoImage::DoAction`: the return value and the frame
it leaves behind. -/
def Action_AutoImage.DoAction (img : ImageRoutines) (self : Action_AutoImage)
    (frm : Frame) : RetType × Frame :=
  let r := doActionTrace img self frm
  (r.1, r.2.1)

/-! ## The imaging routines as the specification describes them -/

namespace Image

/-- Modelled from the spec: `Image::SetupOrtho`, the upper and lower bounds
for orthogonal imaging; it fails when the box lengths are zero. -/
def SetupOrtho (box : Box) (origin : Bool) : Option (Vec3 × Vec3) :=
  let bp := if origin then box.Center else box.Lengths
  let bm := if origin then Vec3.neg box.Center else Vec3.zero
  if bp = Vec3.zero then none else some (bp, bm)

/-- Modelled from the spec: the shift along one axis, the integer multiple of
the axis length `len` that brings `crd` into `[lo, lo + len)`. -/
def wrapShift (crd lo len : ℚ) : ℚ :=
  if len ≤ 0 then 0 else -((Int.floor ((crd - lo) / len) : Int) : ℚ) * len

/-- Modelled from the spec: the reference point of a mobile molecule, its
centre or its first atom. -/
def refPoint (center useMass : Bool) (frm : Frame) (firstAtom lastAtom : Nat) : Vec3 :=
  if center then molCenter useMass frm firstAtom lastAtom
  else frm.X.getD firstAtom Vec3.zero

/-- Modelled from the spec: the minimum-image translation of one point in an
orthogonal box. -/
def OrthoTrans (Coord bm : Vec3) (box : Box) : Vec3 :=
  ⟨wrapShift Coord.x bm.x box.BoxX, wrapShift Coord.y bm.y box.BoxY,
   wrapShift Coord.z bm.z box.BoxZ⟩

/-- Modelled from the spec: `Image::Ortho`, every listed molecule moved
rigidly by its minimum-image translation. -/
def OrthoLoop (bm offset : Vec3) (center useMass : Bool) : List Nat → Frame → Frame
  | firstAtom :: lastAtom :: rest, frm =>
    let Coord := refPoint center useMass frm firstAtom lastAtom
    let boxTrans := Vec3.add (OrthoTrans Coord bm frm.BoxCrd) offset
    OrthoLoop bm offset center useMass rest (frm.TranslateR boxTrans firstAtom lastAtom)
  | _, frm => frm

/-- Modelled from the spec: the neighbouring lattice cells compared for a
truncated octahedron. -/
def neighbours : List Vec3 :=
  ([-1, 0, 1] : List ℚ).flatMap fun k =>
    ([-1, 0, 1] : List ℚ).flatMap fun j => ([-1, 0, 1] : List ℚ).map fun i => (⟨i, j, k⟩ : Vec3)

/-- Modelled from the spec: the translation of one point under general
triclinic imaging: wrap the fractional coordinates, transform back, and for a
truncated octahedron keep the neighbouring image nearest to `fcom`. -/
def NonorthoTrans (Coord : Vec3) (truncoct origin : Bool) (ucell recip : Matrix_3x3)
    (fcom : Vec3) : Vec3 :=
  let f := recip.mulVec Coord
  let lo : ℚ := if origin then -1/2 else 0
  let fw : Vec3 := ⟨f.x - (Int.floor (f.x - lo) : Int), f.y - (Int.floor (f.y - lo) : Int),
                    f.z - (Int.floor (f.z - lo) : Int)⟩
  let corrected := ucell.TransposeMult fw
  if truncoct then
    let best := neighbours.foldl (fun (b : Vec3) n =>
      let cand := Vec3.add corrected (ucell.TransposeMult n)
      if DIST2_NoImage fcom cand < DIST2_NoImage fcom b then cand else b) corrected
    Vec3.sub best Coord
  else Vec3.sub corrected Coord

/-- Modelled from the spec: `Image::Nonortho`, every listed molecule moved
rigidly by its triclinic minimum-image translation. -/
def NonorthoLoop (origin : Bool) (fcom offset : Vec3) (ucell recip : Matrix_3x3)
    (truncoct center useMass : Bool) : List Nat → Frame → Frame
  | firstAtom :: lastAtom :: rest, frm =>
    let Coord := refPoint center useMass frm firstAtom lastAtom
    let boxTrans := Vec3.add (NonorthoTrans Coord truncoct origin ucell recip fcom)
      (ucell.TransposeMult offset)
    NonorthoLoop origin fcom offset ucell recip truncoct center useMass rest
      (frm.TranslateR boxTrans firstAtom lastAtom)
  | _, frm => frm

/-- Modelled from the spec: `Image::SetupTruncoct`, the point distances are
measured to: the origin or the cell centre. -/
def SetupTruncoct (frm : Frame) (_useMass origin : Bool) : Vec3 :=
  if origin then Vec3.zero else frm.BoxCrd.Center

/-- Modelled from the spec: the imaging routines of section 4.4. -/
def routines : ImageRoutines :=
  { SetupOrtho := SetupOrtho
    Ortho := fun frm _bp bm offset center useMass list =>
      OrthoLoop bm offset center useMass list frm
    SetupTruncoct := SetupTruncoct
    Nonortho := fun frm origin fcom offset ucell recip truncoct center useMass list =>
      NonorthoLoop origin fcom offset ucell recip truncoct center useMass list frm }

end Image

/-- An atom index lies in one of the ranges of a flat pair list. -/
def inRanges (list : List Nat) (i : Nat) : Prop :=
  ∃ p ∈ pairsOf list, p.1 ≤ i ∧ i < p.2

/-- The frame `frm'` differs from `frm` at most in the positions of the atoms
inside the ranges of `list`: masses, box and number of atoms are the same,
and every atom outside the ranges is where it was. -/
def SameOutside (list : List Nat) (frm frm' : Frame) : Prop :=
  frm'.Mass = frm.Mass ∧ frm'.BoxCrd = frm.BoxCrd ∧ frm'.X.length = frm.X.length
    ∧ ∀ i, ¬ inRanges list i → frm'.X.getD i Vec3.zero = frm.X.getD i Vec3.zero

/-- The frame condition assumed of imaging routines: they move at most the
atoms inside the listed ranges. -/
def ImageRoutines.Local (img : ImageRoutines) : Prop :=
  (∀ frm bp bm offset center useMass list,
    SameOutside list frm (img.Ortho frm bp bm offset center useMass list))
  ∧ (∀ frm origin fcom offset ucell recip truncoct center useMass list,
    SameOutside list frm
      (img.Nonortho frm origin fcom offset ucell recip truncoct center useMass list))

/-- A small topology: four molecules over nine atoms, the last one solvent,
and a mask evaluator knowing four expressions. -/
def exampleTop : Topology :=
  { mols := [⟨0, 2, false⟩, ⟨2, 5, false⟩, ⟨5, 6, false⟩, ⟨6, 9, true⟩],
    atomMolNum := [0, 0, 1, 1, 1, 2, 3, 3, 3],
    selectAtoms := fun s =>
      if s = "@2,7" then some [1, 6]
      else if s = "@3-4" then some [2, 3]
      else if s = "@1" then some [0]
      else if s = "@99" then some []
      else none }

/-- An orthogonal 30 x 30 x 30 box. -/
def box30 : Box :=
  { BoxX := 30, BoxY := 30, BoxZ := 30,
    ucell := ⟨30, 0, 0, 0, 30, 0, 0, 0, 30⟩,
    recip := ⟨1/30, 0, 0, 0, 1/30, 0, 0, 0, 1/30⟩ }

/-- A frame in `box30`: a two-atom anchor with centroid `(40, 15, 15)`, a
single mobile atom, and a two-atom molecule far from the box. -/
def exampleFrame : Frame :=
  { X := [⟨39, 15, 15⟩, ⟨41, 15, 15⟩, ⟨31, 2, 2⟩, ⟨80, 80, 80⟩, ⟨81, 81, 81⟩],
    Mass := [12, 12, 1, 16, 16],
    BoxCrd := box30 }

/-- The action set up for `exampleFrame`: orthogonal path, cell centre as the
target, atoms 0 and 1 as the anchor. -/
def exampleAction : Action_AutoImage :=
  { Action_AutoImage.new with
    ortho_ := true, anchorMask_ := [0, 1], mobileList_ := [2, 3], fixedList_ := [3, 5] }

/-- A frame for `exampleTop` in `box30`: the anchor molecule (atoms 0, 1) with
centroid `(40, 15, 15)`, a three-atom molecule far outside the box, a single
ion and a water. -/
def exampleFrame9 : Frame :=
  { X := [⟨39, 15, 15⟩, ⟨41, 15, 15⟩, ⟨80, 80, 80⟩, ⟨81, 80, 80⟩, ⟨82, 80, 80⟩,
          ⟨31, 2, 2⟩, ⟨-20, 5, 5⟩, ⟨-21, 5, 5⟩, ⟨-20, 6, 5⟩],
    Mass := [12, 12, 12, 14, 16, 23, 16, 1, 1],
    BoxCrd := box30 }

/-- A frame for `exampleTop` in `box30`: atom 0 at the cell centre, atom 1 of
the same molecule 75 further along x, all other atoms at `(1, 1, 1)`. -/
def stretchedFrame9 : Frame :=
  { X := [⟨15, 15, 15⟩, ⟨90, 15, 15⟩, ⟨1, 1, 1⟩, ⟨1, 1, 1⟩, ⟨1, 1, 1⟩,
          ⟨1, 1, 1⟩, ⟨1, 1, 1⟩, ⟨1, 1, 1⟩, ⟨1, 1, 1⟩],
    Mass := [12, 12, 12, 14, 16, 23, 16, 1, 1],
    BoxCrd := box30 }

/-- A configuration whose anchor mask `@1` and fixed mask `@1` both select
atom 0, and whose mobile mask `@99` selects nothing. -/
def anchorAlsoFixed : Action_AutoImage :=
  { Action_AutoImage.new with anchor_ := "@1", fixed_ := "@1", mobile_ := "@99" }

/-- An orthogonal box with all three lengths `1/2`. -/
def boxHalf : Box :=
  { BoxX := 1/2, BoxY := 1/2, BoxZ := 1/2,
    ucell := ⟨1/2, 0, 0, 0, 1/2, 0, 0, 0, 1/2⟩,
    recip := ⟨2, 0, 0, 0, 2, 0, 0, 0, 2⟩ }

/-- A frame in `boxHalf`: the anchor atom at the cell centre and a one-atom
fixed molecule at `(1/2, 1/2, 1/2)`. -/
def frameHalf : Frame :=
  { X := [⟨1/4, 1/4, 1/4⟩, ⟨1/2, 1/2, 1/2⟩], Mass := [1, 1], BoxCrd := boxHalf }

/-- A frame in `boxHalf`: the anchor atom at the cell centre and a one-atom
fixed molecule at `(11/20, 1/4, 1/4)`. -/
def frameHalfX : Frame :=
  { X := [⟨1/4, 1/4, 1/4⟩, ⟨11/20, 1/4, 1/4⟩], Mass := [1, 1], BoxCrd := boxHalf }

/-- The action set up for the frames in `boxHalf`: orthogonal path, atom 0
as the anchor, atom 1 as the only fixed molecule, nothing mobile. -/
def actionHalf : Action_AutoImage :=
  { Action_AutoImage.new with ortho_ := true, anchorMask_ := [0], fixedList_ := [1, 2] }

/-- An orthogonal box whose lengths are all zero. -/
def boxZero : Box :=
  { BoxX := 0, BoxY := 0, BoxZ := 0,
    ucell := ⟨0, 0, 0, 0, 0, 0, 0, 0, 0⟩,
    recip := ⟨0, 0, 0, 0, 0, 0, 0, 0, 0⟩ }

/-- A one-atom frame in `boxZero`, the atom at `(1, 0, 0)`. -/
def frameZeroBox : Frame :=
  { X := [⟨1, 0, 0⟩], Mass := [1], BoxCrd := boxZero }

/-- The action set up for `frameZeroBox`: orthogonal path, atom 0 as the
anchor, no fixed and no mobile molecule. -/
def actionZeroBox : Action_AutoImage :=
  { Action_AutoImage.new with ortho_ := true, anchorMask_ := [0] }

/-! ## Auxiliary notions used in the statements -/

/-- The molecules with at least one atom among `sel`. -/
def touched (sel : List Nat) (m : Molecule) : Bool :=
  decide (∃ a ∈ sel, m.BeginAtom ≤ a ∧ a < m.EndAtom)

/-- The weights that `DoAction` uses for centres: masses or ones. -/
def weightOf (useMass : Bool) (frm : Frame) : Nat → ℚ :=
  if useMass then fun a => frm.Mass.getD a 0 else fun _ => 1

/-- The atom `a` lies in the range `[BeginAtom, EndAtom)` of the molecule. -/
def Molecule.contains (m : Molecule) (a : Nat) : Bool :=
  decide (m.BeginAtom ≤ a) && decide (a < m.EndAtom)

/-- Modelled from the spec: the molecules tile the atoms `[start, natom)`:
each one is non-empty and begins where the previous one ended. -/
def tiles : Nat → List Molecule → Nat → Bool
  | start, [], natom => start == natom
  | start, m :: ms, natom =>
    m.BeginAtom == start && decide (m.BeginAtom < m.EndAtom) && tiles m.EndAtom ms natom

/-- Modelled from the spec: every atom of the `k`-th molecule carries the
molecule number `k`; `k` is the index of the head molecule. -/
def molNumsFrom (atomMolNum : List Nat) : Nat → List Molecule → Bool
  | _, [] => true
  | k, m :: ms =>
    (List.range' m.BeginAtom (m.EndAtom - m.BeginAtom)).all
        (fun a => atomMolNum.getD a 0 == k)
      && molNumsFrom atomMolNum (k + 1) ms

/-- Modelled from the spec: a topology whose molecules tile its atoms and
whose atoms carry the number of their molecule. -/
def Topology.WellFormed (t : Topology) : Prop :=
  tiles 0 t.mols t.Natom = true ∧ molNumsFrom t.atomMolNum 0 t.mols = true

/-- The molecules whose index differs from `anchormolnum`; `n` is the index
of the head molecule. -/
def otherMols (anchormolnum : Int) : Nat → List Molecule → List Molecule
  | _, [] => []
  | n, m :: ms =>
    if (n : Int) ≠ anchormolnum then m :: otherMols anchormolnum (n + 1) ms
    else otherMols anchormolnum (n + 1) ms

/-- The test of the automatic search: solvent or a single atom. -/
def isMobileMol (m : Molecule) : Bool := m.IsSolvent || decide (m.NumAtoms = 1)

/-- The flat pair list of the ranges of the given molecules. -/
def flatRanges (ms : List Molecule) : List Nat :=
  ms.flatMap fun m => [m.BeginAtom, m.EndAtom]

/-- The number of ranges of a flat pair list that contain the atom `a`. -/
def rangeCount (list : List Nat) (a : Nat) : Nat :=
  (pairsOf list).countP fun p => decide (p.1 ≤ a) && decide (a < p.2)

/-- How often the atom `a` is covered: by the anchor mask, by a fixed range
and by a mobile range. -/
def coverCount (st : Action_AutoImage) (a : Nat) : Nat :=
  st.anchorMask_.count a + rangeCount st.fixedList_ a + rangeCount st.mobileList_ a

/-- The candidate triples `(ix, iy, iz)` in the order the three nested loops
visit them: `ix` varies fastest, `iz` slowest. -/
def searchTriples (xs ys zs : List Int) : List (Int × Int × Int) :=
  zs.flatMap fun iz => ys.flatMap fun iy => xs.map fun ix => (ix, iy, iz)

/-- The fractional offset `Dxyz` that `DoAction` computes for a fixed
molecule. -/
def searchDxyz (self : Action_AutoImage) (frm : Frame) (anchorcenter : Vec3)
    (firstAtom lastAtom : Nat) : DblVec3 :=
  let delta := Vec3.sub anchorcenter (molCenter self.useMass_ frm firstAtom lastAtom)
  if self.ortho_ then Vec3.div delta frm.BoxCrd.Lengths
  else DblVec3.ofVec3 (frm.BoxCrd.recip.mulVec delta)

/-- The candidate triples enumerated for a fixed molecule. -/
def fixedTriples (self : Action_AutoImage) (frm : Frame) (anchorcenter : Vec3)
    (firstAtom lastAtom : Nat) : List (Int × Int × Int) :=
  let Dxyz := searchDxyz self frm anchorcenter firstAtom lastAtom
  searchTriples (forIdx (Round Dxyz.x).1 (Round Dxyz.x).2)
    (forIdx (Round Dxyz.y).1 (Round Dxyz.y).2) (forIdx (Round Dxyz.z).1 (Round Dxyz.z).2)

/-- The squared distance `dist2` of the candidate `c` to the reference
point. -/
def candDist2 (ortho : Bool) (box : Box) (anchorcenter framecenter : Vec3)
    (c : Int × Int × Int) : ℚ :=
  DIST2_NoImage anchorcenter (Vec3.add framecenter (candTrans ortho box c.1 c.2.1 c.2.2))

/-- The initial value of `mindist2`, the squared product of the box
lengths. -/
def initDist2 (box : Box) : ℚ :=
  (box.BoxX * box.BoxY * box.BoxZ) * (box.BoxX * box.BoxY * box.BoxZ)

/-- Following the specification's words: the first element, in list order,
whose key attains the minimum over the whole list. -/
def firstMin {α : Type} (key : α → ℚ) : List α → Option α
  | [] => none
  | c :: rest =>
    match firstMin key rest with
    | none => some c
    | some d => if key d < key c then some d else some c

/-! ## Further data for the statements -/

/-- The argument list with no keyword and no mask. -/
def noKeywords : ArgList :=
  { origin := false, firstatom := false, familiar := false, triclinic := false,
    anchor := "", fixed := "", mobile := "", maskNext := "" }

/-- The argument list with the `familiar` keyword only. -/
def familiarOnly : ArgList := { noKeywords with familiar := true }

/-- The frame `exampleFrame9` with a light second anchor atom, so that the
mass-weighted and the unweighted centroid of the anchor differ. -/
def massFrame9 : Frame :=
  { X := [⟨39, 15, 15⟩, ⟨41, 15, 15⟩, ⟨80, 80, 80⟩, ⟨81, 80, 80⟩, ⟨82, 80, 80⟩,
          ⟨31, 2, 2⟩, ⟨-20, 5, 5⟩, ⟨-21, 5, 5⟩, ⟨-20, 6, 5⟩],
    Mass := [12, 1, 12, 14, 16, 23, 16, 1, 1],
    BoxCrd := box30 }

/-- A triclinic box with cell vectors `(10, 0, 0)`, `(40, 9, 0)` and
`(0, 0, 10)`, of lengths 10, 41 and 10; `recip` is the inverse of the cell
matrix, so that `recip * v` are the fractional coordinates of `v`. -/
def boxSkew : Box :=
  { BoxX := 10, BoxY := 41, BoxZ := 10,
    ucell := ⟨10, 0, 0, 40, 9, 0, 0, 0, 10⟩,
    recip := ⟨1/10, -4/9, 0, 0, 1/9, 0, 0, 0, 1/10⟩ }

/-- A one-atom frame in `boxSkew`, the atom at the coordinate origin. -/
def frameSkew : Frame :=
  { X := [⟨0, 0, 0⟩], Mass := [1], BoxCrd := boxSkew }

/-- The action on the general cell-matrix path with atom 0 as the only fixed
molecule. -/
def actionSkew : Action_AutoImage :=
  { Action_AutoImage.new with ortho_ := false, fixedList_ := [0, 1] }

/-! ## Action_Hbond: the ordering of hydrogen bonds -/

/-- The struct `Action_Hbond::HbondType`. -/
structure HbondType where
  A : Int
  H : Int
  D : Int
  Frames : Int
  dist : ℚ
  angle : ℚ
deriving DecidableEq, Repr

/-- The comparison `Action_Hbond::hbond_cmp::operator()`. -/
def hbond_cmp (first second : HbondType) : Bool :=
  if first.Frames > second.Frames then true
  else if first.Frames < second.Frames then false
  else decide (first.A < second.A)

/-! ## The search loop with an iteration budget -/

/-- The action after `Setup` has been called for each of the given topologies
(with the box type of their coordinates), in order; the return values are
dropped. -/
def Action_AutoImage.SetupAll (self : Action_AutoImage) :
    List (Topology × BoxType) → Action_AutoImage
  | [] => self
  | p :: rest => Action_AutoImage.SetupAll (self.Setup p.1 p.2).2 rest

/-! ## Data for the search far from the cell -/

/-- An orthogonal 1 x 100000 x 100000 box. -/
def boxFar : Box :=
  { BoxX := 1, BoxY := 100000, BoxZ := 100000,
    ucell := ⟨1, 0, 0, 0, 100000, 0, 0, 0, 100000⟩,
    recip := ⟨1, 0, 0, 0, 1/100000, 0, 0, 0, 1/100000⟩ }

/-- A frame in `boxFar`: the anchor atom at the cell centre and a one-atom
fixed molecule `3000000000` box lengths away along x. -/
def frameFar : Frame :=
  { X := [⟨1/2, 50000, 50000⟩, ⟨1/2 - 3000000000, 50000, 50000⟩], Mass := [1, 1],
    BoxCrd := boxFar }

/-- The action set up for `frameFar`: orthogonal path, atom 0 as the anchor,
atom 1 as the only fixed molecule, nothing mobile. -/
def actionFar : Action_AutoImage :=
  { Action_AutoImage.new with ortho_ := true, anchorMask_ := [0], fixedList_ := [1, 2] }

/-! # Verified properties -/

/-! ## SetupAtomRanges -/

theorem rangeIsValid_iff (inMask : Nat → Bool) (n atom : Nat) :
    rangeIsValid inMask n atom = true ↔ ∃ k, atom ≤ k ∧ k < atom + n ∧ inMask k = true := by
  induction n generalizing atom with
  | zero =>
    simp only [rangeIsValid, Bool.false_eq_true, false_iff]
    rintro ⟨k, h1, h2, _⟩
    omega
  | succ n ih =>
    unfold rangeIsValid
    by_cases h : inMask atom = true
    · simp only [h, if_true, true_iff]
      exact ⟨atom, le_refl _, by omega, h⟩
    · simp only [h, if_false, Bool.false_eq_true]
      rw [ih]
      constructor
      · rintro ⟨k, h1, h2, h3⟩
        exact ⟨k, by omega, by omega, h3⟩
      · rintro ⟨k, h1, h2, h3⟩
        have hne : k ≠ atom := by
          intro e
          rw [e] at h3
          exact h h3
        exact ⟨k, by omega, by omega, h3⟩

theorem rangeIsValid_touched (sel : List Nat) (m : Molecule) :
    rangeIsValid (fun atom => decide (atom ∈ sel)) (m.EndAtom - m.BeginAtom) m.BeginAtom
      = touched sel m := by
  rw [Bool.eq_iff_iff, rangeIsValid_iff]
  simp only [touched, decide_eq_true_eq]
  constructor
  · rintro ⟨k, h1, h2, h3⟩
    exact ⟨k, h3, h1, by omega⟩
  · rintro ⟨a, h1, h2, h3⟩
    exact ⟨a, h2, by omega, h1⟩

theorem atomRangesLoop_eq (sel : List Nat) (mols : List Molecule) (acc : List Nat) :
    atomRangesLoop (fun atom => decide (atom ∈ sel)) mols acc
      = acc ++ (mols.filter (touched sel)).flatMap (fun m => [m.BeginAtom, m.EndAtom]) := by
  induction mols generalizing acc with
  | nil => simp [atomRangesLoop]
  | cons m rest ih =>
    simp only [atomRangesLoop, rangeIsValid_touched]
    by_cases h : touched sel m = true
    · simp [h, ih, List.filter_cons]
    · simp [h, ih, List.filter_cons]

theorem pairsOf_flatMap (mols : List Molecule) :
    pairsOf (mols.flatMap (fun m => [m.BeginAtom, m.EndAtom]))
      = mols.map (fun m => (m.BeginAtom, m.EndAtom)) := by
  induction mols with
  | nil => simp [pairsOf]
  | cons m rest ih =>
    show pairsOf (m.BeginAtom :: m.EndAtom :: rest.flatMap _) = _
    simp only [pairsOf, List.map_cons, ih]

theorem filter_touched_nil (mols : List Molecule) : mols.filter (touched []) = [] := by
  simp [touched]

theorem SetupAtomRanges_eq (top : Topology) (maskexpr : String) (sel : List Nat)
    (h : top.selectAtoms maskexpr = some sel) :
    SetupAtomRanges top maskexpr
      = (top.mols.filter (touched sel)).flatMap (fun m => [m.BeginAtom, m.EndAtom]) := by
  unfold SetupAtomRanges
  rw [h]
  by_cases hs : sel = []
  · subst hs
    simp [filter_touched_nil]
  · simp [hs, atomRangesLoop_eq]

/-- C10: when the mask evaluator selects the atoms `sel`, `SetupAtomRanges`
returns the flat list of the `(BeginAtom, EndAtom)` pairs of exactly those
molecules that contain an atom of `sel`, each once and in topology order
(a partially selected molecule is included whole), and the empty list when
`sel` is empty. -/
theorem SetupAtomRanges_selected_molecules (top : Topology) (maskexpr : String)
    (sel : List Nat) (h : top.selectAtoms maskexpr = some sel) :
    SetupAtomRanges top maskexpr
        = (top.mols.filter
            (fun m => decide (∃ a ∈ sel, m.BeginAtom ≤ a ∧ a < m.EndAtom))).flatMap
            (fun m => [m.BeginAtom, m.EndAtom])
      ∧ pairsOf (SetupAtomRanges top maskexpr)
        = (top.mols.filter
            (fun m => decide (∃ a ∈ sel, m.BeginAtom ≤ a ∧ a < m.EndAtom))).map
            (fun m => (m.BeginAtom, m.EndAtom))
      ∧ (sel = [] → SetupAtomRanges top maskexpr = []) := by
  have e := SetupAtomRanges_eq top maskexpr sel h
  refine ⟨e, ?_, ?_⟩
  · rw [e, pairsOf_flatMap]
    rfl
  · intro hs
    rw [e, hs, filter_touched_nil]
    rfl

/-- Witness for C10: the mask `@2,7` selects atom 1 of the first molecule and
atom 6 of the last one; both molecules are returned whole, in order. -/
theorem SetupAtomRanges_selected_molecules_witness :
    exampleTop.selectAtoms "@2,7" = some [1, 6]
      ∧ SetupAtomRanges exampleTop "@2,7" = [0, 2, 6, 9]
      ∧ pairsOf (SetupAtomRanges exampleTop "@2,7")
        = (exampleTop.mols.filter
            (fun m => decide (∃ a ∈ ([1, 6] : List Nat), m.BeginAtom ≤ a ∧ a < m.EndAtom))).map
            (fun m => (m.BeginAtom, m.EndAtom)) :=
  ⟨by decide, by decide,
   (SetupAtomRanges_selected_molecules exampleTop "@2,7" [1, 6] (by decide)).2.1⟩

/-! ## Setup: skipped topologies and the empty anchor -/

/-- C9: `Setup` returns `SKIP` and hands back the action unchanged (anchor
mask, fixed and mobile lists included) when the topology has no molecule or
the box type is `NOBOX`; for a topology with molecule and box information it
returns `ERR` when an anchor mask is given and selects no atom. -/
theorem Setup_skip_and_empty_anchor (self : Action_AutoImage) (top : Topology)
    (boxType : BoxType) :
    ((top.Nmol < 1 ∨ boxType = BoxType.NOBOX) →
        self.Setup top boxType = (RetType.SKIP, self))
      ∧ (1 ≤ top.Nmol → boxType ≠ BoxType.NOBOX → self.anchor_ ≠ "" →
          top.selectAtoms self.anchor_ = some [] →
          (self.Setup top boxType).1 = RetType.ERR) := by
  constructor
  · rintro (h | h)
    · simp [Action_AutoImage.Setup, h]
    · by_cases h1 : top.Nmol < 1
      · simp [Action_AutoImage.Setup, h1]
      · simp [Action_AutoImage.Setup, h1, h]
  · intro h1 h2 h3 h4
    have h1' : ¬ top.Nmol < 1 := by omega
    simp [Action_AutoImage.Setup, h1', h2, setupAnchor, h3, h4]

/-- Witness for C9: an empty topology and a box-less topology are skipped
with the state untouched, and the anchor mask `@99`, which selects nothing,
is an error. -/
theorem Setup_skip_and_empty_anchor_witness :
    ({ exampleTop with mols := [] } : Topology).Nmol < 1
      ∧ { Action_AutoImage.new with anchor_ := "@99" }.Setup
          { exampleTop with mols := [] } BoxType.ORTHO
        = (RetType.SKIP, { Action_AutoImage.new with anchor_ := "@99" })
      ∧ { Action_AutoImage.new with anchor_ := "@99" }.Setup exampleTop BoxType.NOBOX
        = (RetType.SKIP, { Action_AutoImage.new with anchor_ := "@99" })
      ∧ ({ Action_AutoImage.new with anchor_ := "@99" }.Setup exampleTop BoxType.ORTHO).1
        = RetType.ERR :=
  ⟨by decide,
   (Setup_skip_and_empty_anchor _ _ BoxType.ORTHO).1 (Or.inl (by decide)),
   (Setup_skip_and_empty_anchor _ _ BoxType.NOBOX).1 (Or.inr rfl),
   (Setup_skip_and_empty_anchor { Action_AutoImage.new with anchor_ := "@99" } exampleTop
      BoxType.ORTHO).2 (by decide) (by decide) (by decide) (by decide)⟩

/-! ## The anchor-translation step -/

theorem getD_map_add (X : List Vec3) (v : Vec3) (a : Nat) (h : a < X.length) :
    (X.map (fun p => Vec3.add p v)).getD a Vec3.zero = Vec3.add (X.getD a Vec3.zero) v := by
  simp [List.getD_eq_getElem?_getD, List.getElem?_map, List.getElem?_eq_getElem h]

theorem sumAtoms_map_add (X : List Vec3) (w : Nat → ℚ) (v : Vec3) (atoms : List Nat)
    (h : ∀ a ∈ atoms, a < X.length) :
    sumAtoms (X.map (fun p => Vec3.add p v)) w atoms
      = Vec3.add (sumAtoms X w atoms) (Vec3.smul (sumWeights w atoms) v) := by
  induction atoms with
  | nil => simp [sumAtoms, sumWeights, Vec3.add, Vec3.smul, Vec3.zero]
  | cons a rest ih =>
    have ha : a < X.length := h a (List.mem_cons_self _ _)
    have hr : ∀ b ∈ rest, b < X.length := fun b hb => h b (List.mem_cons_of_mem _ hb)
    simp only [sumAtoms, sumWeights, ih hr, getD_map_add X v a ha]
    simp only [Vec3.add, Vec3.smul, Vec3.mk.injEq]
    refine ⟨?_, ?_, ?_⟩ <;> ring

theorem centerOf_map_add (X : List Vec3) (w : Nat → ℚ) (v : Vec3) (atoms : List Nat)
    (h : ∀ a ∈ atoms, a < X.length) (hw : sumWeights w atoms ≠ 0) :
    centerOf (X.map (fun p => Vec3.add p v)) w atoms = Vec3.add (centerOf X w atoms) v := by
  simp only [centerOf, hw, if_false, sumAtoms_map_add X w v atoms h]
  simp only [Vec3.add, Vec3.smul, Vec3.sdiv, Vec3.mk.injEq]
  refine ⟨?_, ?_, ?_⟩ <;> field_simp <;> ring

theorem sumWeights_one (atoms : List Nat) :
    sumWeights (fun _ => (1 : ℚ)) atoms = atoms.length := by
  induction atoms with
  | nil => simp [sumWeights]
  | cons a rest ih =>
    simp only [sumWeights, ih, List.length_cons]
    push_cast
    ring

theorem sumWeights_one_ne_zero (atoms : List Nat) (h : atoms ≠ []) :
    sumWeights (fun _ => (1 : ℚ)) atoms ≠ 0 := by
  rw [sumWeights_one]
  have : 0 < atoms.length := List.length_pos.mpr h
  exact_mod_cast this.ne'

theorem anchorCenterOf_eq (self : Action_AutoImage) (frm : Frame) :
    anchorCenterOf self frm = centerOf frm.X (weightOf self.useMass_ frm) self.anchorMask_ := by
  unfold anchorCenterOf weightOf
  cases self.useMass_ <;> simp [Frame.VCenterOfMass, Frame.VGeometricCenter]

theorem anchorShift_eq (self : Action_AutoImage) (frm : Frame) :
    anchorShift self frm = Vec3.sub (anchorTarget self frm.BoxCrd) (anchorCenterOf self frm) := by
  unfold anchorShift anchorTarget
  cases self.origin_
  · simp
  · simp [Vec3.neg, Vec3.sub, Vec3.zero]

theorem add_sub_cancel_vec (c t : Vec3) : Vec3.add c (Vec3.sub t c) = t := by
  cases c; cases t
  simp [Vec3.add, Vec3.sub]

theorem anchorTranslate_X (self : Action_AutoImage) (frm : Frame) :
    (anchorTranslate self frm).X
      = frm.X.map (fun p =>
          Vec3.add p (Vec3.sub (anchorTarget self frm.BoxCrd) (anchorCenterOf self frm))) := by
  simp [anchorTranslate, Frame.Translate, anchorShift_eq]

theorem anchorCenterOf_anchorTranslate (self : Action_AutoImage) (frm : Frame)
    (hne : self.anchorMask_ ≠ [])
    (hin : ∀ a ∈ self.anchorMask_, a < frm.X.length)
    (hm : self.useMass_ = true →
      sumWeights (fun a => frm.Mass.getD a 0) self.anchorMask_ ≠ 0) :
    anchorCenterOf self (anchorTranslate self frm) = anchorTarget self frm.BoxCrd := by
  have hw : sumWeights (weightOf self.useMass_ frm) self.anchorMask_ ≠ 0 := by
    unfold weightOf
    cases hu : self.useMass_
    · simpa using sumWeights_one_ne_zero _ hne
    · simpa using hm hu
  have hM : weightOf self.useMass_ (anchorTranslate self frm) = weightOf self.useMass_ frm := by
    simp [weightOf, anchorTranslate, Frame.Translate]
  rw [anchorCenterOf_eq, anchorTranslate_X, hM, centerOf_map_add _ _ _ _ hin hw,
    ← anchorCenterOf_eq, add_sub_cancel_vec]

/-- C3: the anchor-translation step adds one and the same vector, target
minus the anchor's centre, to every atom of the frame, and right afterwards
the anchor's centre is the target point: `(0,0,0)` with `origin`, half the
box lengths on the orthogonal or truncated-octahedron path, and the cell
matrix applied to the fractional point `(1/2,1/2,1/2)` otherwise.  The anchor
mask is non-empty and within the frame (as `Setup` leaves it), and with mass
weighting the anchor's total mass is not zero. -/
theorem anchorTranslate_centres_anchor (self : Action_AutoImage) (frm : Frame)
    (hne : self.anchorMask_ ≠ [])
    (hin : ∀ a ∈ self.anchorMask_, a < frm.X.length)
    (hm : self.useMass_ = true →
      sumWeights (fun a => frm.Mass.getD a 0) self.anchorMask_ ≠ 0) :
    (anchorTranslate self frm).X
        = frm.X.map (fun p =>
            Vec3.add p (Vec3.sub (anchorTarget self frm.BoxCrd) (anchorCenterOf self frm)))
      ∧ anchorCenterOf self (anchorTranslate self frm) = anchorTarget self frm.BoxCrd
      ∧ anchorTarget self frm.BoxCrd
        = (if self.origin_ then ⟨0, 0, 0⟩
           else if self.ortho_ || self.truncoct_ then
             ⟨frm.BoxCrd.BoxX / 2, frm.BoxCrd.BoxY / 2, frm.BoxCrd.BoxZ / 2⟩
           else frm.BoxCrd.ucell.TransposeMult ⟨1/2, 1/2, 1/2⟩) := by
  refine ⟨anchorTranslate_X self frm, anchorCenterOf_anchorTranslate self frm hne hin hm, ?_⟩
  unfold anchorTarget Box.Center Vec3.zero
  rfl

/-- Witness for C3: in the orthogonal 30 x 30 x 30 box with `origin` off, an
anchor with centroid `(40, 15, 15)` has centroid exactly `(15, 15, 15)` after
the anchor translation. -/
theorem anchorTranslate_centres_anchor_witness :
    anchorCenterOf exampleAction exampleFrame = ⟨40, 15, 15⟩
      ∧ anchorCenterOf exampleAction (anchorTranslate exampleAction exampleFrame)
        = ⟨15, 15, 15⟩ :=
  ⟨by with_unfolding_all decide,
   (anchorTranslate_centres_anchor exampleAction exampleFrame (by decide) (by decide)
      (by decide)).2.1.trans (by with_unfolding_all decide)⟩

/-! ## The fixed-molecule search -/

theorem firstMin_eq_none {α : Type} (key : α → ℚ) (l : List α) :
    firstMin key l = none ↔ l = [] := by
  cases l with
  | nil => simp [firstMin]
  | cons c rest =>
    simp only [firstMin]
    cases firstMin key rest with
    | none => simp
    | some d => by_cases h : key d < key c <;> simp [h]

theorem firstMin_spec {α : Type} (key : α → ℚ) (l : List α) (c : α)
    (h : firstMin key l = some c) :
    ∃ pre post, l = pre ++ c :: post ∧ (∀ d ∈ pre, key c < key d)
      ∧ (∀ d ∈ post, key c ≤ key d) := by
  induction l generalizing c with
  | nil => simp [firstMin] at h
  | cons c0 rest ih =>
    simp only [firstMin] at h
    cases hr : firstMin key rest with
    | none =>
      rw [hr] at h
      have hnil : rest = [] := (firstMin_eq_none key rest).mp hr
      simp only [Option.some.injEq] at h
      subst h; subst hnil
      exact ⟨[], [], rfl, by simp, by simp⟩
    | some d =>
      rw [hr] at h
      obtain ⟨pre, post, hl, hpre, hpost⟩ := ih d hr
      by_cases hlt : key d < key c0
      · simp only [hlt, if_true, Option.some.injEq] at h
        subst h
        refine ⟨c0 :: pre, post, by simp [hl], ?_, hpost⟩
        intro e he
        rcases List.mem_cons.mp he with rfl | he
        · exact hlt
        · exact hpre e he
      · simp only [hlt, if_false, Option.some.injEq] at h
        subst h
        refine ⟨[], rest, rfl, by simp, ?_⟩
        intro e he
        have hd : key d ≤ key e := by
          rw [hl] at he
          rcases List.mem_append.mp he with he | he
          · exact le_of_lt (hpre e he)
          · rcases List.mem_cons.mp he with rfl | he
            · exact le_refl _
            · exact hpost e he
        exact le_trans (not_lt.mp hlt) hd

theorem foldl_search_firstMin {α : Type} (key : α → ℚ) (upd : α → SearchState)
    (hupd : ∀ c, (upd c).mindist2 = key c) (l : List α) (s0 : SearchState) :
    l.foldl (fun s c => if key c < s.mindist2 then upd c else s) s0
      = match firstMin key l with
        | some c => if key c < s0.mindist2 then upd c else s0
        | none => s0 := by
  induction l generalizing s0 with
  | nil => simp [firstMin]
  | cons c0 rest ih =>
    simp only [List.foldl_cons, firstMin]
    rw [ih]
    cases hr : firstMin key rest with
    | none => simp
    | some d =>
      simp only
      by_cases h0 : key c0 < s0.mindist2
      · simp only [h0, if_true, hupd]
        by_cases hd : key d < key c0
        · simp [hd, lt_trans hd h0]
        · simp [hd, h0]
      · simp only [h0, if_false]
        by_cases hd : key d < s0.mindist2
        · have : key d < key c0 := lt_of_lt_of_le hd (not_lt.mp h0)
          simp [hd, this]
        · by_cases hdc : key d < key c0
          · simp [hd, hdc]
          · simp [hd, hdc, h0]

theorem foldl_flatMap_eq {α β γ : Type} (f : γ → β → γ) (g : α → List β) (l : List α)
    (init : γ) :
    (l.flatMap g).foldl f init = l.foldl (fun s a => (g a).foldl f s) init := by
  induction l generalizing init with
  | nil => rfl
  | cons a rest ih => simp [List.flatMap_cons, List.foldl_append, ih]

theorem searchLoops_eq_foldl (ortho : Bool) (box : Box) (anchorcenter framecenter : Vec3)
    (xs ys zs : List Int) (init : SearchState) :
    searchLoops ortho box anchorcenter framecenter xs ys zs init
      = (searchTriples xs ys zs).foldl
          (fun s c => searchBody ortho box anchorcenter framecenter s c.1 c.2.1 c.2.2) init := by
  unfold searchLoops searchTriples
  rw [foldl_flatMap_eq]
  congr 1
  funext sz iz
  rw [foldl_flatMap_eq]
  congr 1
  funext sy iy
  rw [List.foldl_map]

theorem foldl_search_of_firstMin {α : Type} (key : α → ℚ) (upd : α → SearchState)
    (hupd : ∀ c, (upd c).mindist2 = key c) (l : List α) (s0 : SearchState) (c : α)
    (hc : firstMin key l = some c) :
    l.foldl (fun s c => if key c < s.mindist2 then upd c else s) s0
      = if key c < s0.mindist2 then upd c else s0 := by
  have h := foldl_search_firstMin key upd hupd l s0
  rw [hc] at h
  exact h

theorem fixedSearch_eq_firstMin (self : Action_AutoImage) (frm : Frame) (anchorcenter : Vec3)
    (firstAtom lastAtom : Nat) (c : Int × Int × Int)
    (hc : firstMin (candDist2 self.ortho_ frm.BoxCrd anchorcenter
            (molCenter self.useMass_ frm firstAtom lastAtom))
          (fixedTriples self frm anchorcenter firstAtom lastAtom) = some c) :
    fixedSearch self frm anchorcenter firstAtom lastAtom
      = if candDist2 self.ortho_ frm.BoxCrd anchorcenter
            (molCenter self.useMass_ frm firstAtom lastAtom) c < initDist2 frm.BoxCrd then
          { mindist2 := candDist2 self.ortho_ frm.BoxCrd anchorcenter
              (molCenter self.useMass_ frm firstAtom lastAtom) c
            minTrans := candTrans self.ortho_ frm.BoxCrd c.1 c.2.1 c.2.2
            minImage := Vec3.add (molCenter self.useMass_ frm firstAtom lastAtom)
              (candTrans self.ortho_ frm.BoxCrd c.1 c.2.1 c.2.2) }
        else
          { mindist2 := initDist2 frm.BoxCrd, minTrans := Vec3.zero, minImage := Vec3.zero } := by
  have h := foldl_search_of_firstMin
    (candDist2 self.ortho_ frm.BoxCrd anchorcenter
      (molCenter self.useMass_ frm firstAtom lastAtom))
    (fun c =>
      { mindist2 := candDist2 self.ortho_ frm.BoxCrd anchorcenter
          (molCenter self.useMass_ frm firstAtom lastAtom) c
        minTrans := candTrans self.ortho_ frm.BoxCrd c.1 c.2.1 c.2.2
        minImage := Vec3.add (molCenter self.useMass_ frm firstAtom lastAtom)
          (candTrans self.ortho_ frm.BoxCrd c.1 c.2.1 c.2.2) })
    (fun _ => rfl)
    (fixedTriples self frm anchorcenter firstAtom lastAtom)
    { mindist2 := initDist2 frm.BoxCrd, minTrans := Vec3.zero, minImage := Vec3.zero } c hc
  refine Eq.trans ?_ h
  unfold fixedSearch
  simp only [searchLoops_eq_foldl]
  rfl

theorem wrapInt_of_range (x : Int) (h1 : INT_MIN ≤ x) (h2 : x ≤ INT_MAX) : wrapInt x = x := by
  unfold wrapInt
  unfold INT_MIN INT_MAX at *
  omega

theorem wrapInt_range (x : Int) : INT_MIN ≤ wrapInt x ∧ wrapInt x ≤ INT_MAX := by
  unfold wrapInt INT_MIN INT_MAX
  omega

theorem toInt_cases (x : Int) :
    (INT_MIN ≤ x ∧ x ≤ INT_MAX ∧ toInt x = x)
    ∨ ((x < INT_MIN ∨ INT_MAX < x) ∧ toInt x = INT_MIN) := by
  unfold toInt
  by_cases h : INT_MIN ≤ x ∧ x ≤ INT_MAX
  · rw [if_pos h]
    exact Or.inl ⟨h.1, h.2, rfl⟩
  · rw [if_neg h]
    refine Or.inr ⟨?_, rfl⟩
    by_cases h1 : INT_MIN ≤ x
    · exact Or.inr (not_le.mp (fun h2 => h ⟨h1, h2⟩))
    · exact Or.inl (not_le.mp h1)

theorem Round_fin (q : ℚ) :
    Round (Dbl.fin q)
      = if q < 0 then (toInt (Int.floor q - 1), -1) else (toInt (Int.ceil q + 1), 1) := rfl

theorem Round_cases (d : Dbl) :
    ((Round d).2 = 1 ∧ ((1 ≤ (Round d).1 ∧ (Round d).1 ≤ INT_MAX) ∨ (Round d).1 = INT_MIN))
    ∨ ((Round d).2 = -1 ∧ INT_MIN ≤ (Round d).1 ∧ (Round d).1 ≤ -2) := by
  cases d with
  | fin q =>
    rw [Round_fin]
    by_cases h : q < 0
    · rw [if_pos h]
      have hf : Int.floor q < 0 := Int.floor_lt.mpr (by exact_mod_cast h)
      refine Or.inr ⟨rfl, ?_⟩
      show INT_MIN ≤ toInt (Int.floor q - 1) ∧ toInt (Int.floor q - 1) ≤ -2
      rcases toInt_cases (Int.floor q - 1) with ⟨h1, _, h3⟩ | ⟨_, h3⟩
      · rw [h3]
        exact ⟨h1, by omega⟩
      · rw [h3]
        simp only [INT_MIN]
        omega
    · rw [if_neg h]
      have hc : 0 ≤ Int.ceil q := Int.ceil_nonneg (not_lt.mp h)
      refine Or.inl ⟨rfl, ?_⟩
      show (1 ≤ toInt (Int.ceil q + 1) ∧ toInt (Int.ceil q + 1) ≤ INT_MAX)
        ∨ toInt (Int.ceil q + 1) = INT_MIN
      rcases toInt_cases (Int.ceil q + 1) with ⟨_, h2, h3⟩ | ⟨_, h3⟩
      · rw [h3]
        exact Or.inl ⟨by omega, h2⟩
      · rw [h3]
        exact Or.inr rfl
  | posInf => exact Or.inl ⟨rfl, Or.inr rfl⟩
  | negInf => exact Or.inr ⟨rfl, le_refl _, by decide⟩
  | nan => exact Or.inl ⟨rfl, Or.inr rfl⟩

theorem Round_fst_ne_zero (d : Dbl) : (Round d).1 ≠ 0 := by
  have h := Round_cases d
  simp only [INT_MIN, INT_MAX] at h
  omega

theorem forIdx_head (max dir : Int) (h : max ≠ 0) : ∃ t, forIdx max dir = 0 :: t := by
  unfold forIdx
  obtain ⟨n, hn⟩ : ∃ n, max.natAbs = n + 1 :=
    Nat.exists_eq_succ_of_ne_zero (Int.natAbs_ne_zero.mpr h)
  rw [hn]
  simp only [loopIdx, if_neg (Ne.symm h)]
  exact ⟨_, rfl⟩

theorem fixedTriples_head (self : Action_AutoImage) (frm : Frame) (anchorcenter : Vec3)
    (firstAtom lastAtom : Nat) :
    ∃ rest, fixedTriples self frm anchorcenter firstAtom lastAtom = (0, 0, 0) :: rest := by
  unfold fixedTriples
  obtain ⟨tx, hx⟩ := forIdx_head (Round
    (searchDxyz self frm anchorcenter firstAtom lastAtom).x).1 (Round
    (searchDxyz self frm anchorcenter firstAtom lastAtom).x).2 (Round_fst_ne_zero _)
  obtain ⟨ty, hy⟩ := forIdx_head (Round
    (searchDxyz self frm anchorcenter firstAtom lastAtom).y).1 (Round
    (searchDxyz self frm anchorcenter firstAtom lastAtom).y).2 (Round_fst_ne_zero _)
  obtain ⟨tz, hz⟩ := forIdx_head (Round
    (searchDxyz self frm anchorcenter firstAtom lastAtom).z).1 (Round
    (searchDxyz self frm anchorcenter firstAtom lastAtom).z).2 (Round_fst_ne_zero _)
  simp only [hx, hy, hz, searchTriples, List.flatMap_cons, List.map_cons, List.cons_append]
  exact ⟨_, rfl⟩

theorem candTrans_zero (ortho : Bool) (box : Box) : candTrans ortho box 0 0 0 = Vec3.zero := by
  unfold candTrans Matrix_3x3.TransposeMult Vec3.zero
  cases ortho <;> simp

theorem vec_add_zero (a : Vec3) : Vec3.add a Vec3.zero = a := by
  cases a
  simp [Vec3.add, Vec3.zero]

theorem length_translateFrom (v : Vec3) (first last : Nat) (X : List Vec3) (i : Nat) :
    (translateFrom v first last i X).length = X.length := by
  induction X generalizing i with
  | nil => rfl
  | cons p ps ih => simp [translateFrom, ih]

theorem getD_translateFrom (v : Vec3) (first last : Nat) (X : List Vec3) (i k : Nat) :
    (translateFrom v first last i X).getD k Vec3.zero
      = if k < X.length ∧ first ≤ i + k ∧ i + k < last then Vec3.add (X.getD k Vec3.zero) v
        else X.getD k Vec3.zero := by
  induction X generalizing i k with
  | nil => simp [translateFrom]
  | cons p ps ih =>
    cases k with
    | zero => simp [translateFrom]
    | succ k =>
      simp only [translateFrom, List.getD_cons_succ, ih, List.length_cons]
      have e : (k < ps.length ∧ first ≤ i + 1 + k ∧ i + 1 + k < last)
          ↔ (k + 1 < ps.length + 1 ∧ first ≤ i + (k + 1) ∧ i + (k + 1) < last) := by
        constructor <;> rintro ⟨h1, h2, h3⟩ <;> exact ⟨by omega, by omega, by omega⟩
      by_cases h : k < ps.length ∧ first ≤ i + 1 + k ∧ i + 1 + k < last
      · rw [if_pos h, if_pos (e.mp h)]
      · rw [if_neg h, if_neg (fun h' => h (e.mpr h'))]

theorem sumAtoms_shift (X X' : List Vec3) (w : Nat → ℚ) (v : Vec3) (atoms : List Nat)
    (h : ∀ a ∈ atoms, X'.getD a Vec3.zero = Vec3.add (X.getD a Vec3.zero) v) :
    sumAtoms X' w atoms = Vec3.add (sumAtoms X w atoms) (Vec3.smul (sumWeights w atoms) v) := by
  induction atoms with
  | nil => simp [sumAtoms, sumWeights, Vec3.add, Vec3.smul, Vec3.zero]
  | cons a rest ih =>
    have ha := h a (List.mem_cons_self _ _)
    have hr : ∀ b ∈ rest, X'.getD b Vec3.zero = Vec3.add (X.getD b Vec3.zero) v :=
      fun b hb => h b (List.mem_cons_of_mem _ hb)
    simp only [sumAtoms, sumWeights, ih hr, ha]
    simp only [Vec3.add, Vec3.smul, Vec3.mk.injEq]
    refine ⟨?_, ?_, ?_⟩ <;> ring

theorem sumAtoms_congr (X X' : List Vec3) (w : Nat → ℚ) (atoms : List Nat)
    (h : ∀ a ∈ atoms, X'.getD a Vec3.zero = X.getD a Vec3.zero) :
    sumAtoms X' w atoms = sumAtoms X w atoms := by
  induction atoms with
  | nil => rfl
  | cons a rest ih =>
    have ha := h a (List.mem_cons_self _ _)
    have hr : ∀ b ∈ rest, X'.getD b Vec3.zero = X.getD b Vec3.zero :=
      fun b hb => h b (List.mem_cons_of_mem _ hb)
    simp only [sumAtoms, ih hr, ha]

theorem centerOf_shift (X X' : List Vec3) (w : Nat → ℚ) (v : Vec3) (atoms : List Nat)
    (h : ∀ a ∈ atoms, X'.getD a Vec3.zero = Vec3.add (X.getD a Vec3.zero) v)
    (hw : sumWeights w atoms ≠ 0) :
    centerOf X' w atoms = Vec3.add (centerOf X w atoms) v := by
  simp only [centerOf, hw, if_false, sumAtoms_shift X X' w v atoms h]
  simp only [Vec3.add, Vec3.smul, Vec3.sdiv, Vec3.mk.injEq]
  refine ⟨?_, ?_, ?_⟩ <;> field_simp <;> ring

theorem centerOf_congr (X X' : List Vec3) (w : Nat → ℚ) (atoms : List Nat)
    (h : ∀ a ∈ atoms, X'.getD a Vec3.zero = X.getD a Vec3.zero) :
    centerOf X' w atoms = centerOf X w atoms := by
  simp only [centerOf, sumAtoms_congr X X' w atoms h]

theorem molCenter_eq (useMass : Bool) (frm : Frame) (firstAtom lastAtom : Nat) :
    molCenter useMass frm firstAtom lastAtom
      = centerOf frm.X (weightOf useMass frm) (List.range' firstAtom (lastAtom - firstAtom)) := by
  unfold molCenter weightOf
  cases useMass <;>
    simp [Frame.VCenterOfMassR, Frame.VGeometricCenterR, Frame.VCenterOfMass,
      Frame.VGeometricCenter]

theorem weightOf_TranslateR (useMass : Bool) (frm : Frame) (v : Vec3) (f l : Nat) :
    weightOf useMass (frm.TranslateR v f l) = weightOf useMass frm := by
  simp [weightOf, Frame.TranslateR]

theorem rangeWeights_ne_zero (useMass : Bool) (frm : Frame) (firstAtom lastAtom : Nat)
    (hlt : firstAtom < lastAtom)
    (hm : useMass = true →
      sumWeights (fun a => frm.Mass.getD a 0) (List.range' firstAtom (lastAtom - firstAtom)) ≠ 0) :
    sumWeights (weightOf useMass frm) (List.range' firstAtom (lastAtom - firstAtom)) ≠ 0 := by
  unfold weightOf
  cases hu : useMass
  · have hne : List.range' firstAtom (lastAtom - firstAtom) ≠ [] := by
      intro e
      have := congrArg List.length e
      simp at this
      omega
    simpa using sumWeights_one_ne_zero _ hne
  · simpa using hm hu

theorem molCenter_TranslateR (useMass : Bool) (frm : Frame) (v : Vec3)
    (firstAtom lastAtom : Nat) (hlt : firstAtom < lastAtom) (hle : lastAtom ≤ frm.X.length)
    (hm : useMass = true →
      sumWeights (fun a => frm.Mass.getD a 0) (List.range' firstAtom (lastAtom - firstAtom)) ≠ 0) :
    molCenter useMass (frm.TranslateR v firstAtom lastAtom) firstAtom lastAtom
      = Vec3.add (molCenter useMass frm firstAtom lastAtom) v := by
  rw [molCenter_eq, molCenter_eq, weightOf_TranslateR]
  apply centerOf_shift
  · intro a ha
    have hmem := List.mem_range'_1.mp ha
    simp only [Frame.TranslateR, getD_translateFrom]
    rw [if_pos]
    exact ⟨by omega, by omega, by omega⟩
  · exact rangeWeights_ne_zero useMass frm firstAtom lastAtom hlt hm

/-- C5: the fixed-molecule search step never moves a fixed molecule away from
its reference point: the squared distance of the molecule's centre to the
reference point after the step is at most the one before, equal to it when
the applied translation is the zero vector, and strictly smaller when a
non-zero translation is applied.  The molecule's atom range is non-empty and
within the frame, and with mass weighting its total mass is not zero. -/
theorem fixedStep_never_farther (self : Action_AutoImage) (frm : Frame) (anchorcenter : Vec3)
    (firstAtom lastAtom : Nat) (hlt : firstAtom < lastAtom) (hle : lastAtom ≤ frm.X.length)
    (hm : self.useMass_ = true →
      sumWeights (fun a => frm.Mass.getD a 0) (List.range' firstAtom (lastAtom - firstAtom)) ≠ 0) :
    DIST2_NoImage anchorcenter
        (molCenter self.useMass_ (fixedStep self frm anchorcenter firstAtom lastAtom).1
          firstAtom lastAtom)
      ≤ DIST2_NoImage anchorcenter (molCenter self.useMass_ frm firstAtom lastAtom)
    ∧ ((fixedSearch self frm anchorcenter firstAtom lastAtom).minTrans = Vec3.zero →
        DIST2_NoImage anchorcenter
            (molCenter self.useMass_ (fixedStep self frm anchorcenter firstAtom lastAtom).1
              firstAtom lastAtom)
          = DIST2_NoImage anchorcenter (molCenter self.useMass_ frm firstAtom lastAtom))
    ∧ ((fixedSearch self frm anchorcenter firstAtom lastAtom).minTrans ≠ Vec3.zero →
        DIST2_NoImage anchorcenter
            (molCenter self.useMass_ (fixedStep self frm anchorcenter firstAtom lastAtom).1
              firstAtom lastAtom)
          < DIST2_NoImage anchorcenter (molCenter self.useMass_ frm firstAtom lastAtom)) := by
  have hcen : molCenter self.useMass_ (fixedStep self frm anchorcenter firstAtom lastAtom).1
        firstAtom lastAtom
      = Vec3.add (molCenter self.useMass_ frm firstAtom lastAtom)
          (fixedSearch self frm anchorcenter firstAtom lastAtom).minTrans := by
    simp only [fixedStep]
    exact molCenter_TranslateR _ _ _ _ _ hlt hle hm
  rw [hcen]
  obtain ⟨rest, hrest⟩ := fixedTriples_head self frm anchorcenter firstAtom lastAtom
  obtain ⟨c, hc⟩ : ∃ c, firstMin (candDist2 self.ortho_ frm.BoxCrd anchorcenter
      (molCenter self.useMass_ frm firstAtom lastAtom))
      (fixedTriples self frm anchorcenter firstAtom lastAtom) = some c := by
    cases hf : firstMin (candDist2 self.ortho_ frm.BoxCrd anchorcenter
      (molCenter self.useMass_ frm firstAtom lastAtom))
      (fixedTriples self frm anchorcenter firstAtom lastAtom) with
    | none =>
      rw [firstMin_eq_none, hrest] at hf
      exact absurd hf (List.cons_ne_nil _ _)
    | some c => exact ⟨c, rfl⟩
  obtain ⟨pre, post, hl, hpre, hpost⟩ := firstMin_spec _ _ c hc
  rw [fixedSearch_eq_firstMin self frm anchorcenter firstAtom lastAtom c hc]
  have hzero : candDist2 self.ortho_ frm.BoxCrd anchorcenter
      (molCenter self.useMass_ frm firstAtom lastAtom) (0, 0, 0)
      = DIST2_NoImage anchorcenter (molCenter self.useMass_ frm firstAtom lastAtom) := by
    simp only [candDist2, candTrans_zero, vec_add_zero]
  by_cases hthr : candDist2 self.ortho_ frm.BoxCrd anchorcenter
      (molCenter self.useMass_ frm firstAtom lastAtom) c < initDist2 frm.BoxCrd
  · simp only [hthr, if_true]
    have hafter : DIST2_NoImage anchorcenter
        (Vec3.add (molCenter self.useMass_ frm firstAtom lastAtom)
          (candTrans self.ortho_ frm.BoxCrd c.1 c.2.1 c.2.2))
        = candDist2 self.ortho_ frm.BoxCrd anchorcenter
          (molCenter self.useMass_ frm firstAtom lastAtom) c := rfl
    rw [hafter, ← hzero]
    cases pre with
    | nil =>
      have hc0 : c = (0, 0, 0) := by
        rw [hrest] at hl
        simp only [List.nil_append, List.cons.injEq] at hl
        exact hl.1.symm
      subst hc0
      refine ⟨le_refl _, fun _ => rfl, fun hne => ?_⟩
      exact absurd (candTrans_zero _ _) hne
    | cons z pre' =>
      have hz : z = (0, 0, 0) := by
        rw [hrest] at hl
        simp only [List.cons_append, List.cons.injEq] at hl
        exact hl.1.symm
      have hlt' := hpre z (List.mem_cons_self _ _)
      rw [hz] at hlt'
      exact ⟨le_of_lt hlt', fun _ => by
        simp only [candDist2] at hlt' ⊢
        rename_i h0
        rw [h0, vec_add_zero] at *
        simp [candTrans_zero, vec_add_zero], fun _ => hlt'⟩
  · simp only [hthr, if_false, vec_add_zero]
    exact ⟨le_refl _, fun _ => trivial, fun hne => absurd rfl hne⟩

/-- Witness for C5: the two-atom molecule of `exampleFrame`, 65.5 away from
the reference point `(15, 15, 15)` along every axis, ends up closer. -/
theorem fixedStep_never_farther_witness :
    (3 < 5) ∧ 5 ≤ exampleFrame.X.length
      ∧ DIST2_NoImage ⟨15, 15, 15⟩
          (molCenter exampleAction.useMass_
            (fixedStep exampleAction exampleFrame ⟨15, 15, 15⟩ 3 5).1 3 5)
        ≤ DIST2_NoImage ⟨15, 15, 15⟩ (molCenter exampleAction.useMass_ exampleFrame 3 5) :=
  ⟨by decide, by decide,
   (fixedStep_never_farther exampleAction exampleFrame ⟨15, 15, 15⟩ 3 5 (by decide) (by decide)
      (fun h => absurd h (by decide))).1⟩

/-- The search of a fixed molecule in general: with `c` the first candidate
triple, in enumeration order, whose translated centre attains the minimum
squared distance to the reference point over all enumerated triples, the
translation applied is that of `c` when this minimum is below the initial
`mindist2`, the squared product of the box lengths, and the zero vector
otherwise. -/
theorem fixedSearch_first_minimum_below_threshold (self : Action_AutoImage) (frm : Frame)
    (anchorcenter : Vec3) (firstAtom lastAtom : Nat) :
    ∃ c pre post,
      fixedTriples self frm anchorcenter firstAtom lastAtom = pre ++ c :: post
      ∧ (∀ d ∈ pre,
          candDist2 self.ortho_ frm.BoxCrd anchorcenter
              (molCenter self.useMass_ frm firstAtom lastAtom) c
            < candDist2 self.ortho_ frm.BoxCrd anchorcenter
              (molCenter self.useMass_ frm firstAtom lastAtom) d)
      ∧ (∀ d ∈ post,
          candDist2 self.ortho_ frm.BoxCrd anchorcenter
              (molCenter self.useMass_ frm firstAtom lastAtom) c
            ≤ candDist2 self.ortho_ frm.BoxCrd anchorcenter
              (molCenter self.useMass_ frm firstAtom lastAtom) d)
      ∧ (fixedSearch self frm anchorcenter firstAtom lastAtom).minTrans
          = (if candDist2 self.ortho_ frm.BoxCrd anchorcenter
                (molCenter self.useMass_ frm firstAtom lastAtom) c < initDist2 frm.BoxCrd
             then candTrans self.ortho_ frm.BoxCrd c.1 c.2.1 c.2.2 else Vec3.zero)
      ∧ (fixedStep self frm anchorcenter firstAtom lastAtom).1
          = frm.TranslateR (fixedSearch self frm anchorcenter firstAtom lastAtom).minTrans
              firstAtom lastAtom := by
  obtain ⟨rest, hrest⟩ := fixedTriples_head self frm anchorcenter firstAtom lastAtom
  obtain ⟨c, hc⟩ : ∃ c, firstMin (candDist2 self.ortho_ frm.BoxCrd anchorcenter
      (molCenter self.useMass_ frm firstAtom lastAtom))
      (fixedTriples self frm anchorcenter firstAtom lastAtom) = some c := by
    cases hf : firstMin (candDist2 self.ortho_ frm.BoxCrd anchorcenter
      (molCenter self.useMass_ frm firstAtom lastAtom))
      (fixedTriples self frm anchorcenter firstAtom lastAtom) with
    | none =>
      rw [firstMin_eq_none, hrest] at hf
      exact absurd hf (List.cons_ne_nil _ _)
    | some c => exact ⟨c, rfl⟩
  obtain ⟨pre, post, hl, hpre, hpost⟩ := firstMin_spec _ _ c hc
  refine ⟨c, pre, post, hl, hpre, hpost, ?_, rfl⟩
  rw [fixedSearch_eq_firstMin self frm anchorcenter firstAtom lastAtom c hc]
  by_cases hthr : candDist2 self.ortho_ frm.BoxCrd anchorcenter
      (molCenter self.useMass_ frm firstAtom lastAtom) c < initDist2 frm.BoxCrd
  · simp only [hthr, if_true]
  · simp only [hthr, if_false]

/-- C7, evaluated on the code: in the box of lengths `1/2` the one-atom fixed
molecule at `(11/20, 1/4, 1/4)` with reference point `(1/4, 1/4, 1/4)` has
the candidates `(0,0,0)` and `(-1,0,0)` at squared distances `9/100` and
`1/25`; the first minimum is `(-1,0,0)`, whose translation is
`(-1/2, 0, 0)`, and yet the search applies the zero translation, because no
candidate is below the initial `mindist2 = 1/64`. -/
theorem fixedSearch_misses_minimum_small_box :
    fixedTriples actionHalf frameHalfX ⟨1/4, 1/4, 1/4⟩ 1 2 = [(0, 0, 0), (-1, 0, 0)]
      ∧ firstMin (candDist2 true boxHalf ⟨1/4, 1/4, 1/4⟩ (molCenter false frameHalfX 1 2))
          (fixedTriples actionHalf frameHalfX ⟨1/4, 1/4, 1/4⟩ 1 2) = some (-1, 0, 0)
      ∧ candDist2 true boxHalf ⟨1/4, 1/4, 1/4⟩ (molCenter false frameHalfX 1 2) (0, 0, 0)
          = 9/100
      ∧ candDist2 true boxHalf ⟨1/4, 1/4, 1/4⟩ (molCenter false frameHalfX 1 2) (-1, 0, 0)
          = 1/25
      ∧ initDist2 boxHalf = 1/64
      ∧ candTrans true boxHalf (-1) 0 0 = ⟨-1/2, 0, 0⟩
      ∧ (fixedSearch actionHalf frameHalfX ⟨1/4, 1/4, 1/4⟩ 1 2).minTrans = ⟨0, 0, 0⟩
      ∧ (fixedStep actionHalf frameHalfX ⟨1/4, 1/4, 1/4⟩ 1 2).1 = frameHalfX := by
  refine ⟨?_, ?_, ?_, ?_, ?_, ?_, ?_, ?_⟩ <;> with_unfolding_all decide

/-- C6, evaluated on the code: in the box of lengths `1/2`, with the anchor at
the cell centre `(1/4, 1/4, 1/4)` and the one-atom fixed molecule at
`(1/2, 1/2, 1/2)`, `DoAction` leaves the molecule where it is, and the
running reference point after the molecule is `(0, 0, 0)`, not the
molecule's centre `(1/2, 1/2, 1/2)`. -/
theorem doAction_reference_not_molecule_centre :
    anchorTarget actionHalf frameHalf.BoxCrd = ⟨1/4, 1/4, 1/4⟩
      ∧ (doActionTrace Image.routines actionHalf frameHalf).1 = RetType.MODIFY_COORDS
      ∧ (doActionTrace Image.routines actionHalf frameHalf).2.1 = frameHalf
      ∧ molCenter actionHalf.useMass_
          (doActionTrace Image.routines actionHalf frameHalf).2.1 1 2 = ⟨1/2, 1/2, 1/2⟩
      ∧ (doActionTrace Image.routines actionHalf frameHalf).2.2 = ⟨0, 0, 0⟩
      ∧ (doActionTrace Image.routines actionHalf frameHalf).2.2
          ≠ molCenter actionHalf.useMass_
              (doActionTrace Image.routines actionHalf frameHalf).2.1 1 2 := by
  refine ⟨?_, ?_, ?_, ?_, ?_, ?_⟩ <;> with_unfolding_all decide

/-! ## The early return of DoAction -/

theorem anchorTranslate_BoxCrd (self : Action_AutoImage) (frm : Frame) :
    (anchorTranslate self frm).BoxCrd = frm.BoxCrd := rfl

/-- C8 as stated fails: with an orthogonal box of zero lengths, `SetupOrtho`
fails and yet `DoAction` returns a frame whose only atom has moved from
`(1, 0, 0)` to `(0, 0, 0)`. -/
theorem doAction_zero_box_modifies_frame :
    Image.routines.SetupOrtho frameZeroBox.BoxCrd actionZeroBox.origin_ = none
      ∧ (actionZeroBox.DoAction Image.routines frameZeroBox).1 = RetType.OK
      ∧ frameZeroBox.X = [⟨1, 0, 0⟩]
      ∧ (actionZeroBox.DoAction Image.routines frameZeroBox).2.X = [⟨0, 0, 0⟩]
      ∧ (actionZeroBox.DoAction Image.routines frameZeroBox).2.X ≠ frameZeroBox.X := by
  refine ⟨?_, ?_, ?_, ?_, ?_⟩ <;> with_unfolding_all decide

/-- C8, amended: on the orthogonal path, when `SetupOrtho` reports failure
for the frame's box, `DoAction` returns `OK` and the frame it leaves behind
is the entry frame after the anchor translation alone: every atom moved by
the one vector that centres the anchor, with no mobile and no fixed imaging
on top. -/
theorem doAction_setupOrtho_failure (img : ImageRoutines) (self : Action_AutoImage)
    (frm : Frame) (hortho : self.ortho_ = true)
    (hfail : img.SetupOrtho frm.BoxCrd self.origin_ = none) :
    self.DoAction img frm = (RetType.OK, anchorTranslate self frm)
      ∧ (self.DoAction img frm).2.X
        = frm.X.map (fun p => Vec3.add p (anchorShift self frm)) := by
  have h : self.DoAction img frm = (RetType.OK, anchorTranslate self frm) := by
    simp [Action_AutoImage.DoAction, doActionTrace, mobileImage, hortho,
      anchorTranslate_BoxCrd, hfail]
  refine ⟨h, ?_⟩
  rw [h]
  rfl

/-- Witness for C8 (amended): the zero box of `frameZeroBox`. -/
theorem doAction_setupOrtho_failure_witness :
    actionZeroBox.ortho_ = true
      ∧ Image.routines.SetupOrtho frameZeroBox.BoxCrd actionZeroBox.origin_ = none
      ∧ actionZeroBox.DoAction Image.routines frameZeroBox
        = (RetType.OK, anchorTranslate actionZeroBox frameZeroBox) :=
  ⟨rfl, by with_unfolding_all decide,
   (doAction_setupOrtho_failure Image.routines actionZeroBox frameZeroBox rfl
      (by with_unfolding_all decide)).1⟩

/-! ## Setup: the automatic classification -/

theorem pairsOf_flatRanges (ms : List Molecule) :
    pairsOf (flatRanges ms) = ms.map (fun m => (m.BeginAtom, m.EndAtom)) :=
  pairsOf_flatMap ms

theorem flatRanges_cons (m : Molecule) (ms : List Molecule) :
    flatRanges (m :: ms) = m.BeginAtom :: m.EndAtom :: flatRanges ms := rfl

theorem flatRanges_append_single (ms : List Molecule) (m : Molecule) :
    flatRanges ms ++ [m.BeginAtom, m.EndAtom] = flatRanges (ms ++ [m]) := by
  simp [flatRanges, List.flatMap_append]

theorem autoLoop_eq (fixedauto mobileauto : Bool) (k : Int) (n : Nat) (mols : List Molecule)
    (ms1 ms2 : List Molecule) (F M : List Nat) :
    autoLoop fixedauto mobileauto k n mols (F ++ flatRanges ms1, M ++ flatRanges ms2)
      = (F ++ flatRanges (ms1 ++
            if fixedauto then (otherMols k n mols).filter (fun m => !isMobileMol m) else []),
         M ++ flatRanges (ms2 ++
            if mobileauto then (otherMols k n mols).filter isMobileMol else [])) := by
  induction mols generalizing n ms1 ms2 with
  | nil => simp [autoLoop, otherMols]
  | cons m rest ih =>
    have hdef : isMobileMol m = (m.IsSolvent || decide (m.NumAtoms = 1)) := rfl
    simp only [autoLoop, otherMols]
    by_cases hk : (n : Int) ≠ k
    · simp only [hk, if_true, ne_eq, not_false_eq_true]
      cases hb : (m.IsSolvent || decide (m.NumAtoms = 1))
      · rw [hb] at hdef
        cases fixedauto
        · simp only [Bool.false_eq_true, if_false]
          rw [ih]
          simp [List.filter_cons, hdef]
        · simp only [Bool.false_eq_true, if_false, if_true, List.append_assoc,
            flatRanges_append_single]
          rw [ih]
          simp [List.filter_cons, hdef]
      · rw [hb] at hdef
        cases mobileauto
        · simp only [Bool.false_eq_true, if_false, if_true]
          rw [ih]
          simp [List.filter_cons, hdef]
        · simp only [if_true, List.append_assoc, flatRanges_append_single]
          rw [ih]
          simp [List.filter_cons, hdef]
    · simp only [hk, if_false]
      rw [ih]

theorem autoLoop_auto (k : Int) (mols : List Molecule) :
    autoLoop true true k 0 mols ([], [])
      = (flatRanges ((otherMols k 0 mols).filter (fun m => !isMobileMol m)),
         flatRanges ((otherMols k 0 mols).filter isMobileMol)) := by
  have h := autoLoop_eq true true k 0 mols [] [] [] []
  simpa [flatRanges] using h

theorem Setup_ok_inv (self st : Action_AutoImage) (top : Topology) (boxType : BoxType)
    (hok : self.Setup top boxType = (RetType.OK, st)) :
    1 ≤ top.Nmol ∧ boxType ≠ BoxType.NOBOX
      ∧ st.useMass_ = self.useMass_ ∧ st.origin_ = self.origin_
      ∧ ∃ k, setupAnchor self.anchor_ top = some (st.anchorMask_, k)
        ∧ (self.fixed_ = "" → self.mobile_ = "" →
            st.fixedList_ = flatRanges ((otherMols k 0 top.mols).filter (fun m => !isMobileMol m))
            ∧ st.mobileList_ = flatRanges ((otherMols k 0 top.mols).filter isMobileMol)) := by
  unfold Action_AutoImage.Setup at hok
  by_cases h1 : top.Nmol < 1
  · simp [h1] at hok
  · by_cases h2 : boxType = BoxType.NOBOX
    · simp [h1, h2] at hok
    · simp only [h1, h2, if_false] at hok
      cases ha : setupAnchor self.anchor_ top with
      | none => simp [ha] at hok
      | some r =>
        obtain ⟨mask, k⟩ := r
        simp only [ha, Prod.mk.injEq, true_and] at hok
        subst hok
        refine ⟨by omega, h2, rfl, rfl, k, rfl, ?_⟩
        intro hf hm
        simp [hf, hm, autoLoop_auto]

theorem contains_iff (m : Molecule) (a : Nat) :
    m.contains a = true ↔ m.BeginAtom ≤ a ∧ a < m.EndAtom := by
  simp [Molecule.contains]

theorem tiles_cons (s N : Nat) (m : Molecule) (ms : List Molecule)
    (h : tiles s (m :: ms) N = true) :
    m.BeginAtom = s ∧ m.BeginAtom < m.EndAtom ∧ tiles m.EndAtom ms N = true := by
  simp only [tiles, Bool.and_eq_true, beq_iff_eq, decide_eq_true_eq] at h
  exact ⟨h.1.1, h.1.2, h.2⟩

theorem tiles_le (mols : List Molecule) (s N : Nat) (h : tiles s mols N = true) : s ≤ N := by
  induction mols generalizing s with
  | nil =>
    have : s = N := by simpa [tiles] using h
    omega
  | cons m ms ih =>
    obtain ⟨h1, h2, h3⟩ := tiles_cons s N m ms h
    have := ih m.EndAtom h3
    omega

theorem tiles_get_bounds (mols : List Molecule) (s N : Nat) (h : tiles s mols N = true)
    (i : Nat) (m : Molecule) (hi : mols[i]? = some m) :
    s ≤ m.BeginAtom ∧ m.BeginAtom < m.EndAtom ∧ m.EndAtom ≤ N := by
  induction mols generalizing s i with
  | nil => simp at hi
  | cons m0 ms ih =>
    obtain ⟨h1, h2, h3⟩ := tiles_cons s N m0 ms h
    cases i with
    | zero =>
      simp only [List.getElem?_cons_zero, Option.some.injEq] at hi
      subst hi
      exact ⟨by omega, h2, tiles_le ms _ N h3⟩
    | succ i =>
      simp only [List.getElem?_cons_succ] at hi
      obtain ⟨b1, b2, b3⟩ := ih m0.EndAtom h3 i hi
      exact ⟨by omega, b2, b3⟩

theorem tiles_index_unique (mols : List Molecule) (s N : Nat) (h : tiles s mols N = true)
    (i j : Nat) (m m' : Molecule) (hi : mols[i]? = some m) (hj : mols[j]? = some m')
    (a : Nat) (ha : m.contains a = true) (ha' : m'.contains a = true) : i = j := by
  rw [contains_iff] at ha ha'
  induction mols generalizing s i j with
  | nil => simp at hi
  | cons m0 ms ih =>
    obtain ⟨h1, h2, h3⟩ := tiles_cons s N m0 ms h
    cases i with
    | zero =>
      cases j with
      | zero => rfl
      | succ j =>
        simp only [List.getElem?_cons_zero, Option.some.injEq] at hi
        simp only [List.getElem?_cons_succ] at hj
        have := tiles_get_bounds ms _ N h3 j m' hj
        subst hi
        omega
    | succ i =>
      cases j with
      | zero =>
        simp only [List.getElem?_cons_zero, Option.some.injEq] at hj
        simp only [List.getElem?_cons_succ] at hi
        have := tiles_get_bounds ms _ N h3 i m hi
        subst hj
        omega
      | succ j =>
        simp only [List.getElem?_cons_succ] at hi hj
        have := ih m0.EndAtom h3 i j hi hj
        omega

theorem tiles_count (a : Nat) (mols : List Molecule) (s N : Nat)
    (h : tiles s mols N = true) :
    mols.countP (fun m => m.contains a) = if s ≤ a ∧ a < N then 1 else 0 := by
  induction mols generalizing s with
  | nil =>
    have : s = N := by simpa [tiles] using h
    have hn : ¬ (s ≤ a ∧ a < N) := by omega
    simp [hn]
  | cons m ms ih =>
    obtain ⟨h1, h2, h3⟩ := tiles_cons s N m ms h
    have hle := tiles_le ms _ N h3
    rw [List.countP_cons, ih m.EndAtom h3]
    by_cases hc : m.contains a = true
    · have hc' := (contains_iff m a).mp hc
      have hn : ¬ (m.EndAtom ≤ a ∧ a < N) := by omega
      have hp : s ≤ a ∧ a < N := by omega
      rw [if_neg hn, if_pos hp, if_pos hc]
    · have hc' : ¬ (m.BeginAtom ≤ a ∧ a < m.EndAtom) := fun h' => hc ((contains_iff m a).mpr h')
      by_cases hp : s ≤ a ∧ a < N
      · have hq : m.EndAtom ≤ a ∧ a < N := by omega
        rw [if_pos hq, if_pos hp, if_neg hc]
      · have hq : ¬ (m.EndAtom ≤ a ∧ a < N) := by omega
        rw [if_neg hq, if_neg hp, if_neg hc]

theorem molNums_get (amn : List Nat) (mols : List Molecule) (n : Nat)
    (h : molNumsFrom amn n mols = true) (j : Nat) (m : Molecule) (hj : mols[j]? = some m)
    (a : Nat) (ha : m.contains a = true) : amn.getD a 0 = n + j := by
  induction mols generalizing n j with
  | nil => simp at hj
  | cons m0 ms ih =>
    simp only [molNumsFrom, Bool.and_eq_true, List.all_eq_true, beq_iff_eq] at h
    cases j with
    | zero =>
      simp only [List.getElem?_cons_zero, Option.some.injEq] at hj
      subst hj
      have hc := (contains_iff m0 a).mp ha
      exact h.1 a (List.mem_range'_1.mpr ⟨hc.1, by omega⟩)
    | succ j =>
      simp only [List.getElem?_cons_succ] at hj
      have := ih (n + 1) h.2 j hj
      omega

theorem otherMols_mem (k : Int) (mols : List Molecule) (n : Nat) (m : Molecule)
    (h : m ∈ otherMols k n mols) :
    ∃ j, mols[j]? = some m ∧ ((n + j : Nat) : Int) ≠ k := by
  induction mols generalizing n with
  | nil => simp [otherMols] at h
  | cons m0 ms ih =>
    simp only [otherMols] at h
    by_cases hk : (n : Int) ≠ k
    · simp only [hk, if_true, ne_eq, not_false_eq_true, List.mem_cons] at h
      rcases h with rfl | h
      · exact ⟨0, by simp, by simpa using hk⟩
      · obtain ⟨j, hj, hne⟩ := ih (n + 1) h
        refine ⟨j + 1, by simpa using hj, ?_⟩
        have e : n + (j + 1) = n + 1 + j := by omega
        rw [e]
        exact hne
    · simp only [hk, if_false] at h
      obtain ⟨j, hj, hne⟩ := ih (n + 1) h
      refine ⟨j + 1, by simpa using hj, ?_⟩
      have e : n + (j + 1) = n + 1 + j := by omega
      rw [e]
      exact hne

theorem otherMols_past (k : Int) (mols : List Molecule) (n : Nat) (h : k < (n : Int)) :
    otherMols k n mols = mols := by
  induction mols generalizing n with
  | nil => rfl
  | cons m0 ms ih =>
    have hk : (n : Int) ≠ k := by omega
    simp only [otherMols, hk, if_true, ne_eq, not_false_eq_true]
    rw [ih (n + 1) (by push_cast; omega)]

theorem otherMols_count (c : Molecule → Bool) (k : Int) (mols : List Molecule) (n j0 : Nat)
    (mk : Molecule) (hj : mols[j0]? = some mk) (hk : ((n + j0 : Nat) : Int) = k) :
    (otherMols k n mols).countP c + (if c mk = true then 1 else 0) = mols.countP c := by
  induction mols generalizing n j0 with
  | nil => simp at hj
  | cons m0 ms ih =>
    cases j0 with
    | zero =>
      simp only [List.getElem?_cons_zero, Option.some.injEq] at hj
      subst hj
      have hn : ¬ ((n : Int) ≠ k) := by
        simp only [Nat.add_zero] at hk
        simp [hk]
      simp only [otherMols, hn, if_false]
      rw [otherMols_past k ms (n + 1) (by push_cast at hk ⊢; omega), List.countP_cons]
    | succ j =>
      simp only [List.getElem?_cons_succ] at hj
      have hn : (n : Int) ≠ k := by
        push_cast at hk
        omega
      simp only [otherMols, hn, if_true, ne_eq, not_false_eq_true, List.countP_cons]
      have := ih (n + 1) j hj (by push_cast at hk ⊢; omega)
      omega

theorem countP_filter_split {α : Type} (c p : α → Bool) (l : List α) :
    (l.filter (fun x => !p x)).countP c + (l.filter p).countP c = l.countP c := by
  induction l with
  | nil => rfl
  | cons x xs ih =>
    cases hp : p x <;> simp only [List.filter_cons, hp, Bool.not_false, Bool.not_true,
      if_true, Bool.false_eq_true, if_false, List.countP_cons] <;> omega

theorem rangeCount_flatRanges (ms : List Molecule) (a : Nat) :
    rangeCount (flatRanges ms) a = ms.countP (fun m => m.contains a) := by
  unfold rangeCount
  rw [pairsOf_flatRanges, List.countP_map]
  rfl

theorem count_range' (s n a : Nat) :
    (List.range' s n).count a = if s ≤ a ∧ a < s + n then 1 else 0 := by
  by_cases h : s ≤ a ∧ a < s + n
  · rw [if_pos h]
    exact List.count_eq_one_of_mem (List.nodup_range' s n) (List.mem_range'_1.mpr h)
  · rw [if_neg h]
    exact List.count_eq_zero_of_not_mem (fun hm => h (List.mem_range'_1.mp hm))

theorem anchorMolLoop_const (top : Topology) (k : Int) (rest : List Nat)
    (h : ∀ a ∈ rest, top.MolNum a = k) : anchorMolLoop top k rest = k := by
  induction rest with
  | nil => rfl
  | cons a as ih =>
    have ha : top.MolNum a = k := h a (List.mem_cons_self _ _)
    simp only [anchorMolLoop, ha, ne_eq, not_true_eq_false, if_false]
    exact ih (fun b hb => h b (List.mem_cons_of_mem _ hb))

theorem MolNum_of_contains (top : Topology) (hwf : top.WellFormed) (k : Nat) (m : Molecule)
    (hk : top.mols[k]? = some m) (a : Nat) (ha : m.contains a = true) :
    top.MolNum a = (k : Int) := by
  have := molNums_get top.atomMolNum top.mols 0 hwf.2 k m hk a ha
  unfold Topology.MolNum
  rw [this]
  simp

theorem setupAnchor_single (top : Topology) (hwf : top.WellFormed) (anchor : String)
    (mask : List Nat) (k' : Int) (h : setupAnchor anchor top = some (mask, k'))
    (k : Nat) (m : Molecule) (hk : top.mols[k]? = some m)
    (hall : ∀ a ∈ mask, m.contains a = true) :
    mask ≠ [] ∧ k' = (k : Int) := by
  unfold setupAnchor at h
  by_cases ha : anchor ≠ ""
  · simp only [ha, if_true, ne_eq, not_false_eq_true] at h
    cases hs : top.selectAtoms anchor with
    | none => simp [hs] at h
    | some sel =>
      cases sel with
      | nil => simp [hs] at h
      | cons a rest =>
        simp only [hs, Option.some.injEq, Prod.mk.injEq] at h
        obtain ⟨h1, h2⟩ := h
        subst h1
        refine ⟨List.cons_ne_nil _ _, ?_⟩
        rw [← h2, MolNum_of_contains top hwf k m hk a (hall a (List.mem_cons_self _ _))]
        exact anchorMolLoop_const top k rest (fun b hb =>
          MolNum_of_contains top hwf k m hk b (hall b (List.mem_cons_of_mem _ hb)))
  · simp only [ha, if_false] at h
    cases hm : top.mols with
    | nil => simp [hm] at hk
    | cons m0 ms =>
      simp only [hm, Option.some.injEq, Prod.mk.injEq] at h
      obtain ⟨h1, h2⟩ := h
      have ht := hwf.1
      rw [hm] at ht
      obtain ⟨t1, t2, t3⟩ := tiles_cons _ _ _ _ ht
      have hmem : m0.BeginAtom ∈ mask := by
        rw [← h1]
        exact List.mem_range'_1.mpr ⟨le_refl _, by omega⟩
      refine ⟨List.ne_nil_of_mem hmem, ?_⟩
      have h0 : top.mols[0]? = some m0 := by simp [hm]
      have hc0 : m0.contains m0.BeginAtom = true := (contains_iff _ _).mpr ⟨le_refl _, t2⟩
      have := tiles_index_unique top.mols 0 top.Natom hwf.1 k 0 m m0 hk h0 m0.BeginAtom
        (hall _ hmem) hc0
      rw [← h2, this]
      rfl

theorem inRanges_flatRanges (ms : List Molecule) (a : Nat) :
    inRanges (flatRanges ms) a ↔ ∃ m ∈ ms, m.contains a = true := by
  unfold inRanges
  rw [pairsOf_flatRanges]
  constructor
  · rintro ⟨p, hp, h1, h2⟩
    obtain ⟨m, hm, rfl⟩ := List.mem_map.mp hp
    exact ⟨m, hm, (contains_iff m a).mpr ⟨h1, h2⟩⟩
  · rintro ⟨m, hm, hc⟩
    have := (contains_iff m a).mp hc
    exact ⟨(m.BeginAtom, m.EndAtom), List.mem_map.mpr ⟨m, hm, rfl⟩, this.1, this.2⟩

theorem otherMols_excludes (top : Topology) (hwf : top.WellFormed) (k : Nat) (mk : Molecule)
    (hk : top.mols[k]? = some mk) (a : Nat) (ha : mk.contains a = true)
    (p : Molecule → Bool) :
    ¬ inRanges (flatRanges ((otherMols (k : Int) 0 top.mols).filter p)) a := by
  rw [inRanges_flatRanges]
  rintro ⟨m, hm, hc⟩
  obtain ⟨j, hj, hne⟩ := otherMols_mem _ _ _ _ (List.mem_filter.mp hm).1
  have := tiles_index_unique top.mols 0 top.Natom hwf.1 j k m mk hj hk a hc ha
  apply hne
  simp [this]

theorem auto_lists_no_common_range (top : Topology) (hwf : top.WellFormed) (k : Int)
    (p : Nat × Nat)
    (h1 : p ∈ pairsOf (flatRanges ((otherMols k 0 top.mols).filter (fun m => !isMobileMol m))))
    (h2 : p ∈ pairsOf (flatRanges ((otherMols k 0 top.mols).filter isMobileMol))) : False := by
  rw [pairsOf_flatRanges] at h1 h2
  obtain ⟨m, hm, e1⟩ := List.mem_map.mp h1
  obtain ⟨m', hm', e2⟩ := List.mem_map.mp h2
  obtain ⟨hmo, hmf⟩ := List.mem_filter.mp hm
  obtain ⟨hmo', hmf'⟩ := List.mem_filter.mp hm'
  obtain ⟨j, hj, _⟩ := otherMols_mem _ _ _ _ hmo
  obtain ⟨j', hj', _⟩ := otherMols_mem _ _ _ _ hmo'
  have hb := tiles_get_bounds top.mols 0 top.Natom hwf.1 j m hj
  have hb' := tiles_get_bounds top.mols 0 top.Natom hwf.1 j' m' hj'
  have e : (m.BeginAtom, m.EndAtom) = (m'.BeginAtom, m'.EndAtom) := e1.trans e2.symm
  simp only [Prod.mk.injEq] at e
  have hc : m.contains m.BeginAtom = true := (contains_iff _ _).mpr ⟨le_refl _, hb.2.1⟩
  have hc' : m'.contains m.BeginAtom = true :=
    (contains_iff _ _).mpr ⟨by omega, by omega⟩
  have hjj := tiles_index_unique top.mols 0 top.Natom hwf.1 j j' m m' hj hj' _ hc hc'
  subst hjj
  rw [hj] at hj'
  simp only [Option.some.injEq] at hj'
  subst hj'
  simp [hmf'] at hmf

theorem Setup_auto_excludes_anchor (self st : Action_AutoImage)
    (top : Topology) (boxType : BoxType) (hwf : top.WellFormed)
    (hf : self.fixed_ = "") (hm : self.mobile_ = "")
    (hok : self.Setup top boxType = (RetType.OK, st))
    (k : Nat) (m : Molecule) (hk : top.mols[k]? = some m)
    (hall : ∀ a ∈ st.anchorMask_, m.contains a = true)
    (a : Nat) (hc : m.contains a = true) :
    st.anchorMask_ ≠ [] ∧ ¬ inRanges st.fixedList_ a ∧ ¬ inRanges st.mobileList_ a := by
  obtain ⟨_, _, _, _, k', hanchor, hlists⟩ := Setup_ok_inv self st top boxType hok
  obtain ⟨hF, hM⟩ := hlists hf hm
  obtain ⟨hne, hk'⟩ := setupAnchor_single top hwf self.anchor_ st.anchorMask_ k' hanchor k m hk
    hall
  rw [hF, hM, hk']
  exact ⟨hne, otherMols_excludes top hwf k m hk a hc _, otherMols_excludes top hwf k m hk a hc _⟩

/-- C2 as stated fails: with the fixed mask `@2,7` (which touches the first
and the last molecule) and the default anchor, `Setup` succeeds, the range
`(6, 9)` is in both lists, and the fixed range `(0, 2)` is the anchor's own
molecule. -/
theorem Setup_lists_overlap_with_fixed_mask :
    exampleTop.WellFormed
      ∧ ({ Action_AutoImage.new with fixed_ := "@2,7" }.Setup exampleTop BoxType.ORTHO).1
        = RetType.OK
      ∧ (6, 9) ∈ pairsOf
          ({ Action_AutoImage.new with fixed_ := "@2,7" }.Setup exampleTop
            BoxType.ORTHO).2.fixedList_
      ∧ (6, 9) ∈ pairsOf
          ({ Action_AutoImage.new with fixed_ := "@2,7" }.Setup exampleTop
            BoxType.ORTHO).2.mobileList_
      ∧ (0, 2) ∈ pairsOf
          ({ Action_AutoImage.new with fixed_ := "@2,7" }.Setup exampleTop
            BoxType.ORTHO).2.fixedList_
      ∧ 0 ∈ ({ Action_AutoImage.new with fixed_ := "@2,7" }.Setup exampleTop
            BoxType.ORTHO).2.anchorMask_ := by
  refine ⟨⟨by decide, by decide⟩, ?_, ?_, ?_, ?_, ?_⟩ <;> decide

/-- C2, amended: for a well-formed topology, when neither a fixed nor a
mobile mask is given and `Setup` succeeds, no atom range occurs in both
`fixedList_` and `mobileList_`; and when all atoms of the anchor mask lie in
one molecule (the whole of it or a part), no range of either list contains an
atom of that molecule. -/
theorem Setup_auto_lists_disjoint_exclude_anchor (self st : Action_AutoImage)
    (top : Topology) (boxType : BoxType) (hwf : top.WellFormed)
    (hf : self.fixed_ = "") (hm : self.mobile_ = "")
    (hok : self.Setup top boxType = (RetType.OK, st)) :
    (∀ p ∈ pairsOf st.fixedList_, p ∉ pairsOf st.mobileList_)
      ∧ (∀ (k : Nat) (m : Molecule), top.mols[k]? = some m →
          (∀ a ∈ st.anchorMask_, m.BeginAtom ≤ a ∧ a < m.EndAtom) →
          ∀ a, m.BeginAtom ≤ a → a < m.EndAtom →
            ¬ inRanges st.fixedList_ a ∧ ¬ inRanges st.mobileList_ a) := by
  obtain ⟨_, _, _, _, k', hanchor, hlists⟩ := Setup_ok_inv self st top boxType hok
  obtain ⟨hF, hM⟩ := hlists hf hm
  constructor
  · intro p hp hp'
    rw [hF] at hp
    rw [hM] at hp'
    exact auto_lists_no_common_range top hwf k' p hp hp'
  · intro k m hk hall a h1 h2
    exact (Setup_auto_excludes_anchor self st top boxType hwf hf hm hok k m hk
      (fun b hb => (contains_iff m b).mpr (hall b hb)) a
      ((contains_iff m a).mpr ⟨h1, h2⟩)).2

/-- Witness for C2 (amended): the default configuration on `exampleTop`. -/
theorem Setup_auto_lists_disjoint_exclude_anchor_witness :
    exampleTop.WellFormed
      ∧ (Action_AutoImage.new.Setup exampleTop BoxType.ORTHO).2.fixedList_ = [2, 5]
      ∧ (Action_AutoImage.new.Setup exampleTop BoxType.ORTHO).2.mobileList_ = [5, 6, 6, 9]
      ∧ (∀ p ∈ pairsOf (Action_AutoImage.new.Setup exampleTop BoxType.ORTHO).2.fixedList_,
          p ∉ pairsOf (Action_AutoImage.new.Setup exampleTop BoxType.ORTHO).2.mobileList_) :=
  ⟨⟨by decide, by decide⟩, by decide, by decide,
   (Setup_auto_lists_disjoint_exclude_anchor Action_AutoImage.new
      (Action_AutoImage.new.Setup exampleTop BoxType.ORTHO).2 exampleTop BoxType.ORTHO
      ⟨by decide, by decide⟩ rfl rfl (by decide)).1⟩

/-- C1 as stated fails: with the anchor mask `@1`, which selects atom 0 only,
`Setup` succeeds on the well-formed `exampleTop`, and atom 1 (the other atom
of the anchor's molecule) is in no anchor, fixed or mobile set. -/
theorem Setup_partial_anchor_leaves_gap :
    exampleTop.WellFormed
      ∧ ({ Action_AutoImage.new with anchor_ := "@1" }.Setup exampleTop BoxType.ORTHO).1
        = RetType.OK
      ∧ 1 < exampleTop.Natom
      ∧ coverCount
          ({ Action_AutoImage.new with anchor_ := "@1" }.Setup exampleTop BoxType.ORTHO).2 1
        = 0 := by
  refine ⟨⟨by decide, by decide⟩, ?_, ?_, ?_⟩ <;> decide

/-- C1, amended: for a well-formed topology, when neither a fixed nor a
mobile mask is given and the anchor is the default first molecule or an
anchor mask that selects exactly the atoms of one molecule, after `Setup`
succeeds every atom of the topology is covered exactly once by the anchor
atoms, the fixed ranges and the mobile ranges together, and no other atom
index is covered at all. -/
theorem Setup_auto_partition (self st : Action_AutoImage) (top : Topology)
    (boxType : BoxType) (hwf : top.WellFormed)
    (hf : self.fixed_ = "") (hm : self.mobile_ = "")
    (hok : self.Setup top boxType = (RetType.OK, st))
    (hanchor : self.anchor_ = "" ∨
      ∃ m ∈ top.mols, st.anchorMask_ = List.range' m.BeginAtom (m.EndAtom - m.BeginAtom)) :
    ∀ a, coverCount st a = if a < top.Natom then 1 else 0 := by
  obtain ⟨hn, _, _, _, k', hsetup, hlists⟩ := Setup_ok_inv self st top boxType hok
  obtain ⟨hF, hM⟩ := hlists hf hm
  have hmol : ∃ m ∈ top.mols,
      st.anchorMask_ = List.range' m.BeginAtom (m.EndAtom - m.BeginAtom) := by
    rcases hanchor with he | h
    · cases hmols : top.mols with
      | nil => simp [Topology.Nmol, hmols] at hn
      | cons m0 ms =>
        refine ⟨m0, List.mem_cons_self _ _, ?_⟩
        simp only [setupAnchor, he, ne_eq, not_true_eq_false, if_false, hmols,
          Option.some.injEq, Prod.mk.injEq] at hsetup
        exact hsetup.1.symm
    · exact h
  obtain ⟨m, hmem, hmask⟩ := hmol
  obtain ⟨k, hk⟩ := List.mem_iff_getElem?.mp hmem
  have hb := tiles_get_bounds top.mols 0 top.Natom hwf.1 k m hk
  have hall : ∀ a ∈ st.anchorMask_, m.contains a = true := by
    intro b hb'
    rw [hmask] at hb'
    have := List.mem_range'_1.mp hb'
    exact (contains_iff m b).mpr ⟨this.1, by omega⟩
  obtain ⟨_, hk'⟩ := setupAnchor_single top hwf self.anchor_ st.anchorMask_ k' hsetup k m hk hall
  intro a
  have hcount := otherMols_count (fun m => m.contains a) (k : Int) top.mols 0 k m hk (by simp)
  have hsplit := countP_filter_split (fun m => m.contains a) isMobileMol
    (otherMols (k : Int) 0 top.mols)
  have htile := tiles_count a top.mols 0 top.Natom hwf.1
  have hanc : st.anchorMask_.count a = if m.contains a = true then 1 else 0 := by
    rw [hmask, count_range']
    by_cases hc : m.contains a = true
    · have := (contains_iff m a).mp hc
      rw [if_pos hc, if_pos ⟨this.1, by omega⟩]
    · rw [if_neg hc, if_neg]
      intro h
      exact hc ((contains_iff m a).mpr ⟨h.1, by omega⟩)
  unfold coverCount
  rw [hF, hM, hk', rangeCount_flatRanges, rangeCount_flatRanges, hanc]
  have h0 : (0 ≤ a ∧ a < top.Natom) ↔ a < top.Natom := by omega
  simp only [h0] at htile
  have hcount' : (otherMols (k : Int) 0 top.mols).countP (fun m => m.contains a)
      + (if m.contains a = true then 1 else 0)
      = top.mols.countP (fun m => m.contains a) := hcount
  rw [← htile, ← hcount', ← hsplit]
  ac_rfl

/-- Witness for C1 (amended): the default configuration on `exampleTop`
covers each of the nine atoms exactly once. -/
theorem Setup_auto_partition_witness :
    exampleTop.WellFormed
      ∧ (Action_AutoImage.new.Setup exampleTop BoxType.ORTHO).2.anchorMask_ = [0, 1]
      ∧ ∀ a, coverCount (Action_AutoImage.new.Setup exampleTop BoxType.ORTHO).2 a
          = if a < exampleTop.Natom then 1 else 0 :=
  ⟨⟨by decide, by decide⟩, by decide,
   Setup_auto_partition Action_AutoImage.new
      (Action_AutoImage.new.Setup exampleTop BoxType.ORTHO).2 exampleTop BoxType.ORTHO
      ⟨by decide, by decide⟩ rfl rfl (by decide) (Or.inl rfl)⟩

/-! ## The complete DoAction and the anchor -/

theorem pairList_induct {P : List Nat → Prop} (h0 : P []) (h1 : ∀ a, P [a])
    (h2 : ∀ a b rest, P rest → P (a :: b :: rest)) : ∀ l, P l
  | [] => h0
  | [a] => h1 a
  | a :: b :: rest => h2 a b rest (pairList_induct h0 h1 h2 rest)

theorem inRanges_cons_cons (a b : Nat) (rest : List Nat) (i : Nat) :
    inRanges (a :: b :: rest) i ↔ (a ≤ i ∧ i < b) ∨ inRanges rest i := by
  simp [inRanges, pairsOf]

theorem sameOutside_refl (list : List Nat) (frm : Frame) : SameOutside list frm frm :=
  ⟨rfl, rfl, rfl, fun _ _ => rfl⟩

theorem sameOutside_step (a b : Nat) (rest : List Nat) (frm frm' : Frame) (v : Vec3)
    (h : SameOutside rest (frm.TranslateR v a b) frm') :
    SameOutside (a :: b :: rest) frm frm' := by
  obtain ⟨h1, h2, h3, h4⟩ := h
  refine ⟨h1, h2, ?_, ?_⟩
  · rw [h3]
    exact length_translateFrom v a b frm.X 0
  · intro i hi
    rw [inRanges_cons_cons] at hi
    have hr : ¬ inRanges rest i := fun h' => hi (Or.inr h')
    have hab : ¬ (a ≤ i ∧ i < b) := fun h' => hi (Or.inl h')
    rw [h4 i hr]
    simp only [Frame.TranslateR, getD_translateFrom]
    rw [if_neg]
    intro hc
    exact hab ⟨by omega, by omega⟩

theorem fixedLoop_sameOutside (self : Action_AutoImage) (list : List Nat) :
    ∀ (frm : Frame) (anchorcenter : Vec3),
      SameOutside list frm (fixedLoop self list frm anchorcenter).1 := by
  induction list using pairList_induct with
  | h0 => intro frm ac; exact sameOutside_refl _ _
  | h1 a => intro frm ac; exact sameOutside_refl _ _
  | h2 a b rest ih =>
    intro frm ac
    simp only [fixedLoop]
    exact sameOutside_step a b rest frm _ _ (ih _ _)

theorem OrthoLoop_sameOutside (bm offset : Vec3) (center useMass : Bool) (list : List Nat) :
    ∀ frm : Frame, SameOutside list frm (Image.OrthoLoop bm offset center useMass list frm) := by
  induction list using pairList_induct with
  | h0 => intro frm; exact sameOutside_refl _ _
  | h1 a => intro frm; exact sameOutside_refl _ _
  | h2 a b rest ih =>
    intro frm
    simp only [Image.OrthoLoop]
    exact sameOutside_step a b rest frm _ _ (ih _)

theorem NonorthoLoop_sameOutside (origin : Bool) (fcom offset : Vec3)
    (ucell recip : Matrix_3x3) (truncoct center useMass : Bool) (list : List Nat) :
    ∀ frm : Frame, SameOutside list frm
      (Image.NonorthoLoop origin fcom offset ucell recip truncoct center useMass list frm) := by
  induction list using pairList_induct with
  | h0 => intro frm; exact sameOutside_refl _ _
  | h1 a => intro frm; exact sameOutside_refl _ _
  | h2 a b rest ih =>
    intro frm
    simp only [Image.NonorthoLoop]
    exact sameOutside_step a b rest frm _ _ (ih _)

theorem routines_local : Image.routines.Local :=
  ⟨fun frm _ bm offset center useMass list =>
      OrthoLoop_sameOutside bm offset center useMass list frm,
   fun frm origin fcom offset ucell recip truncoct center useMass list =>
      NonorthoLoop_sameOutside origin fcom offset ucell recip truncoct center useMass list frm⟩

theorem anchorCenterOf_sameOutside (self : Action_AutoImage) (list : List Nat)
    (frm frm' : Frame) (h : SameOutside list frm frm')
    (hout : ∀ a ∈ self.anchorMask_, ¬ inRanges list a) :
    anchorCenterOf self frm' = anchorCenterOf self frm := by
  obtain ⟨h1, _, _, h4⟩ := h
  rw [anchorCenterOf_eq, anchorCenterOf_eq]
  have hw : weightOf self.useMass_ frm' = weightOf self.useMass_ frm := by
    simp [weightOf, h1]
  rw [hw]
  exact centerOf_congr _ _ _ _ (fun a ha => h4 a (hout a ha))

theorem mobileImage_sameOutside (img : ImageRoutines) (himg : img.Local)
    (self : Action_AutoImage) (fcom : Vec3) (frm frm2 : Frame)
    (h : mobileImage img self fcom frm = some frm2) :
    SameOutside self.mobileList_ frm frm2 := by
  unfold mobileImage at h
  by_cases ho : self.ortho_ = true
  · simp only [ho, if_true] at h
    cases hs : img.SetupOrtho frm.BoxCrd self.origin_ with
    | none => simp [hs] at h
    | some r =>
      obtain ⟨bp, bm⟩ := r
      simp only [hs, Option.some.injEq] at h
      rw [← h]
      exact himg.1 _ _ _ _ _ _ _
  · simp only [ho, if_false, Option.some.injEq, Bool.false_eq_true] at h
    rw [← h]
    exact himg.2 _ _ _ _ _ _ _ _ _ _

theorem doAction_anchor_of_disjoint (img : ImageRoutines) (himg : img.Local)
    (self : Action_AutoImage) (frm : Frame)
    (hne : self.anchorMask_ ≠ [])
    (hin : ∀ a ∈ self.anchorMask_, a < frm.X.length)
    (hm : self.useMass_ = true →
      sumWeights (fun a => frm.Mass.getD a 0) self.anchorMask_ ≠ 0)
    (hfix : ∀ a ∈ self.anchorMask_, ¬ inRanges self.fixedList_ a)
    (hmob : ∀ a ∈ self.anchorMask_, ¬ inRanges self.mobileList_ a) :
    anchorCenterOf self (self.DoAction img frm).2 = anchorTarget self frm.BoxCrd := by
  have h1 := anchorCenterOf_anchorTranslate self frm hne hin hm
  simp only [Action_AutoImage.DoAction, doActionTrace]
  cases hmi : mobileImage img self (anchorShift self frm) (anchorTranslate self frm) with
  | none => exact h1
  | some frm2 =>
    simp only
    have s1 := mobileImage_sameOutside img himg self _ _ frm2 hmi
    have s2 := fixedLoop_sameOutside self self.fixedList_ frm2 (anchorTarget self frm.BoxCrd)
    rw [anchorCenterOf_sameOutside self _ _ _ s2 hfix,
      anchorCenterOf_sameOutside self _ _ _ s1 hmob]
    exact h1

/-- C4 as stated fails: the configuration with anchor mask `@1` and fixed mask
`@1` is accepted by `Setup` (anchor atom 0, fixed range `(0, 2)`, nothing
mobile); on `stretchedFrame9` the anchor atom sits at the target
`(15, 15, 15)` after the anchor translation, and the fixed-molecule search
then moves its molecule by one box length, so that after the complete
`DoAction` the anchor's centre is `(-15, 15, 15)`. -/
theorem doAction_moves_anchor_in_fixed_list :
    (anchorAlsoFixed.Setup exampleTop BoxType.ORTHO).1 = RetType.OK
      ∧ (anchorAlsoFixed.Setup exampleTop BoxType.ORTHO).2.anchorMask_ = [0]
      ∧ (anchorAlsoFixed.Setup exampleTop BoxType.ORTHO).2.fixedList_ = [0, 2]
      ∧ (anchorAlsoFixed.Setup exampleTop BoxType.ORTHO).2.mobileList_ = []
      ∧ anchorTarget (anchorAlsoFixed.Setup exampleTop BoxType.ORTHO).2 stretchedFrame9.BoxCrd
        = ⟨15, 15, 15⟩
      ∧ anchorCenterOf (anchorAlsoFixed.Setup exampleTop BoxType.ORTHO).2
          (anchorTranslate (anchorAlsoFixed.Setup exampleTop BoxType.ORTHO).2 stretchedFrame9)
        = ⟨15, 15, 15⟩
      ∧ anchorCenterOf (anchorAlsoFixed.Setup exampleTop BoxType.ORTHO).2
          ((anchorAlsoFixed.Setup exampleTop BoxType.ORTHO).2.DoAction Image.routines
            stretchedFrame9).2
        = ⟨-15, 15, 15⟩ := by
  refine ⟨?_, ?_, ?_, ?_, ?_, ?_, ?_⟩ <;> with_unfolding_all decide

/-- C4, amended: for a well-formed topology, a configuration without fixed
and mobile masks whose anchor atoms all lie in one molecule (the default
first molecule, or an anchor mask within one molecule), imaging routines that
move only the atoms of the ranges they are given, and a frame with the
topology's number of atoms: after `Setup` succeeds and the complete `DoAction`
(anchor translation, mobile imaging, fixed-molecule search) has run, the
centre of the anchor atoms is the target point.  With mass weighting the
anchor's total mass is not zero. -/
theorem doAction_anchor_centred (img : ImageRoutines) (self st : Action_AutoImage)
    (top : Topology) (boxType : BoxType) (frm : Frame)
    (hwf : top.WellFormed) (hf : self.fixed_ = "") (hm : self.mobile_ = "")
    (hok : self.Setup top boxType = (RetType.OK, st))
    (hone : ∃ (k : Nat) (m : Molecule), top.mols[k]? = some m
      ∧ ∀ a ∈ st.anchorMask_, m.BeginAtom ≤ a ∧ a < m.EndAtom)
    (himg : img.Local) (hlen : frm.X.length = top.Natom)
    (hmass : st.useMass_ = true →
      sumWeights (fun a => frm.Mass.getD a 0) st.anchorMask_ ≠ 0) :
    anchorCenterOf st (st.DoAction img frm).2 = anchorTarget st frm.BoxCrd := by
  obtain ⟨k, m, hk, hall⟩ := hone
  have hall' : ∀ a ∈ st.anchorMask_, m.contains a = true :=
    fun b hb => (contains_iff m b).mpr (hall b hb)
  have hb := tiles_get_bounds top.mols 0 top.Natom hwf.1 k m hk
  have hex := fun a (ha : a ∈ st.anchorMask_) =>
    Setup_auto_excludes_anchor self st top boxType hwf hf hm hok k m hk hall' a (hall' a ha)
  have hne : st.anchorMask_ ≠ [] := by
    have hc : m.contains m.BeginAtom = true := (contains_iff _ _).mpr ⟨le_refl _, hb.2.1⟩
    exact (Setup_auto_excludes_anchor self st top boxType hwf hf hm hok k m hk hall' _ hc).1
  refine doAction_anchor_of_disjoint img himg st frm hne ?_ hmass
    (fun a ha => (hex a ha).2.1) (fun a ha => (hex a ha).2.2)
  intro a ha
  have := hall a ha
  omega

/-- Witness for C4 (amended): the default configuration on `exampleTop` and
`exampleFrame9`, with the imaging routines of the specification: the anchor
(atoms 0 and 1) has its centroid at the cell centre `(15, 15, 15)` after the
complete `DoAction`. -/
theorem doAction_anchor_centred_witness :
    exampleTop.WellFormed
      ∧ exampleFrame9.X.length = exampleTop.Natom
      ∧ anchorCenterOf (Action_AutoImage.new.Setup exampleTop BoxType.ORTHO).2
          ((Action_AutoImage.new.Setup exampleTop BoxType.ORTHO).2.DoAction Image.routines
            exampleFrame9).2
        = ⟨15, 15, 15⟩ :=
  ⟨⟨by decide, by decide⟩, by decide,
   (doAction_anchor_centred Image.routines Action_AutoImage.new
      (Action_AutoImage.new.Setup exampleTop BoxType.ORTHO).2 exampleTop BoxType.ORTHO
      exampleFrame9 ⟨by decide, by decide⟩ rfl rfl (by decide)
      ⟨0, ⟨0, 2, false⟩, by decide, by decide⟩ routines_local (by decide)
      (fun h => absurd h (by decide))).trans (by with_unfolding_all decide)⟩

/-! ## The search loops end by their own exit test -/

theorem loopIdx_steps (dir max : Int) (n extra : Nat) (i : Int)
    (hi : INT_MIN ≤ i ∧ i ≤ INT_MAX)
    (hr : ∀ j : Nat, j < n →
      INT_MIN ≤ i + (j : Int) * dir ∧ i + (j : Int) * dir ≤ INT_MAX ∧ i + (j : Int) * dir ≠ max)
    (hend : wrapInt (i + (n : Int) * dir) = max) :
    loopIdx (n + extra) i max dir
      = (List.range n).map (fun (j : Nat) => i + (j : Int) * dir) := by
  induction n generalizing i with
  | zero =>
    have h0 : i = max := by
      rw [← hend]
      simp only [Nat.cast_zero, zero_mul, add_zero]
      exact (wrapInt_of_range i hi.1 hi.2).symm
    cases extra with
    | zero => simp [loopIdx]
    | succ e => simp [loopIdx, h0]
  | succ n ih =>
    have hne : i ≠ max := by
      have := (hr 0 (Nat.succ_pos n)).2.2
      simpa using this
    have e : n + 1 + extra = (n + extra) + 1 := by omega
    rw [e]
    simp only [loopIdx, if_neg hne]
    have hstep : ∀ j : Nat, i + dir + (j : Int) * dir = i + ((j + 1 : Nat) : Int) * dir := by
      intro j
      push_cast
      ring
    have hmap : (List.range n).map (fun (j : Nat) => wrapInt (i + dir) + (j : Int) * dir)
        = (List.range n).map (fun (j : Nat) => i + dir + (j : Int) * dir) := by
      cases n with
      | zero => rfl
      | succ m =>
        have h1 := hr 1 (by omega)
        have h2 : wrapInt (i + dir) = i + dir := by
          apply wrapInt_of_range
          · have := h1.1
            simpa using this
          · have := h1.2.1
            simpa using this
        rw [h2]
    have hr2 : ∀ j : Nat, j < n →
        INT_MIN ≤ wrapInt (i + dir) + (j : Int) * dir
        ∧ wrapInt (i + dir) + (j : Int) * dir ≤ INT_MAX
        ∧ wrapInt (i + dir) + (j : Int) * dir ≠ max := by
      intro j hj
      have h1 := hr 1 (by omega)
      have h2 : wrapInt (i + dir) = i + dir := by
        apply wrapInt_of_range
        · have := h1.1
          simpa using this
        · have := h1.2.1
          simpa using this
      rw [h2, hstep j]
      exact hr (j + 1) (by omega)
    have hend2 : wrapInt (wrapInt (i + dir) + (n : Int) * dir) = max := by
      cases n with
      | zero =>
        simp only [Nat.cast_zero, zero_mul, add_zero]
        rw [wrapInt_of_range _ (wrapInt_range _).1 (wrapInt_range _).2]
        rw [← hend]
        congr 1
        simp
      | succ m =>
        have h1 := hr 1 (by omega)
        have h2 : wrapInt (i + dir) = i + dir := by
          apply wrapInt_of_range
          · have := h1.1
            simpa using this
          · have := h1.2.1
            simpa using this
        rw [h2, hstep (m + 1)]
        exact hend
    rw [ih (wrapInt (i + dir)) (wrapInt_range _) hr2 hend2, hmap, List.range_succ_eq_map,
      List.map_cons, List.map_map]
    congr 1
    · simp
    · apply List.map_congr_left
      intro j _
      simp only [Function.comp, Nat.succ_eq_add_one]
      push_cast
      ring

theorem forIdx_Round_fuel (d : Dbl) (extra : Nat) :
    loopIdx ((Round d).1.natAbs + extra) 0 (Round d).1 (Round d).2
      = forIdx (Round d).1 (Round d).2
    ∧ forIdx (Round d).1 (Round d).2
      = (List.range (Round d).1.natAbs).map (fun (j : Nat) => (j : Int) * (Round d).2) := by
  have key : ∀ e, loopIdx ((Round d).1.natAbs + e) 0 (Round d).1 (Round d).2
      = (List.range (Round d).1.natAbs).map (fun (j : Nat) => (j : Int) * (Round d).2) := by
    intro e
    have hc := Round_cases d
    have h0 : INT_MIN ≤ (0 : Int) ∧ (0 : Int) ≤ INT_MAX := by decide
    have hr : ∀ j : Nat, j < (Round d).1.natAbs →
        INT_MIN ≤ 0 + (j : Int) * (Round d).2 ∧ 0 + (j : Int) * (Round d).2 ≤ INT_MAX
        ∧ 0 + (j : Int) * (Round d).2 ≠ (Round d).1 := by
      intro j hj
      simp only [INT_MIN, INT_MAX] at hc ⊢
      rcases hc with ⟨h2, h1⟩ | ⟨h2, h1⟩
      · rw [h2]
        omega
      · rw [h2]
        omega
    have hend : wrapInt (0 + ((Round d).1.natAbs : Int) * (Round d).2) = (Round d).1 := by
      unfold wrapInt
      simp only [INT_MIN, INT_MAX] at hc ⊢
      rcases hc with ⟨h2, h1⟩ | ⟨h2, h1⟩
      · rw [h2]
        omega
      · rw [h2]
        omega
    rw [loopIdx_steps (Round d).2 (Round d).1 (Round d).1.natAbs e 0 h0 hr hend]
    apply List.map_congr_left
    intro j _
    simp
  constructor
  · rw [key extra]
    have := key 0
    rw [Nat.add_zero] at this
    exact this.symm
  · have := key 0
    rw [Nat.add_zero] at this
    exact this

/-! ## Setup without any mask -/

theorem count_filter_split {α : Type} [DecidableEq α] (p : α → Bool) (l : List α) (x : α) :
    (l.filter (fun y => !p y)).count x + (l.filter p).count x = l.count x := by
  simp only [List.count]
  exact countP_filter_split _ p l

/-- C11: when no anchor, fixed or mobile mask is given, for a topology with
the molecules `m0 :: ms` and with box information, `Setup` succeeds, the
anchor is exactly the atom range of the first molecule `m0`, `mobileList_`
holds the ranges of the molecules of `ms` that are solvent or have exactly
one atom, `fixedList_` holds the ranges of all the others, both in topology
order, and every molecule of `ms` occurs exactly once across the two
lists. -/
theorem Setup_default_classification (self : Action_AutoImage) (top : Topology)
    (boxType : BoxType) (m0 : Molecule) (ms : List Molecule)
    (ha : self.anchor_ = "") (hf : self.fixed_ = "") (hm : self.mobile_ = "")
    (hmols : top.mols = m0 :: ms) (hbox : boxType ≠ BoxType.NOBOX) :
    (self.Setup top boxType).1 = RetType.OK
      ∧ (self.Setup top boxType).2.anchorMask_
        = List.range' m0.BeginAtom (m0.EndAtom - m0.BeginAtom)
      ∧ (self.Setup top boxType).2.fixedList_
        = (ms.filter (fun m => !(m.IsSolvent || decide (m.NumAtoms = 1)))).flatMap
            (fun m => [m.BeginAtom, m.EndAtom])
      ∧ (self.Setup top boxType).2.mobileList_
        = (ms.filter (fun m => m.IsSolvent || decide (m.NumAtoms = 1))).flatMap
            (fun m => [m.BeginAtom, m.EndAtom])
      ∧ pairsOf (self.Setup top boxType).2.fixedList_
        = (ms.filter (fun m => !(m.IsSolvent || decide (m.NumAtoms = 1)))).map
            (fun m => (m.BeginAtom, m.EndAtom))
      ∧ pairsOf (self.Setup top boxType).2.mobileList_
        = (ms.filter (fun m => m.IsSolvent || decide (m.NumAtoms = 1))).map
            (fun m => (m.BeginAtom, m.EndAtom))
      ∧ ∀ m, (ms.filter (fun m => !(m.IsSolvent || decide (m.NumAtoms = 1)))).count m
          + (ms.filter (fun m => m.IsSolvent || decide (m.NumAtoms = 1))).count m
          = ms.count m := by
  have hn : ¬ top.Nmol < 1 := by simp [Topology.Nmol, hmols]
  have hanchor : setupAnchor self.anchor_ top
      = some (List.range' m0.BeginAtom (m0.EndAtom - m0.BeginAtom), 0) := by
    simp [setupAnchor, ha, hmols]
  have hother : otherMols 0 0 top.mols = ms := by
    rw [hmols]
    simp only [otherMols, Nat.cast_zero, ne_eq, not_true_eq_false, if_false]
    exact otherMols_past 0 ms 1 (by norm_num)
  have hS : self.Setup top boxType
      = (RetType.OK,
          { self with
            ortho_ := decide (boxType = BoxType.ORTHO ∧ self.triclinic_ = TriclinicArg.OFF)
            triclinic_ :=
              if boxType = BoxType.TRUNCOCT ∧ self.triclinic_ ≠ TriclinicArg.FORCE
                  ∧ self.triclinic_ ≠ TriclinicArg.FAMILIAR then TriclinicArg.FAMILIAR
              else self.triclinic_
            anchorMask_ := List.range' m0.BeginAtom (m0.EndAtom - m0.BeginAtom)
            fixedList_ := flatRanges (ms.filter (fun m => !isMobileMol m))
            mobileList_ := flatRanges (ms.filter isMobileMol)
            truncoct_ := decide ((if boxType = BoxType.TRUNCOCT
                  ∧ self.triclinic_ ≠ TriclinicArg.FORCE
                  ∧ self.triclinic_ ≠ TriclinicArg.FAMILIAR then TriclinicArg.FAMILIAR
              else self.triclinic_) = TriclinicArg.FAMILIAR) }) := by
    unfold Action_AutoImage.Setup
    simp only [hn, hbox, if_false, hanchor, hf, hm, decide_True, Bool.or_self, if_true,
      ne_eq, not_true_eq_false, autoLoop_auto, hother]
  rw [hS]
  refine ⟨rfl, rfl, rfl, rfl, ?_, ?_, ?_⟩
  · exact pairsOf_flatRanges _
  · exact pairsOf_flatRanges _
  · intro m
    exact count_filter_split isMobileMol ms m

/-- Witness for C11: the default configuration on `exampleTop`: anchor atoms
0 and 1, the three-atom molecule fixed, the ion and the water mobile. -/
theorem Setup_default_classification_witness :
    (Action_AutoImage.new.Setup exampleTop BoxType.ORTHO).2.anchorMask_ = [0, 1]
      ∧ (Action_AutoImage.new.Setup exampleTop BoxType.ORTHO).2.fixedList_ = [2, 5]
      ∧ (Action_AutoImage.new.Setup exampleTop BoxType.ORTHO).2.mobileList_ = [5, 6, 6, 9]
      ∧ pairsOf (Action_AutoImage.new.Setup exampleTop BoxType.ORTHO).2.mobileList_
        = (([⟨2, 5, false⟩, ⟨5, 6, false⟩, ⟨6, 9, true⟩] : List Molecule).filter
            (fun m => m.IsSolvent || decide (m.NumAtoms = 1))).map
            (fun m => (m.BeginAtom, m.EndAtom)) :=
  ⟨by decide, by decide, by decide,
   (Setup_default_classification Action_AutoImage.new exampleTop BoxType.ORTHO ⟨0, 2, false⟩
      [⟨2, 5, false⟩, ⟨5, 6, false⟩, ⟨6, 9, true⟩] rfl rfl rfl rfl (by decide)).2.2.2.2.2.1⟩

/-! ## The frame effect of one fixed-molecule step -/

/-- C12: the fixed-molecule search step for the atom range
`[firstAtom, lastAtom)` adds one and the same vector, the winning translation
`minTrans`, to every atom of the frame inside the range and leaves every
other atom, the masses, the box and the number of atoms as they were. -/
theorem fixedStep_rigid_translation (self : Action_AutoImage) (frm : Frame)
    (anchorcenter : Vec3) (firstAtom lastAtom : Nat) :
    (∀ i, (fixedStep self frm anchorcenter firstAtom lastAtom).1.X.getD i Vec3.zero
        = if i < frm.X.length ∧ firstAtom ≤ i ∧ i < lastAtom then
            Vec3.add (frm.X.getD i Vec3.zero)
              (fixedSearch self frm anchorcenter firstAtom lastAtom).minTrans
          else frm.X.getD i Vec3.zero)
      ∧ (fixedStep self frm anchorcenter firstAtom lastAtom).1.X.length = frm.X.length
      ∧ (fixedStep self frm anchorcenter firstAtom lastAtom).1.Mass = frm.Mass
      ∧ (fixedStep self frm anchorcenter firstAtom lastAtom).1.BoxCrd = frm.BoxCrd := by
  refine ⟨?_, ?_, rfl, rfl⟩
  · intro i
    simp only [fixedStep, Frame.TranslateR, getD_translateFrom, Nat.zero_add]
  · simp only [fixedStep, Frame.TranslateR, length_translateFrom]

/-! ## Init and Setup: the path flags -/

theorem triclinic_cond_iff (t : TriclinicArg) :
    (t ≠ TriclinicArg.FORCE ∧ t ≠ TriclinicArg.FAMILIAR) ↔ t = TriclinicArg.OFF := by
  cases t <;> simp

theorem Setup_fields (self : Action_AutoImage) (top : Topology) (boxType : BoxType) :
    (self.Setup top boxType).2.anchor_ = self.anchor_
      ∧ (self.Setup top boxType).2.fixed_ = self.fixed_
      ∧ (self.Setup top boxType).2.mobile_ = self.mobile_
      ∧ (self.Setup top boxType).2.useMass_ = self.useMass_
      ∧ (self.Setup top boxType).2.usecom_ = self.usecom_
      ∧ (self.Setup top boxType).2.origin_ = self.origin_
      ∧ (self.Setup top boxType).2.triclinic_
        = (if 1 ≤ top.Nmol ∧ boxType = BoxType.TRUNCOCT ∧ self.triclinic_ = TriclinicArg.OFF
           then TriclinicArg.FAMILIAR else self.triclinic_) := by
  unfold Action_AutoImage.Setup
  by_cases h1 : top.Nmol < 1
  · have h1' : ¬ 1 ≤ top.Nmol := by omega
    simp [h1, h1']
  · have h1' : 1 ≤ top.Nmol := by omega
    by_cases h2 : boxType = BoxType.NOBOX
    · simp [h1, h2]
    · simp only [h1, h2, if_false, triclinic_cond_iff, h1', true_and]
      cases setupAnchor self.anchor_ top with
      | none => simp
      | some r => simp

theorem Setup_ok_iff (self : Action_AutoImage) (top : Topology) (boxType : BoxType) :
    (self.Setup top boxType).1 = RetType.OK
      ↔ 1 ≤ top.Nmol ∧ boxType ≠ BoxType.NOBOX
        ∧ (setupAnchor self.anchor_ top).isSome = true := by
  unfold Action_AutoImage.Setup
  by_cases h1 : top.Nmol < 1
  · have h1' : ¬ 1 ≤ top.Nmol := by omega
    simp [h1, h1']
  · have h1' : 1 ≤ top.Nmol := by omega
    by_cases h2 : boxType = BoxType.NOBOX
    · simp [h1, h2]
    · simp only [h1, h2, if_false, h1', true_and, ne_eq, not_false_eq_true]
      cases setupAnchor self.anchor_ top with
      | none => simp
      | some r => simp

theorem Setup_ok_flags (self : Action_AutoImage) (top : Topology) (boxType : BoxType)
    (hok : (self.Setup top boxType).1 = RetType.OK) :
    (self.Setup top boxType).2.ortho_
        = decide (boxType = BoxType.ORTHO ∧ self.triclinic_ = TriclinicArg.OFF)
      ∧ (self.Setup top boxType).2.truncoct_
        = decide ((if boxType = BoxType.TRUNCOCT ∧ self.triclinic_ = TriclinicArg.OFF
            then TriclinicArg.FAMILIAR else self.triclinic_) = TriclinicArg.FAMILIAR) := by
  unfold Action_AutoImage.Setup at hok ⊢
  by_cases h1 : top.Nmol < 1
  · simp [h1] at hok
  · by_cases h2 : boxType = BoxType.NOBOX
    · simp [h1, h2] at hok
    · simp only [h1, h2, if_false, triclinic_cond_iff] at hok ⊢
      cases hs : setupAnchor self.anchor_ top with
      | none => simp [hs] at hok
      | some r => simp

theorem Init_fields (self : Action_AutoImage) (args : ArgList) (debugIn : Int) :
    (self.Init args debugIn).2.triclinic_
        = (if args.triclinic then TriclinicArg.FORCE
           else if args.familiar then TriclinicArg.FAMILIAR else self.triclinic_)
      ∧ (self.Init args debugIn).2.useMass_ = self.useMass_
      ∧ (self.Init args debugIn).2.usecom_ = !args.firstatom
      ∧ (self.Init args debugIn).2.ortho_ = self.ortho_
      ∧ (self.Init args debugIn).2.truncoct_ = self.truncoct_ := by
  unfold Action_AutoImage.Init
  cases args.triclinic <;> cases args.familiar <;> simp <;> split <;> simp

theorem mobileImage_ortho (img : ImageRoutines) (st : Action_AutoImage) (fcom : Vec3)
    (frm : Frame) (h : st.ortho_ = true) :
    mobileImage img st fcom frm
      = (img.SetupOrtho frm.BoxCrd st.origin_).map (fun b =>
          img.Ortho frm b.1 b.2 Vec3.zero st.usecom_ st.useMass_ st.mobileList_) := by
  unfold mobileImage
  simp only [h, if_true]
  cases img.SetupOrtho frm.BoxCrd st.origin_ with
  | none => rfl
  | some b => rfl

/-- C13 as stated fails: the configuration with the `familiar` keyword does
not contain `triclinic`, and yet on a topology with an orthogonal box `Setup`
leaves `ortho_` false and turns the truncated-octahedron handling on. -/
theorem Setup_ortho_box_familiar_keyword :
    familiarOnly.triclinic = false
      ∧ ((Action_AutoImage.new.Init familiarOnly 0).2.Setup exampleTop BoxType.ORTHO).1
        = RetType.OK
      ∧ ((Action_AutoImage.new.Init familiarOnly 0).2.Setup exampleTop BoxType.ORTHO).2.ortho_
        = false
      ∧ ((Action_AutoImage.new.Init familiarOnly 0).2.Setup exampleTop
          BoxType.ORTHO).2.truncoct_ = true := by
  refine ⟨?_, ?_, ?_, ?_⟩ <;> decide

theorem Setup_ortho_of_mol (self : Action_AutoImage) (top : Topology) (boxType : BoxType)
    (hn : 1 ≤ top.Nmol) (hb : boxType ≠ BoxType.NOBOX) :
    (self.Setup top boxType).2.ortho_
      = decide (boxType = BoxType.ORTHO ∧ self.triclinic_ = TriclinicArg.OFF) := by
  unfold Action_AutoImage.Setup
  have h1 : ¬ top.Nmol < 1 := by omega
  simp only [h1, hb, if_false]
  cases setupAnchor self.anchor_ top with
  | none => rfl
  | some r => rfl

theorem SetupAll_triclinic (earlier : List (Topology × BoxType)) (self : Action_AutoImage)
    (h0 : self.triclinic_ = TriclinicArg.OFF)
    (he : ∀ p ∈ earlier, ¬ (1 ≤ p.1.Nmol ∧ p.2 = BoxType.TRUNCOCT)) :
    (self.SetupAll earlier).triclinic_ = TriclinicArg.OFF := by
  induction earlier generalizing self with
  | nil => exact h0
  | cons p rest ih =>
    unfold Action_AutoImage.SetupAll
    apply ih
    · rw [(Setup_fields self p.1 p.2).2.2.2.2.2.2]
      have hp := he p (List.mem_cons_self _ _)
      have hc : ¬ (1 ≤ p.1.Nmol ∧ p.2 = BoxType.TRUNCOCT
          ∧ self.triclinic_ = TriclinicArg.OFF) := fun h => hp ⟨h.1, h.2.1⟩
      rw [if_neg hc]
      exact h0
    · intro q hq
      exact he q (List.mem_cons_of_mem _ hq)

theorem Setup_ortho_path (img : ImageRoutines) (args : ArgList)
    (debugIn : Int) (earlier : List (Topology × BoxType)) (top : Topology)
    (hf : args.familiar = false) (ht : args.triclinic = false)
    (he : ∀ p ∈ earlier, ¬ (1 ≤ p.1.Nmol ∧ p.2 = BoxType.TRUNCOCT))
    (hn : 1 ≤ top.Nmol) :
    ((((Action_AutoImage.new.Init args debugIn).2.SetupAll earlier).Setup top
        BoxType.ORTHO).2.ortho_ = true)
      ∧ (∀ box ix iy iz,
          candTrans
            (((Action_AutoImage.new.Init args debugIn).2.SetupAll earlier).Setup top
              BoxType.ORTHO).2.ortho_
            box ix iy iz = ⟨box.BoxX * ix, box.BoxY * iy, box.BoxZ * iz⟩)
      ∧ (∀ frm anchorcenter firstAtom lastAtom,
          searchDxyz
            (((Action_AutoImage.new.Init args debugIn).2.SetupAll earlier).Setup top
              BoxType.ORTHO).2
            frm anchorcenter firstAtom lastAtom
          = Vec3.div
              (Vec3.sub anchorcenter
                (molCenter
                  (((Action_AutoImage.new.Init args debugIn).2.SetupAll earlier).Setup top
                    BoxType.ORTHO).2.useMass_ frm firstAtom lastAtom))
              frm.BoxCrd.Lengths)
      ∧ (∀ fcom frm,
          mobileImage img
            (((Action_AutoImage.new.Init args debugIn).2.SetupAll earlier).Setup top
              BoxType.ORTHO).2 fcom frm
          = (img.SetupOrtho frm.BoxCrd
              (((Action_AutoImage.new.Init args debugIn).2.SetupAll earlier).Setup top
                BoxType.ORTHO).2.origin_).map (fun b =>
              img.Ortho frm b.1 b.2 Vec3.zero
                (((Action_AutoImage.new.Init args debugIn).2.SetupAll earlier).Setup top
                  BoxType.ORTHO).2.usecom_
                (((Action_AutoImage.new.Init args debugIn).2.SetupAll earlier).Setup top
                  BoxType.ORTHO).2.useMass_
                (((Action_AutoImage.new.Init args debugIn).2.SetupAll earlier).Setup top
                  BoxType.ORTHO).2.mobileList_))
      ∧ (∀ self : Action_AutoImage,
          (self.Setup top BoxType.ORTHO).2.ortho_ = true
            ↔ self.triclinic_ = TriclinicArg.OFF) := by
  have htri : (Action_AutoImage.new.Init args debugIn).2.triclinic_ = TriclinicArg.OFF := by
    rw [(Init_fields _ _ _).1, ht, hf]
    rfl
  have ho : (((Action_AutoImage.new.Init args debugIn).2.SetupAll earlier).Setup top
      BoxType.ORTHO).2.ortho_ = true := by
    rw [Setup_ortho_of_mol _ _ _ hn (by decide), SetupAll_triclinic earlier _ htri he]
    rfl
  refine ⟨ho, ?_, ?_, ?_, ?_⟩
  · intro box ix iy iz
    rw [ho]
    rfl
  · intro frm ac f l
    unfold searchDxyz
    rw [ho]
    rfl
  · intro fcom frm
    exact mobileImage_ortho img _ fcom frm ho
  · intro self
    rw [Setup_ortho_of_mol _ _ _ hn (by decide), decide_eq_true_eq]
    exact ⟨fun h => h.2, fun h => ⟨rfl, h⟩⟩

/-- The proviso on the earlier calls of `Setup` is needed: with the anchor
mask `@99`, which selects no atom of `exampleTop`, `Setup` for a
truncated-octahedron box ends in an error after it has set `triclinic_`; the
next `Setup`, for a topology on which the mask selects an atom and an
orthogonal box, succeeds and leaves `ortho_` false. -/
theorem Setup_ortho_after_failed_truncoct :
    noKeywords.familiar = false ∧ noKeywords.triclinic = false
      ∧ ((Action_AutoImage.new.Init { noKeywords with anchor := "@99" } 0).2.Setup exampleTop
          BoxType.TRUNCOCT).1 = RetType.ERR
      ∧ (((Action_AutoImage.new.Init { noKeywords with anchor := "@99" } 0).2.Setup exampleTop
          BoxType.TRUNCOCT).2.Setup { exampleTop with selectAtoms := fun _ => some [0] }
            BoxType.ORTHO).1 = RetType.OK
      ∧ (((Action_AutoImage.new.Init { noKeywords with anchor := "@99" } 0).2.Setup exampleTop
          BoxType.TRUNCOCT).2.Setup { exampleTop with selectAtoms := fun _ => some [0] }
            BoxType.ORTHO).2.ortho_ = false := by
  refine ⟨rfl, rfl, ?_, ?_, ?_⟩ <;> decide

/-- C13, amended: for every topology with molecule information whose box type
is orthogonal and every configuration that contains neither the `triclinic`
nor the `familiar` keyword, `Setup` selects the axis-aligned orthogonal path
provided that none of the earlier calls of `Setup` on this action was for a
topology with molecule information and a truncated-octahedron box (such a
call, also one that ends in an error, leaves `triclinic_` at `FAMILIAR`):
`ortho_` is true, so the fixed-molecule search divides by the box lengths and
translates by multiples of them, and the mobile imaging goes through
`SetupOrtho` and `Ortho`.  In general `Setup` on an orthogonal box sets
`ortho_` exactly when `triclinic_` is `OFF` on entry. -/
theorem Setup_ortho_path_no_truncoct_before (img : ImageRoutines) (args : ArgList)
    (debugIn : Int) (earlier : List (Topology × BoxType)) (top : Topology)
    (hf : args.familiar = false) (ht : args.triclinic = false)
    (he : ∀ p ∈ earlier, ¬ (1 ≤ p.1.Nmol ∧ p.2 = BoxType.TRUNCOCT))
    (hn : 1 ≤ top.Nmol) :
    ((((Action_AutoImage.new.Init args debugIn).2.SetupAll earlier).Setup top
        BoxType.ORTHO).2.ortho_ = true)
      ∧ (∀ box ix iy iz,
          candTrans
            (((Action_AutoImage.new.Init args debugIn).2.SetupAll earlier).Setup top
              BoxType.ORTHO).2.ortho_
            box ix iy iz = ⟨box.BoxX * ix, box.BoxY * iy, box.BoxZ * iz⟩)
      ∧ (∀ frm anchorcenter firstAtom lastAtom,
          searchDxyz
            (((Action_AutoImage.new.Init args debugIn).2.SetupAll earlier).Setup top
              BoxType.ORTHO).2
            frm anchorcenter firstAtom lastAtom
          = Vec3.div
              (Vec3.sub anchorcenter
                (molCenter
                  (((Action_AutoImage.new.Init args debugIn).2.SetupAll earlier).Setup top
                    BoxType.ORTHO).2.useMass_ frm firstAtom lastAtom))
              frm.BoxCrd.Lengths)
      ∧ (∀ fcom frm,
          mobileImage img
            (((Action_AutoImage.new.Init args debugIn).2.SetupAll earlier).Setup top
              BoxType.ORTHO).2 fcom frm
          = (img.SetupOrtho frm.BoxCrd
              (((Action_AutoImage.new.Init args debugIn).2.SetupAll earlier).Setup top
                BoxType.ORTHO).2.origin_).map (fun b =>
              img.Ortho frm b.1 b.2 Vec3.zero
                (((Action_AutoImage.new.Init args debugIn).2.SetupAll earlier).Setup top
                  BoxType.ORTHO).2.usecom_
                (((Action_AutoImage.new.Init args debugIn).2.SetupAll earlier).Setup top
                  BoxType.ORTHO).2.useMass_
                (((Action_AutoImage.new.Init args debugIn).2.SetupAll earlier).Setup top
                  BoxType.ORTHO).2.mobileList_))
      ∧ (∀ self : Action_AutoImage,
          (self.Setup top BoxType.ORTHO).2.ortho_ = true
            ↔ self.triclinic_ = TriclinicArg.OFF) :=
  Setup_ortho_path img args debugIn earlier top hf ht he hn

/-- Witness for C13 (amended): no keywords, an earlier `Setup` of `exampleTop`
with a general triclinic box, then `exampleTop` with an orthogonal box. -/
theorem Setup_ortho_path_no_truncoct_before_witness :
    noKeywords.familiar = false ∧ noKeywords.triclinic = false
      ∧ (∀ p ∈ [(exampleTop, BoxType.NONORTHO)], ¬ (1 ≤ p.1.Nmol ∧ p.2 = BoxType.TRUNCOCT))
      ∧ 1 ≤ exampleTop.Nmol
      ∧ (((Action_AutoImage.new.Init noKeywords 0).2.SetupAll
            [(exampleTop, BoxType.NONORTHO)]).Setup exampleTop BoxType.ORTHO).2.ortho_
        = true :=
  ⟨rfl, rfl, by decide, by decide,
   (Setup_ortho_path_no_truncoct_before Image.routines noKeywords 0
      [(exampleTop, BoxType.NONORTHO)] exampleTop rfl rfl (by decide) (by decide)).1⟩

/-- C14: after `Init` on a new action and `Setup`: with the `triclinic`
keyword, for every box type and also when `familiar` is given as well,
`ortho_` and `truncoct_` are both false (the general cell-matrix path without
truncated-octahedron handling); with neither keyword and a truncated
octahedron box, a successful `Setup` leaves `ortho_` false and `truncoct_`
true. -/
theorem Init_Setup_triclinic_modes (args : ArgList) (debugIn : Int) (top : Topology)
    (boxType : BoxType) :
    (args.triclinic = true →
        ((Action_AutoImage.new.Init args debugIn).2.Setup top boxType).2.ortho_ = false
        ∧ ((Action_AutoImage.new.Init args debugIn).2.Setup top boxType).2.truncoct_ = false)
      ∧ (args.triclinic = false → args.familiar = false → boxType = BoxType.TRUNCOCT →
          ((Action_AutoImage.new.Init args debugIn).2.Setup top boxType).1 = RetType.OK →
          ((Action_AutoImage.new.Init args debugIn).2.Setup top boxType).2.ortho_ = false
          ∧ ((Action_AutoImage.new.Init args debugIn).2.Setup top boxType).2.truncoct_
            = true) := by
  constructor
  · intro ht
    have htri : (Action_AutoImage.new.Init args debugIn).2.triclinic_ = TriclinicArg.FORCE := by
      rw [(Init_fields _ _ _).1, ht]
      rfl
    have hi := Init_fields Action_AutoImage.new args debugIn
    unfold Action_AutoImage.Setup
    by_cases h1 : top.Nmol < 1
    · simp only [h1, if_true]
      exact ⟨hi.2.2.2.1, hi.2.2.2.2⟩
    · by_cases h2 : boxType = BoxType.NOBOX
      · simp only [h1, h2, if_true, if_false]
        exact ⟨hi.2.2.2.1, hi.2.2.2.2⟩
      · simp only [h1, h2, if_false, htri]
        cases setupAnchor (Action_AutoImage.new.Init args debugIn).2.anchor_ top with
        | none => simpa using hi.2.2.2.2
        | some r => simp
  · intro ht hf hb hok
    have htri : (Action_AutoImage.new.Init args debugIn).2.triclinic_ = TriclinicArg.OFF := by
      rw [(Init_fields _ _ _).1, ht, hf]
      rfl
    obtain ⟨h1, h2⟩ := Setup_ok_flags _ _ _ hok
    rw [h1, h2, htri, hb]
    exact ⟨by decide, by decide⟩

/-- Witness for C14: `triclinic` together with `familiar` on an orthogonal
box, and no keyword on a truncated octahedron. -/
theorem Init_Setup_triclinic_modes_witness :
    ((Action_AutoImage.new.Init { familiarOnly with triclinic := true } 0).2.Setup exampleTop
        BoxType.ORTHO).2.ortho_ = false
      ∧ ((Action_AutoImage.new.Init { familiarOnly with triclinic := true } 0).2.Setup
          exampleTop BoxType.ORTHO).2.truncoct_ = false
      ∧ ((Action_AutoImage.new.Init noKeywords 0).2.Setup exampleTop BoxType.TRUNCOCT).2.ortho_
        = false
      ∧ ((Action_AutoImage.new.Init noKeywords 0).2.Setup exampleTop
          BoxType.TRUNCOCT).2.truncoct_ = true :=
  ⟨((Init_Setup_triclinic_modes { familiarOnly with triclinic := true } 0 exampleTop
      BoxType.ORTHO).1 rfl).1,
   ((Init_Setup_triclinic_modes { familiarOnly with triclinic := true } 0 exampleTop
      BoxType.ORTHO).1 rfl).2,
   ((Init_Setup_triclinic_modes noKeywords 0 exampleTop BoxType.TRUNCOCT).2 rfl rfl rfl
      (by decide)).1,
   ((Init_Setup_triclinic_modes noKeywords 0 exampleTop BoxType.TRUNCOCT).2 rfl rfl rfl
      (by decide)).2⟩

/-! ## Setup and the configured triclinic mode -/

/-- C20 as stated fails: on a freshly initialised action without keywords,
`Setup` for a truncated-octahedron topology changes `triclinic_` from `OFF`
to `FAMILIAR`; a following `Setup` for an orthogonal topology then computes
`ortho_ = false` and `truncoct_ = true`, whereas on the freshly initialised
action it computes `ortho_ = true` and `truncoct_ = false`. -/
theorem Setup_changes_triclinic_mode :
    (Action_AutoImage.new.Init noKeywords 0).2.triclinic_ = TriclinicArg.OFF
      ∧ ((Action_AutoImage.new.Init noKeywords 0).2.Setup exampleTop
          BoxType.TRUNCOCT).2.triclinic_ = TriclinicArg.FAMILIAR
      ∧ ((Action_AutoImage.new.Init noKeywords 0).2.Setup exampleTop BoxType.ORTHO).2.ortho_
        = true
      ∧ ((Action_AutoImage.new.Init noKeywords 0).2.Setup exampleTop BoxType.ORTHO).2.truncoct_
        = false
      ∧ (((Action_AutoImage.new.Init noKeywords 0).2.Setup exampleTop
          BoxType.TRUNCOCT).2.Setup exampleTop BoxType.ORTHO).1 = RetType.OK
      ∧ (((Action_AutoImage.new.Init noKeywords 0).2.Setup exampleTop
          BoxType.TRUNCOCT).2.Setup exampleTop BoxType.ORTHO).2.ortho_ = false
      ∧ (((Action_AutoImage.new.Init noKeywords 0).2.Setup exampleTop
          BoxType.TRUNCOCT).2.Setup exampleTop BoxType.ORTHO).2.truncoct_ = true := by
  refine ⟨?_, ?_, ?_, ?_, ?_, ?_, ?_⟩ <;> decide

/-- C20, amended: `Setup` leaves `triclinic_` unchanged except in one case: for
a topology with molecules and a truncated-octahedron box while `triclinic_`
is `OFF` it sets `triclinic_` to `FAMILIAR`, and the new value stays.  So
when the first topology's box is not a truncated octahedron, or a `familiar`
or `triclinic` keyword was given (`triclinic_` is not `OFF`), a successful
`Setup` for a second topology after `Setup` on the first one yields the same
`ortho_`, `truncoct_` and `triclinic_` as `Setup` for the second topology on
the action as it was before. -/
theorem Setup_flags_after_other_topology (self : Action_AutoImage)
    (top1 top2 : Topology) (boxType1 boxType2 : BoxType)
    (h1 : boxType1 ≠ BoxType.TRUNCOCT ∨ self.triclinic_ ≠ TriclinicArg.OFF)
    (h2 : (self.Setup top2 boxType2).1 = RetType.OK) :
    (self.Setup top1 boxType1).2.triclinic_ = self.triclinic_
      ∧ ((self.Setup top1 boxType1).2.Setup top2 boxType2).1 = RetType.OK
      ∧ ((self.Setup top1 boxType1).2.Setup top2 boxType2).2.ortho_
        = (self.Setup top2 boxType2).2.ortho_
      ∧ ((self.Setup top1 boxType1).2.Setup top2 boxType2).2.truncoct_
        = (self.Setup top2 boxType2).2.truncoct_
      ∧ ((self.Setup top1 boxType1).2.Setup top2 boxType2).2.triclinic_
        = (self.Setup top2 boxType2).2.triclinic_
      ∧ (∀ (s : Action_AutoImage) (top : Topology) (boxType : BoxType),
          (s.Setup top boxType).2.triclinic_
            = (if 1 ≤ top.Nmol ∧ boxType = BoxType.TRUNCOCT ∧ s.triclinic_ = TriclinicArg.OFF
               then TriclinicArg.FAMILIAR else s.triclinic_)) := by
  have hf1 := Setup_fields self top1 boxType1
  have htri : (self.Setup top1 boxType1).2.triclinic_ = self.triclinic_ := by
    rw [hf1.2.2.2.2.2.2]
    rcases h1 with h | h
    · simp [h]
    · simp [h]
  have hok : ((self.Setup top1 boxType1).2.Setup top2 boxType2).1 = RetType.OK := by
    rw [Setup_ok_iff] at h2 ⊢
    rw [hf1.1]
    exact h2
  obtain ⟨a1, a2⟩ := Setup_ok_flags _ _ _ hok
  obtain ⟨b1, b2⟩ := Setup_ok_flags _ _ _ h2
  refine ⟨htri, hok, ?_, ?_, ?_, fun s top boxType => (Setup_fields s top boxType).2.2.2.2.2.2⟩
  · rw [a1, b1, htri]
  · rw [a2, b2, htri]
  · rw [(Setup_fields _ top2 boxType2).2.2.2.2.2.2, (Setup_fields self top2 boxType2).2.2.2.2.2.2,
      htri]

/-- Witness for C20 (amended): the `familiar` keyword given, `Setup` on a
truncated-octahedron topology and then on an orthogonal one. -/
theorem Setup_flags_after_other_topology_witness :
    (Action_AutoImage.new.Init familiarOnly 0).2.triclinic_ ≠ TriclinicArg.OFF
      ∧ (((Action_AutoImage.new.Init familiarOnly 0).2.Setup exampleTop
          BoxType.TRUNCOCT).2.Setup exampleTop BoxType.ORTHO).2.truncoct_
        = ((Action_AutoImage.new.Init familiarOnly 0).2.Setup exampleTop
            BoxType.ORTHO).2.truncoct_ :=
  ⟨by decide,
   (Setup_flags_after_other_topology (Action_AutoImage.new.Init familiarOnly 0).2 exampleTop
      exampleTop BoxType.TRUNCOCT BoxType.ORTHO (Or.inr (by decide)) (by decide)).2.2.2.1⟩

/-! ## Which centre DoAction uses -/

set_option maxRecDepth 4096 in
/-- C15 as stated fails: in the default configuration (`firstatom` not given)
`useMass_` is false after `Init` and `Setup`, and the anchor centre that
`DoAction` computes on `massFrame9` is the unweighted centroid `(40, 15, 15)`,
not the mass-weighted centroid `(509/13, 15, 15)`; and no argument list at
all leads to `useMass_ = true`. -/
theorem default_configuration_uses_unweighted_centre :
    noKeywords.firstatom = false
      ∧ ((Action_AutoImage.new.Init noKeywords 0).2.Setup exampleTop BoxType.ORTHO).1
        = RetType.OK
      ∧ ((Action_AutoImage.new.Init noKeywords 0).2.Setup exampleTop BoxType.ORTHO).2.useMass_
        = false
      ∧ anchorCenterOf
          ((Action_AutoImage.new.Init noKeywords 0).2.Setup exampleTop BoxType.ORTHO).2
          massFrame9 = ⟨40, 15, 15⟩
      ∧ massFrame9.VCenterOfMass
          ((Action_AutoImage.new.Init noKeywords 0).2.Setup exampleTop
            BoxType.ORTHO).2.anchorMask_ = ⟨509/13, 15, 15⟩
      ∧ ¬ ∃ (args : ArgList) (debugIn : Int) (top : Topology) (boxType : BoxType),
          ((Action_AutoImage.new.Init args debugIn).2.Setup top boxType).2.useMass_ = true := by
  have hmask : ((Action_AutoImage.new.Init noKeywords 0).2.Setup exampleTop
      BoxType.ORTHO).2.anchorMask_ = [0, 1] := by decide
  have hmass : ((Action_AutoImage.new.Init noKeywords 0).2.Setup exampleTop
      BoxType.ORTHO).2.useMass_ = false := by
    rw [(Setup_fields _ _ _).2.2.2.1, (Init_fields _ _ _).2.1]
    rfl
  refine ⟨rfl, ?_, hmass, ?_, ?_, ?_⟩
  · decide
  · unfold anchorCenterOf
    rw [hmass, hmask]
    with_unfolding_all decide
  · rw [hmask]
    with_unfolding_all decide
  rintro ⟨args, debugIn, top, boxType, h⟩
  rw [(Setup_fields _ top boxType).2.2.2.1, (Init_fields _ args debugIn).2.1] at h
  exact absurd h (by decide)

/-- C15, amended: the centre of the anchor and of each fixed molecule that
`DoAction` uses is the mass-weighted centroid when `useMass_` is set and the
unweighted geometric centroid otherwise; `useMass_` is false from
construction and neither `Init` nor `Setup` changes it, so under every
configuration `DoAction` uses the unweighted geometric centroid, and the
`firstatom` keyword only clears `usecom_`. -/
theorem doAction_centres_unweighted (args : ArgList) (debugIn : Int) (top : Topology)
    (boxType : BoxType) (frm : Frame) (firstAtom lastAtom : Nat) :
    ((Action_AutoImage.new.Init args debugIn).2.Setup top boxType).2.useMass_ = false
      ∧ ((Action_AutoImage.new.Init args debugIn).2.Setup top boxType).2.usecom_
        = !args.firstatom
      ∧ anchorCenterOf ((Action_AutoImage.new.Init args debugIn).2.Setup top boxType).2 frm
        = frm.VGeometricCenter
            ((Action_AutoImage.new.Init args debugIn).2.Setup top boxType).2.anchorMask_
      ∧ molCenter ((Action_AutoImage.new.Init args debugIn).2.Setup top boxType).2.useMass_
          frm firstAtom lastAtom = frm.VGeometricCenterR firstAtom lastAtom
      ∧ (∀ self : Action_AutoImage,
          anchorCenterOf self frm
            = (if self.useMass_ then frm.VCenterOfMass self.anchorMask_
               else frm.VGeometricCenter self.anchorMask_)
          ∧ molCenter self.useMass_ frm firstAtom lastAtom
            = (if self.useMass_ then frm.VCenterOfMassR firstAtom lastAtom
               else frm.VGeometricCenterR firstAtom lastAtom)) := by
  have hm : ((Action_AutoImage.new.Init args debugIn).2.Setup top boxType).2.useMass_
      = false := by
    rw [(Setup_fields _ top boxType).2.2.2.1, (Init_fields _ args debugIn).2.1]
    rfl
  have hc : ((Action_AutoImage.new.Init args debugIn).2.Setup top boxType).2.usecom_
      = !args.firstatom := by
    rw [(Setup_fields _ top boxType).2.2.2.2.1, (Init_fields _ args debugIn).2.2.1]
  refine ⟨hm, hc, ?_, ?_, fun self => ⟨rfl, rfl⟩⟩
  · unfold anchorCenterOf
    rw [hm]
    rfl
  · unfold molCenter
    rw [hm]
    rfl

/-! ## The per-axis search range -/

theorem mem_forIdx_Round (d : ℚ) (i : Int) :
    i ∈ forIdx (Round (Dbl.fin d)).1 (Round (Dbl.fin d)).2
      ↔ (if d < 0 then Int.floor d ≤ i ∧ -INT_MAX ≤ i ∧ i ≤ 0
         else 0 ≤ i ∧ i ≤ Int.ceil d ∧ i ≤ INT_MAX) := by
  rw [(forIdx_Round_fuel (Dbl.fin d) 0).2, List.mem_map, Round_fin]
  by_cases h : d < 0
  · rw [if_pos h, if_pos h]
    show (∃ j : Nat, j ∈ List.range (toInt (Int.floor d - 1)).natAbs ∧ (j : Int) * (-1) = i) ↔ _
    simp only [List.mem_range]
    have hf : Int.floor d < 0 := Int.floor_lt.mpr (by exact_mod_cast h)
    rcases toInt_cases (Int.floor d - 1) with ⟨h1, h2, h3⟩ | ⟨h1, h3⟩
    · rw [h3]
      simp only [INT_MIN, INT_MAX] at h1 h2 ⊢
      constructor
      · rintro ⟨j, hj, rfl⟩
        omega
      · rintro ⟨h4, h5, h6⟩
        exact ⟨i.natAbs, by omega, by omega⟩
    · rw [h3]
      simp only [INT_MIN, INT_MAX] at h1 ⊢
      constructor
      · rintro ⟨j, hj, rfl⟩
        omega
      · rintro ⟨h4, h5, h6⟩
        exact ⟨i.natAbs, by omega, by omega⟩
  · rw [if_neg h, if_neg h]
    show (∃ j : Nat, j ∈ List.range (toInt (Int.ceil d + 1)).natAbs ∧ (j : Int) * 1 = i) ↔ _
    simp only [List.mem_range]
    have hc : 0 ≤ Int.ceil d := Int.ceil_nonneg (not_lt.mp h)
    rcases toInt_cases (Int.ceil d + 1) with ⟨h1, h2, h3⟩ | ⟨h1, h3⟩
    · rw [h3]
      simp only [INT_MIN, INT_MAX] at h1 h2 ⊢
      constructor
      · rintro ⟨j, hj, rfl⟩
        omega
      · rintro ⟨h4, h5, h6⟩
        exact ⟨i.natAbs, by omega, by omega⟩
    · rw [h3]
      simp only [INT_MIN, INT_MAX] at h1 ⊢
      constructor
      · rintro ⟨j, hj, rfl⟩
        omega
      · rintro ⟨h4, h5, h6⟩
        exact ⟨i.natAbs, by omega, by omega⟩

theorem Round_bound_not_visited (D : Dbl) : (Round D).1 ∉ forIdx (Round D).1 (Round D).2 := by
  rw [(forIdx_Round_fuel D 0).2, List.mem_map]
  rintro ⟨j, hj, he⟩
  rw [List.mem_range] at hj
  have hc := Round_cases D
  simp only [INT_MIN, INT_MAX] at hc
  rcases hc with ⟨h2, h1⟩ | ⟨h2, h1⟩
  · rw [h2] at he
    omega
  · rw [h2] at he
    omega

/-- C16 as stated fails: for the fractional offset `+2.3` the loop visits
`0, 1, 2, 3` (not `1, 2, 3, 4`), and for `-1.1` it visits `0, -1, -2` (not
`0, -1, -2, -3`). -/
theorem search_range_examples_differ :
    forIdx (Round (Dbl.fin (23/10))).1 (Round (Dbl.fin (23/10))).2 = [0, 1, 2, 3]
      ∧ forIdx (Round (Dbl.fin (23/10))).1 (Round (Dbl.fin (23/10))).2 ≠ [1, 2, 3, 4]
      ∧ forIdx (Round (Dbl.fin (-11/10))).1 (Round (Dbl.fin (-11/10))).2 = [0, -1, -2]
      ∧ forIdx (Round (Dbl.fin (-11/10))).1 (Round (Dbl.fin (-11/10))).2 ≠ [0, -1, -2, -3] := by
  refine ⟨?_, ?_, ?_, ?_⟩ <;> with_unfolding_all decide

/-- C16, amended: per axis, the integer translations enumerated by the
fixed-molecule search for a fractional offset of `+2.3` are exactly
`0, 1, 2, 3`, and for `-1.1` exactly `0, -1, -2`: for every finite offset `d`
the loop counter runs from zero, in the sign of the offset, up to and
including the offset rounded away from zero (`ceil d` for `d ≥ 0`, `floor d`
for `d < 0`), and never beyond the `int` values `2147483647` and
`-2147483647`; the bound returned by `Round`, one cell further, is not
visited, whatever the offset `D`, finite or not. -/
theorem search_range_per_axis (d : ℚ) (D : Dbl) :
    forIdx (Round (Dbl.fin (23/10))).1 (Round (Dbl.fin (23/10))).2 = [0, 1, 2, 3]
      ∧ forIdx (Round (Dbl.fin (-11/10))).1 (Round (Dbl.fin (-11/10))).2 = [0, -1, -2]
      ∧ forIdx (Round D).1 (Round D).2
        = (List.range (Round D).1.natAbs).map (fun (j : Nat) => (j : Int) * (Round D).2)
      ∧ Round (Dbl.fin d)
        = (if d < 0 then (toInt (Int.floor d - 1), -1) else (toInt (Int.ceil d + 1), 1))
      ∧ (∀ i : Int, i ∈ forIdx (Round (Dbl.fin d)).1 (Round (Dbl.fin d)).2
          ↔ (if d < 0 then Int.floor d ≤ i ∧ -INT_MAX ≤ i ∧ i ≤ 0
             else 0 ≤ i ∧ i ≤ Int.ceil d ∧ i ≤ INT_MAX))
      ∧ (Round D).1 ∉ forIdx (Round D).1 (Round D).2 :=
  ⟨by with_unfolding_all decide, by with_unfolding_all decide,
    (forIdx_Round_fuel D 0).2, rfl, mem_forIdx_Round d, Round_bound_not_visited D⟩

/-! ## A nearest image outside the search range -/

/-- C17: there are a cell, a reference point and a fixed-molecule centre for
which the bounded search misses the nearest image.  In the triclinic cell
`boxSkew` with the molecule at the origin and the reference point
`(1/2, 27/5, 0)`, the fractional offset is `(-47/20, 3/5, 0)`, the search
visits `ix` in `0 .. -3` and `iy` in `0 .. 1`, keeps the zero translation at
squared distance `2941/100` (well below the initial `mindist2`), while the
lattice translation `(-4, 1, 0)`, which is not visited, puts the centre at
squared distance `1321/100`. -/
theorem bounded_search_misses_nearest_image :
    ∃ (self : Action_AutoImage) (frm : Frame) (anchorcenter : Vec3) (firstAtom lastAtom : Nat)
      (nx ny nz : Int),
      DIST2_NoImage anchorcenter
          (Vec3.add (molCenter self.useMass_ frm firstAtom lastAtom)
            (candTrans self.ortho_ frm.BoxCrd nx ny nz))
        < DIST2_NoImage anchorcenter
          (Vec3.add (molCenter self.useMass_ frm firstAtom lastAtom)
            (fixedSearch self frm anchorcenter firstAtom lastAtom).minTrans)
      ∧ (nx, ny, nz) ∉ fixedTriples self frm anchorcenter firstAtom lastAtom
      ∧ DIST2_NoImage anchorcenter (molCenter self.useMass_ frm firstAtom lastAtom)
        < initDist2 frm.BoxCrd
      ∧ searchDxyz self frm anchorcenter firstAtom lastAtom
        = ⟨Dbl.fin (-47/20), Dbl.fin (3/5), Dbl.fin 0⟩
      ∧ DIST2_NoImage anchorcenter
          (Vec3.add (molCenter self.useMass_ frm firstAtom lastAtom)
            (candTrans self.ortho_ frm.BoxCrd nx ny nz)) = 1321/100
      ∧ DIST2_NoImage anchorcenter
          (Vec3.add (molCenter self.useMass_ frm firstAtom lastAtom)
            (fixedSearch self frm anchorcenter firstAtom lastAtom).minTrans) = 2941/100 := by
  have hmin : (fixedSearch actionSkew frameSkew ⟨1/2, 27/5, 0⟩ 0 1).minTrans = ⟨0, 0, 0⟩ := by
    with_unfolding_all decide
  have hcen : molCenter actionSkew.useMass_ frameSkew 0 1 = ⟨0, 0, 0⟩ := by
    with_unfolding_all decide
  have hcand : candTrans actionSkew.ortho_ frameSkew.BoxCrd (-4) 1 0 = ⟨0, 9, 0⟩ := by
    with_unfolding_all decide
  have htri : fixedTriples actionSkew frameSkew ⟨1/2, 27/5, 0⟩ 0 1
      = [(0, 0, 0), (-1, 0, 0), (-2, 0, 0), (-3, 0, 0),
         (0, 1, 0), (-1, 1, 0), (-2, 1, 0), (-3, 1, 0)] := by
    with_unfolding_all decide
  refine ⟨actionSkew, frameSkew, ⟨1/2, 27/5, 0⟩, 0, 1, -4, 1, 0, ?_, ?_, ?_, ?_, ?_, ?_⟩
  · rw [hmin, hcen, hcand]
    with_unfolding_all decide
  · rw [htri]
    decide
  · rw [hcen]
    with_unfolding_all decide
  · with_unfolding_all decide
  · rw [hcen, hcand]
    norm_num [DIST2_NoImage, Vec3.add]
  · rw [hmin, hcen]
    norm_num [DIST2_NoImage, Vec3.add]

/-! ## Action_Hbond: hbond_cmp -/

theorem hbond_cmp_iff (a b : HbondType) :
    hbond_cmp a b = true ↔ (a.Frames > b.Frames ∨ (a.Frames = b.Frames ∧ a.A < b.A)) := by
  unfold hbond_cmp
  by_cases h1 : a.Frames > b.Frames
  · rw [if_pos h1]
    exact ⟨fun _ => Or.inl h1, fun _ => rfl⟩
  · rw [if_neg h1]
    by_cases h2 : a.Frames < b.Frames
    · rw [if_pos h2]
      constructor
      · intro h
        exact absurd h (by decide)
      · rintro (h | h)
        · exact absurd h h1
        · omega
    · rw [if_neg h2, decide_eq_true_eq]
      constructor
      · intro h
        exact Or.inr ⟨by omega, h⟩
      · rintro (h | h)
        · exact absurd h h1
        · exact h.2

/-- C18: `hbond_cmp` is a strict weak ordering on `HbondType` values: it is
irreflexive and transitive, incomparability under it is transitive, and
`cmp(a, b)` holds exactly when `a.Frames > b.Frames`, or
`a.Frames = b.Frames` and `a.A < b.A`. -/
theorem hbond_cmp_strict_weak_order :
    (∀ a : HbondType, hbond_cmp a a = false)
      ∧ (∀ a b c : HbondType, hbond_cmp a b = true → hbond_cmp b c = true →
          hbond_cmp a c = true)
      ∧ (∀ a b c : HbondType,
          (hbond_cmp a b = false ∧ hbond_cmp b a = false) →
          (hbond_cmp b c = false ∧ hbond_cmp c b = false) →
          (hbond_cmp a c = false ∧ hbond_cmp c a = false))
      ∧ (∀ a b : HbondType,
          hbond_cmp a b = true
            ↔ (a.Frames > b.Frames ∨ (a.Frames = b.Frames ∧ a.A < b.A))) := by
  have hf : ∀ a b : HbondType, hbond_cmp a b = false
      ↔ ¬ (a.Frames > b.Frames ∨ (a.Frames = b.Frames ∧ a.A < b.A)) := by
    intro a b
    rw [← hbond_cmp_iff, Bool.not_eq_true]
  refine ⟨?_, ?_, ?_, hbond_cmp_iff⟩
  · intro a
    rw [hf]
    omega
  · intro a b c h1 h2
    rw [hbond_cmp_iff] at h1 h2 ⊢
    omega
  · intro a b c h1 h2
    rw [hf, hf] at h1 h2 ⊢
    omega

/-- Witness for C18: three hydrogen bonds with 5, 5 and 3 frames; the first
two are ordered by acceptor atom, and the order carries over to the third. -/
theorem hbond_cmp_strict_weak_order_witness :
    hbond_cmp ⟨1, 2, 3, 5, 0, 0⟩ ⟨4, 2, 3, 5, 0, 0⟩ = true
      ∧ hbond_cmp ⟨4, 2, 3, 5, 0, 0⟩ ⟨0, 2, 3, 3, 0, 0⟩ = true
      ∧ hbond_cmp ⟨1, 2, 3, 5, 0, 0⟩ ⟨0, 2, 3, 3, 0, 0⟩ = true :=
  ⟨by decide, by decide,
   hbond_cmp_strict_weak_order.2.1 ⟨1, 2, 3, 5, 0, 0⟩ ⟨4, 2, 3, 5, 0, 0⟩ ⟨0, 2, 3, 3, 0, 0⟩
     (by decide) (by decide)⟩

/-! ## Orthogonal boxes: the bounded range holds the nearest image -/

theorem axis_nearest_in_range (d : ℚ) (hlo : -2147483646 ≤ d) (hhi : d ≤ 2147483646)
    (n : Int) :
    ∃ i ∈ forIdx (Round (Dbl.fin d)).1 (Round (Dbl.fin d)).2,
      (d - (i : ℚ)) * (d - (i : ℚ)) ≤ (d - (n : ℚ)) * (d - (n : ℚ)) := by
  have hfl0 : (-2147483646 : Int) ≤ Int.floor d := Int.le_floor.mpr (by exact_mod_cast hlo)
  have hcl0 : Int.ceil d ≤ (2147483646 : Int) := Int.ceil_le.mpr (by exact_mod_cast hhi)
  by_cases h : d < 0
  · have hfl : (Int.floor d : ℚ) ≤ d := Int.floor_le d
    have hf0 : Int.floor d < 0 := Int.floor_lt.mpr (by exact_mod_cast h)
    by_cases h1 : n < Int.floor d
    · refine ⟨Int.floor d, (mem_forIdx_Round d _).mpr
        (by simp only [h, if_true, INT_MAX]; omega), ?_⟩
      have hn : (n : ℚ) + 1 ≤ (Int.floor d : ℚ) := by exact_mod_cast h1
      nlinarith
    · by_cases h2 : 0 < n
      · refine ⟨0, (mem_forIdx_Round d _).mpr
          (by simp only [h, if_true, INT_MAX]; omega), ?_⟩
        have hn : (1 : ℚ) ≤ (n : ℚ) := by exact_mod_cast h2
        push_cast
        nlinarith
      · exact ⟨n, (mem_forIdx_Round d _).mpr
          (by simp only [h, if_true, INT_MAX]; omega), le_refl _⟩
  · have hd : 0 ≤ d := not_lt.mp h
    have hcl : d ≤ (Int.ceil d : ℚ) := Int.le_ceil d
    have hc0 : 0 ≤ Int.ceil d := Int.ceil_nonneg hd
    by_cases h1 : Int.ceil d < n
    · refine ⟨Int.ceil d, (mem_forIdx_Round d _).mpr
        (by simp only [h, if_false, INT_MAX]; omega), ?_⟩
      have hn : (Int.ceil d : ℚ) + 1 ≤ (n : ℚ) := by exact_mod_cast h1
      nlinarith
    · by_cases h2 : n < 0
      · refine ⟨0, (mem_forIdx_Round d _).mpr
          (by simp only [h, if_false, INT_MAX]; omega), ?_⟩
        have hn : (n : ℚ) + 1 ≤ 0 := by exact_mod_cast h2
        push_cast
        nlinarith
      · exact ⟨n, (mem_forIdx_Round d _).mpr
          (by simp only [h, if_false, INT_MAX]; omega), le_refl _⟩

theorem Dbl_div_of_ne (a b : ℚ) (h : b ≠ 0) : Dbl.div a b = Dbl.fin (a / b) := by
  unfold Dbl.div
  rw [if_neg h]

theorem axis_nearest_scaled (len delta : ℚ) (hlen : 0 < len)
    (hr : -(2147483646 * len) ≤ delta ∧ delta ≤ 2147483646 * len) (n : Int) :
    ∃ i ∈ forIdx (Round (Dbl.div delta len)).1 (Round (Dbl.div delta len)).2,
      (delta - len * (i : ℚ)) * (delta - len * (i : ℚ))
        ≤ (delta - len * (n : ℚ)) * (delta - len * (n : ℚ)) := by
  rw [Dbl_div_of_ne delta len (ne_of_gt hlen)]
  have hlo : -2147483646 ≤ delta / len := by
    rw [le_div_iff₀ hlen]
    linarith [hr.1]
  have hhi : delta / len ≤ 2147483646 := by
    rw [div_le_iff₀ hlen]
    exact hr.2
  obtain ⟨i, hi, hle⟩ := axis_nearest_in_range (delta / len) hlo hhi n
  refine ⟨i, hi, ?_⟩
  have e : ∀ k : ℚ, (delta - len * k) * (delta - len * k)
      = len * len * ((delta / len - k) * (delta / len - k)) := by
    intro k
    have hne : len ≠ 0 := ne_of_gt hlen
    field_simp
  rw [e, e]
  exact mul_le_mul_of_nonneg_left hle (le_of_lt (mul_pos hlen hlen))

theorem mem_searchTriples (xs ys zs : List Int) (ix iy iz : Int) :
    (ix, iy, iz) ∈ searchTriples xs ys zs ↔ ix ∈ xs ∧ iy ∈ ys ∧ iz ∈ zs := by
  simp only [searchTriples, List.mem_flatMap, List.mem_map, Prod.mk.injEq]
  constructor
  · rintro ⟨z, hz, y, hy, x, hx, rfl, rfl, rfl⟩
    exact ⟨hx, hy, hz⟩
  · rintro ⟨hx, hy, hz⟩
    exact ⟨iz, hz, iy, hy, ix, hx, rfl, rfl, rfl⟩

theorem candDist2_ortho (box : Box) (ac fc : Vec3) (ix iy iz : Int) :
    candDist2 true box ac fc (ix, iy, iz)
      = (ac.x - fc.x - box.BoxX * (ix : ℚ)) * (ac.x - fc.x - box.BoxX * (ix : ℚ))
        + (ac.y - fc.y - box.BoxY * (iy : ℚ)) * (ac.y - fc.y - box.BoxY * (iy : ℚ))
        + (ac.z - fc.z - box.BoxZ * (iz : ℚ)) * (ac.z - fc.z - box.BoxZ * (iz : ℚ)) := by
  simp only [candDist2, candTrans, if_true, DIST2_NoImage, Vec3.add]
  ring

theorem fixedTriples_ortho (self : Action_AutoImage) (frm : Frame) (ac : Vec3)
    (firstAtom lastAtom : Nat) (hortho : self.ortho_ = true) :
    fixedTriples self frm ac firstAtom lastAtom
      = searchTriples
          (forIdx
            (Round (Dbl.div (ac.x - (molCenter self.useMass_ frm firstAtom lastAtom).x)
              frm.BoxCrd.BoxX)).1
            (Round (Dbl.div (ac.x - (molCenter self.useMass_ frm firstAtom lastAtom).x)
              frm.BoxCrd.BoxX)).2)
          (forIdx
            (Round (Dbl.div (ac.y - (molCenter self.useMass_ frm firstAtom lastAtom).y)
              frm.BoxCrd.BoxY)).1
            (Round (Dbl.div (ac.y - (molCenter self.useMass_ frm firstAtom lastAtom).y)
              frm.BoxCrd.BoxY)).2)
          (forIdx
            (Round (Dbl.div (ac.z - (molCenter self.useMass_ frm firstAtom lastAtom).z)
              frm.BoxCrd.BoxZ)).1
            (Round (Dbl.div (ac.z - (molCenter self.useMass_ frm firstAtom lastAtom).z)
              frm.BoxCrd.BoxZ)).2) := by
  simp only [fixedTriples, searchDxyz, hortho, if_true, Vec3.div, Vec3.sub, Box.Lengths]

theorem firstMin_fixedTriples (self : Action_AutoImage) (frm : Frame) (anchorcenter : Vec3)
    (firstAtom lastAtom : Nat) :
    ∃ c, firstMin (candDist2 self.ortho_ frm.BoxCrd anchorcenter
      (molCenter self.useMass_ frm firstAtom lastAtom))
      (fixedTriples self frm anchorcenter firstAtom lastAtom) = some c := by
  obtain ⟨rest, hrest⟩ := fixedTriples_head self frm anchorcenter firstAtom lastAtom
  cases hf : firstMin (candDist2 self.ortho_ frm.BoxCrd anchorcenter
    (molCenter self.useMass_ frm firstAtom lastAtom))
    (fixedTriples self frm anchorcenter firstAtom lastAtom) with
  | none =>
    rw [firstMin_eq_none, hrest] at hf
    exact absurd hf (List.cons_ne_nil _ _)
  | some c => exact ⟨c, rfl⟩

theorem fixedSearch_minTrans_mem (self : Action_AutoImage) (frm : Frame) (anchorcenter : Vec3)
    (firstAtom lastAtom : Nat) :
    ∃ c ∈ fixedTriples self frm anchorcenter firstAtom lastAtom,
      (fixedSearch self frm anchorcenter firstAtom lastAtom).minTrans
        = candTrans self.ortho_ frm.BoxCrd c.1 c.2.1 c.2.2 := by
  obtain ⟨rest, hrest⟩ := fixedTriples_head self frm anchorcenter firstAtom lastAtom
  obtain ⟨c, hc⟩ := firstMin_fixedTriples self frm anchorcenter firstAtom lastAtom
  obtain ⟨pre, post, hl, _, _⟩ := firstMin_spec _ _ c hc
  rw [fixedSearch_eq_firstMin self frm anchorcenter firstAtom lastAtom c hc]
  by_cases hb : candDist2 self.ortho_ frm.BoxCrd anchorcenter
      (molCenter self.useMass_ frm firstAtom lastAtom) c < initDist2 frm.BoxCrd
  · rw [if_pos hb]
    refine ⟨c, ?_, rfl⟩
    rw [hl]
    exact List.mem_append_right _ (List.mem_cons_self _ _)
  · rw [if_neg hb]
    refine ⟨(0, 0, 0), ?_, (candTrans_zero _ _).symm⟩
    rw [hrest]
    exact List.mem_cons_self _ _

theorem ortho_search_nearest (self : Action_AutoImage) (frm : Frame) (anchorcenter : Vec3)
    (firstAtom lastAtom : Nat) (hortho : self.ortho_ = true)
    (hx : 0 < frm.BoxCrd.BoxX) (hy : 0 < frm.BoxCrd.BoxY) (hz : 0 < frm.BoxCrd.BoxZ)
    (hthr : DIST2_NoImage anchorcenter (molCenter self.useMass_ frm firstAtom lastAtom)
      < initDist2 frm.BoxCrd)
    (hrx : -(2147483646 * frm.BoxCrd.BoxX)
        ≤ anchorcenter.x - (molCenter self.useMass_ frm firstAtom lastAtom).x
      ∧ anchorcenter.x - (molCenter self.useMass_ frm firstAtom lastAtom).x
        ≤ 2147483646 * frm.BoxCrd.BoxX)
    (hry : -(2147483646 * frm.BoxCrd.BoxY)
        ≤ anchorcenter.y - (molCenter self.useMass_ frm firstAtom lastAtom).y
      ∧ anchorcenter.y - (molCenter self.useMass_ frm firstAtom lastAtom).y
        ≤ 2147483646 * frm.BoxCrd.BoxY)
    (hrz : -(2147483646 * frm.BoxCrd.BoxZ)
        ≤ anchorcenter.z - (molCenter self.useMass_ frm firstAtom lastAtom).z
      ∧ anchorcenter.z - (molCenter self.useMass_ frm firstAtom lastAtom).z
        ≤ 2147483646 * frm.BoxCrd.BoxZ)
    (nx ny nz : Int) :
    DIST2_NoImage anchorcenter
        (Vec3.add (molCenter self.useMass_ frm firstAtom lastAtom)
          (fixedSearch self frm anchorcenter firstAtom lastAtom).minTrans)
      ≤ DIST2_NoImage anchorcenter
        (Vec3.add (molCenter self.useMass_ frm firstAtom lastAtom)
          ⟨frm.BoxCrd.BoxX * nx, frm.BoxCrd.BoxY * ny, frm.BoxCrd.BoxZ * nz⟩) := by
  obtain ⟨rest, hrest⟩ := fixedTriples_head self frm anchorcenter firstAtom lastAtom
  obtain ⟨c, hc⟩ := firstMin_fixedTriples self frm anchorcenter firstAtom lastAtom
  obtain ⟨pre, post, hl, hpre, hpost⟩ := firstMin_spec _ _ c hc
  have hmin : ∀ t ∈ fixedTriples self frm anchorcenter firstAtom lastAtom,
      candDist2 self.ortho_ frm.BoxCrd anchorcenter
          (molCenter self.useMass_ frm firstAtom lastAtom) c
        ≤ candDist2 self.ortho_ frm.BoxCrd anchorcenter
          (molCenter self.useMass_ frm firstAtom lastAtom) t := by
    intro t ht
    rw [hl] at ht
    rcases List.mem_append.mp ht with h | h
    · exact le_of_lt (hpre t h)
    · rcases List.mem_cons.mp h with rfl | h
      · exact le_refl _
      · exact hpost t h
  have hzero : candDist2 self.ortho_ frm.BoxCrd anchorcenter
      (molCenter self.useMass_ frm firstAtom lastAtom) (0, 0, 0)
      = DIST2_NoImage anchorcenter (molCenter self.useMass_ frm firstAtom lastAtom) := by
    simp only [candDist2, candTrans_zero, vec_add_zero]
  have hc0 := hmin (0, 0, 0) (by rw [hrest]; exact List.mem_cons_self _ _)
  have hbelow : candDist2 self.ortho_ frm.BoxCrd anchorcenter
      (molCenter self.useMass_ frm firstAtom lastAtom) c < initDist2 frm.BoxCrd := by
    rw [hzero] at hc0
    exact lt_of_le_of_lt hc0 hthr
  rw [fixedSearch_eq_firstMin self frm anchorcenter firstAtom lastAtom c hc, if_pos hbelow]
  obtain ⟨ix, hix, hxle⟩ := axis_nearest_scaled frm.BoxCrd.BoxX
    (anchorcenter.x - (molCenter self.useMass_ frm firstAtom lastAtom).x) hx hrx nx
  obtain ⟨iy, hiy, hyle⟩ := axis_nearest_scaled frm.BoxCrd.BoxY
    (anchorcenter.y - (molCenter self.useMass_ frm firstAtom lastAtom).y) hy hry ny
  obtain ⟨iz, hiz, hzle⟩ := axis_nearest_scaled frm.BoxCrd.BoxZ
    (anchorcenter.z - (molCenter self.useMass_ frm firstAtom lastAtom).z) hz hrz nz
  have hmem : (ix, iy, iz) ∈ fixedTriples self frm anchorcenter firstAtom lastAtom := by
    rw [fixedTriples_ortho self frm anchorcenter firstAtom lastAtom hortho, mem_searchTriples]
    exact ⟨hix, hiy, hiz⟩
  have h1 := hmin (ix, iy, iz) hmem
  have hn : DIST2_NoImage anchorcenter
      (Vec3.add (molCenter self.useMass_ frm firstAtom lastAtom)
        ⟨frm.BoxCrd.BoxX * nx, frm.BoxCrd.BoxY * ny, frm.BoxCrd.BoxZ * nz⟩)
      = candDist2 true frm.BoxCrd anchorcenter
          (molCenter self.useMass_ frm firstAtom lastAtom) (nx, ny, nz) := by
    simp only [candDist2, candTrans, if_true]
  have hsel : DIST2_NoImage anchorcenter
      (Vec3.add (molCenter self.useMass_ frm firstAtom lastAtom)
        (candTrans self.ortho_ frm.BoxCrd c.1 c.2.1 c.2.2))
      = candDist2 true frm.BoxCrd anchorcenter
          (molCenter self.useMass_ frm firstAtom lastAtom) (c.1, c.2.1, c.2.2) := by
    rw [hortho]
    rfl
  have h1' : candDist2 true frm.BoxCrd anchorcenter
        (molCenter self.useMass_ frm firstAtom lastAtom) (c.1, c.2.1, c.2.2)
      ≤ candDist2 true frm.BoxCrd anchorcenter
        (molCenter self.useMass_ frm firstAtom lastAtom) (ix, iy, iz) := by
    rw [hortho] at h1
    exact h1
  rw [hn, hsel, candDist2_ortho, candDist2_ortho]
  rw [candDist2_ortho, candDist2_ortho] at h1'
  linarith

theorem molCenter_single (frm : Frame) (a : Nat) :
    molCenter false frm a (a + 1) = frm.X.getD a Vec3.zero := by
  have h : a + 1 - a = 1 := by omega
  simp [molCenter, Frame.VGeometricCenterR, Frame.VGeometricCenter, h, List.range', centerOf,
    sumWeights, sumAtoms, Vec3.sdiv, Vec3.smul, Vec3.add, Vec3.zero]

theorem far_molCenter :
    molCenter actionFar.useMass_ frameFar 1 2 = ⟨1/2 - 3000000000, 50000, 50000⟩ :=
  molCenter_single frameFar 1

theorem far_search_ix_le (c : Int × Int × Int)
    (hc : c ∈ fixedTriples actionFar frameFar boxFar.Center 1 2) : c.1 ≤ 2147483647 := by
  have hcen := far_molCenter
  have hd : Dbl.div (boxFar.Center.x - (molCenter actionFar.useMass_ frameFar 1 2).x)
      frameFar.BoxCrd.BoxX = Dbl.fin 3000000000 := by
    rw [hcen]
    have h1 : frameFar.BoxCrd.BoxX = 1 := rfl
    rw [h1, Dbl_div_of_ne _ _ one_ne_zero]
    congr 1
    norm_num [Box.Center, boxFar]
  obtain ⟨ix, iy, iz⟩ := c
  rw [fixedTriples_ortho actionFar frameFar boxFar.Center 1 2 rfl, mem_searchTriples, hd,
    mem_forIdx_Round] at hc
  have hpos : ¬ ((3000000000 : ℚ) < 0) := by norm_num
  rw [if_neg hpos] at hc
  exact hc.1.2.2

theorem far_search_misses :
    DIST2_NoImage boxFar.Center
        (Vec3.add (molCenter actionFar.useMass_ frameFar 1 2)
          ⟨frameFar.BoxCrd.BoxX * ((3000000000 : Int) : ℚ),
           frameFar.BoxCrd.BoxY * ((0 : Int) : ℚ), frameFar.BoxCrd.BoxZ * ((0 : Int) : ℚ)⟩)
      < DIST2_NoImage boxFar.Center
        (Vec3.add (molCenter actionFar.useMass_ frameFar 1 2)
          (fixedSearch actionFar frameFar boxFar.Center 1 2).minTrans) := by
  have hcen := far_molCenter
  obtain ⟨c, hc, hmt⟩ := fixedSearch_minTrans_mem actionFar frameFar boxFar.Center 1 2
  have hix := far_search_ix_le c hc
  have hix' : (c.1 : ℚ) ≤ 2147483647 := by exact_mod_cast hix
  have ho : actionFar.ortho_ = true := rfl
  rw [hmt, hcen, ho]
  simp only [DIST2_NoImage, Vec3.add, candTrans, if_true, frameFar, boxFar, Box.Center]
  have h1 : (0 : ℚ) < 3000000000 - (c.1 : ℚ) := by linarith
  have h2 := mul_pos h1 h1
  have h3 := mul_self_nonneg ((100000 : ℚ) / 2 - (50000 + 100000 * (c.2.1 : ℚ)))
  have h4 := mul_self_nonneg ((100000 : ℚ) / 2 - (50000 + 100000 * (c.2.2 : ℚ)))
  push_cast
  nlinarith

/-- C19 as stated fails: in the orthogonal box `1 x 100000 x 100000` a fixed
molecule `3000000000` box lengths from the reference point along x is at
squared distance `9 * 10^18`, below the initial `mindist2` of `10^20`; the
lattice translation `(3000000000 * BoxX, 0, 0)` puts it on the reference
point, but the `int` counter `ix` never exceeds `2147483647`, so the selected
translation leaves it strictly farther away. -/
theorem ortho_search_misses_far_image :
    actionFar.ortho_ = true
      ∧ 0 < frameFar.BoxCrd.BoxX ∧ 0 < frameFar.BoxCrd.BoxY ∧ 0 < frameFar.BoxCrd.BoxZ
      ∧ DIST2_NoImage boxFar.Center (molCenter actionFar.useMass_ frameFar 1 2)
        < (frameFar.BoxCrd.BoxX * frameFar.BoxCrd.BoxY * frameFar.BoxCrd.BoxZ)
          * (frameFar.BoxCrd.BoxX * frameFar.BoxCrd.BoxY * frameFar.BoxCrd.BoxZ)
      ∧ Round (Dbl.fin 3000000000) = (-2147483648, 1)
      ∧ DIST2_NoImage boxFar.Center
          (Vec3.add (molCenter actionFar.useMass_ frameFar 1 2)
            ⟨frameFar.BoxCrd.BoxX * ((3000000000 : Int) : ℚ),
             frameFar.BoxCrd.BoxY * ((0 : Int) : ℚ), frameFar.BoxCrd.BoxZ * ((0 : Int) : ℚ)⟩)
        < DIST2_NoImage boxFar.Center
          (Vec3.add (molCenter actionFar.useMass_ frameFar 1 2)
            (fixedSearch actionFar frameFar boxFar.Center 1 2).minTrans) :=
  ⟨rfl, by with_unfolding_all decide, by with_unfolding_all decide,
    by with_unfolding_all decide, by with_unfolding_all decide, by with_unfolding_all decide,
    far_search_misses⟩

/-- C19, amended: for an orthogonal box with positive lengths (orthogonal
path), every reference point and every fixed-molecule centre whose
untranslated squared distance to the reference point is below the initial
`mindist2`, the squared product of the box lengths, and whose offset from the
reference point is at most `2147483646` box lengths along each axis (so that
no loop bound leaves the `int` range), the
translation selected by the bounded search brings the centre at least as
close to the reference point as every integer lattice translation
`(nx * BoxX, ny * BoxY, nz * BoxZ)`, enumerated or not. -/
theorem ortho_search_finds_nearest_image_in_int_range (self : Action_AutoImage) (frm : Frame)
    (anchorcenter : Vec3) (firstAtom lastAtom : Nat) (hortho : self.ortho_ = true)
    (hx : 0 < frm.BoxCrd.BoxX) (hy : 0 < frm.BoxCrd.BoxY) (hz : 0 < frm.BoxCrd.BoxZ)
    (hthr : DIST2_NoImage anchorcenter (molCenter self.useMass_ frm firstAtom lastAtom)
      < (frm.BoxCrd.BoxX * frm.BoxCrd.BoxY * frm.BoxCrd.BoxZ)
        * (frm.BoxCrd.BoxX * frm.BoxCrd.BoxY * frm.BoxCrd.BoxZ))
    (hrx : -(2147483646 * frm.BoxCrd.BoxX)
        ≤ anchorcenter.x - (molCenter self.useMass_ frm firstAtom lastAtom).x
      ∧ anchorcenter.x - (molCenter self.useMass_ frm firstAtom lastAtom).x
        ≤ 2147483646 * frm.BoxCrd.BoxX)
    (hry : -(2147483646 * frm.BoxCrd.BoxY)
        ≤ anchorcenter.y - (molCenter self.useMass_ frm firstAtom lastAtom).y
      ∧ anchorcenter.y - (molCenter self.useMass_ frm firstAtom lastAtom).y
        ≤ 2147483646 * frm.BoxCrd.BoxY)
    (hrz : -(2147483646 * frm.BoxCrd.BoxZ)
        ≤ anchorcenter.z - (molCenter self.useMass_ frm firstAtom lastAtom).z
      ∧ anchorcenter.z - (molCenter self.useMass_ frm firstAtom lastAtom).z
        ≤ 2147483646 * frm.BoxCrd.BoxZ) :
    ∀ nx ny nz : Int,
      DIST2_NoImage anchorcenter
          (Vec3.add (molCenter self.useMass_ frm firstAtom lastAtom)
            (fixedSearch self frm anchorcenter firstAtom lastAtom).minTrans)
        ≤ DIST2_NoImage anchorcenter
          (Vec3.add (molCenter self.useMass_ frm firstAtom lastAtom)
            ⟨frm.BoxCrd.BoxX * nx, frm.BoxCrd.BoxY * ny, frm.BoxCrd.BoxZ * nz⟩) :=
  fun nx ny nz =>
    ortho_search_nearest self frm anchorcenter firstAtom lastAtom hortho hx hy hz hthr
      hrx hry hrz nx ny nz

/-- Witness for C19 (amended): the far molecule of `exampleFrame` in the
30 x 30 x 30 box; the selected image is at least as close to `(15, 15, 15)`
as the one five boxes further along x. -/
theorem ortho_search_finds_nearest_image_in_int_range_witness :
    DIST2_NoImage ⟨15, 15, 15⟩
        (Vec3.add (molCenter exampleAction.useMass_ exampleFrame 3 5)
          (fixedSearch exampleAction exampleFrame ⟨15, 15, 15⟩ 3 5).minTrans)
      ≤ DIST2_NoImage ⟨15, 15, 15⟩
        (Vec3.add (molCenter exampleAction.useMass_ exampleFrame 3 5)
          ⟨exampleFrame.BoxCrd.BoxX * ((-5 : Int) : ℚ), exampleFrame.BoxCrd.BoxY * ((0 : Int) : ℚ),
           exampleFrame.BoxCrd.BoxZ * ((0 : Int) : ℚ)⟩) :=
  ortho_search_finds_nearest_image_in_int_range exampleAction exampleFrame ⟨15, 15, 15⟩ 3 5 rfl
    (by with_unfolding_all decide) (by with_unfolding_all decide) (by with_unfolding_all decide)
    (by with_unfolding_all decide) (by with_unfolding_all decide) (by with_unfolding_all decide)
    (by with_unfolding_all decide) (-5) 0 0

/-! ## Termination of the search loops -/

end Cpptraj
